import Mathlib

/-!
Verification development for the real-estate analysis service
(`src/api/views.py` of jadhav-sakshi18/real-estate-analysis-bot).

The Python source is shallowly embedded: pandas data frames become lists of
rows of cells, Python floats become exact rationals (`ℚ`), fallible Python
code runs in `Except PyErr`, and the bare `try/except` blocks of the source
become explicit `Except` case splits.  Module-level mutable state
(`_cached_df` and the `lru_cache` slot of `load_dataframe`) is threaded as an
explicit `ServerState`.

Modelling conventions, noted once here:
* Python `float` values are modelled as exact rationals; binary floating
  point rounding, `inf`/`nan` literals and underscore digit separators are
  outside the model (no claim depends on them).
* Python string case/whitespace primitives are modelled at ASCII level
  (`Char.toLower`, `Char.isWhitespace`, …), matching the data the service
  handles.
* `pandas.DataFrame.sort_values` (quicksort, hence unstable) is modelled by
  a stable sort; every property proved below is insensitive to the order of
  rows within one year group.
-/

set_option maxRecDepth 8000

deriving instance DecidableEq for Except

namespace RealEstate

/-! ### Kernel-reducible rational arithmetic

`Rat.add`/`Rat.mul`/`Rat.div` do not reduce inside the kernel, so the
embedding uses its own operations built on `Rat.divInt` (which does reduce)
and proves them equal to the Mathlib operations for use in proofs. -/

/-- Addition on `ℚ` via `Rat.divInt`; equal to `· + ·` (see `qAdd_eq`). -/
def qAdd (x y : ℚ) : ℚ :=
  Rat.divInt (x.num * (y.den : ℤ) + y.num * (x.den : ℤ)) ((x.den : ℤ) * (y.den : ℤ))

/-- Subtraction on `ℚ` via `Rat.divInt`. -/
def qSub (x y : ℚ) : ℚ :=
  Rat.divInt (x.num * (y.den : ℤ) - y.num * (x.den : ℤ)) ((x.den : ℤ) * (y.den : ℤ))

/-- Multiplication on `ℚ` via `Rat.divInt`. -/
def qMul (x y : ℚ) : ℚ :=
  Rat.divInt (x.num * y.num) ((x.den : ℤ) * (y.den : ℤ))

/-- Division on `ℚ` via `Rat.divInt` (yields `0` for a zero divisor, like `ℚ`). -/
def qDiv (x y : ℚ) : ℚ :=
  Rat.divInt (x.num * (y.den : ℤ)) ((x.den : ℤ) * y.num)

theorem qAdd_eq (x y : ℚ) : qAdd x y = x + y := by
  have hx : ((x.den : ℤ)) ≠ 0 := Int.natCast_ne_zero.mpr x.den_nz
  have hy : ((y.den : ℤ)) ≠ 0 := Int.natCast_ne_zero.mpr y.den_nz
  conv_rhs => rw [← Rat.num_divInt_den x, ← Rat.num_divInt_den y]
  rw [Rat.divInt_add_divInt _ _ hx hy, qAdd]

theorem qSub_eq (x y : ℚ) : qSub x y = x - y := by
  have hx : ((x.den : ℤ)) ≠ 0 := Int.natCast_ne_zero.mpr x.den_nz
  have hy : ((y.den : ℤ)) ≠ 0 := Int.natCast_ne_zero.mpr y.den_nz
  conv_rhs => rw [← Rat.num_divInt_den x, ← Rat.num_divInt_den y]
  rw [Rat.divInt_sub_divInt _ _ hx hy, qSub]

theorem qMul_eq (x y : ℚ) : qMul x y = x * y := by
  have hx : ((x.den : ℤ)) ≠ 0 := Int.natCast_ne_zero.mpr x.den_nz
  have hy : ((y.den : ℤ)) ≠ 0 := Int.natCast_ne_zero.mpr y.den_nz
  conv_rhs => rw [← Rat.num_divInt_den x, ← Rat.num_divInt_den y]
  rw [Rat.divInt_mul_divInt _ _ hx hy, qMul]

theorem qDiv_eq (x y : ℚ) : qDiv x y = x / y := by
  conv_rhs => rw [← Rat.num_divInt_den x, ← Rat.num_divInt_den y]
  rw [Rat.divInt_div_divInt, qDiv]

/-- Sum of a list of rationals, via `qAdd` (Python `sum`). -/
def qSum : List ℚ → ℚ
  | [] => 0
  | x :: xs => qAdd x (qSum xs)

theorem qSum_eq (l : List ℚ) : qSum l = l.sum := by
  induction l with
  | nil => rfl
  | cons x xs ih => rw [qSum, qAdd_eq, ih, List.sum_cons]

/-- Arithmetic mean of a list of rationals (Python `sum(l)/len(l)`). -/
def qMean (l : List ℚ) : ℚ := qDiv (qSum l) (l.length : ℚ)

theorem qMean_eq (l : List ℚ) : qMean l = l.sum / (l.length : ℚ) := by
  rw [qMean, qDiv_eq, qSum_eq]

/-- Floor of a rational, computed with integer division so that it
kernel-reduces. -/
def qFloor (q : ℚ) : ℤ := q.num / (q.den : ℤ)

theorem qFloor_eq (q : ℚ) : qFloor q = ⌊q⌋ := Rat.floor_def.symm

/-- Truncation toward zero, the behaviour of Python `int()` on a float. -/
def qTrunc (q : ℚ) : ℤ := if 0 ≤ q.num then qFloor q else -qFloor (-q)

/-- `10 ^ e` for an integer exponent `e`, kernel-reducibly. -/
def qPow10 (e : ℤ) : ℚ :=
  if 0 ≤ e then Rat.divInt ((10 : ℤ) ^ e.toNat) 1 else Rat.divInt 1 ((10 : ℤ) ^ (-e).toNat)

/-- Round half-to-even to an integer (Python `round` / `%.1f` formatting on
the exact rational value). -/
def qRoundHalfEven (q : ℚ) : ℤ :=
  let f := qFloor q
  let r := qSub q (Rat.divInt f 1)
  if decide (r < Rat.divInt 1 2) then f
  else if decide (Rat.divInt 1 2 < r) then f + 1
  else if f % 2 = 0 then f else f + 1

/-- Python `round(x, 2)` on the exact rational value. -/
def pyRound2 (q : ℚ) : ℚ := Rat.divInt (qRoundHalfEven (qMul q (Rat.divInt 100 1))) 100

/-! ### Python string primitives -/

/-- Whitespace as stripped by Python string methods (ASCII model). -/
def pySpaceB (c : Char) : Bool := c.isWhitespace

/-- Python `str.strip()`: drop leading and trailing whitespace. -/
def pyStrip (s : String) : String :=
  ⟨((s.data.dropWhile pySpaceB).reverse.dropWhile pySpaceB).reverse⟩

/-- Python `str.lower()` (ASCII model). -/
def pyLower (s : String) : String := ⟨s.data.map Char.toLower⟩

/-- Worker for Python `str.title()`: the flag records whether the previous
character was alphabetic (word-internal position). -/
def pyTitleChars : Bool → List Char → List Char
  | _, [] => []
  | prevAlpha, c :: cs =>
    (if c.isAlpha then (if prevAlpha then c.toLower else c.toUpper) else c)
      :: pyTitleChars c.isAlpha cs

/-- Python `str.title()` (ASCII model): upper-case each alphabetic run's
first character, lower-case the rest of the run. -/
def pyTitle (s : String) : String := ⟨pyTitleChars false s.data⟩

/-- Membership of `n` as a contiguous sublist of a character list. -/
def infixOfB (n : List Char) : List Char → Bool
  | [] => n.isEmpty
  | c :: cs => n.isPrefixOf (c :: cs) || infixOfB n cs

/-- Python substring test `needle in hay`. -/
def pyIn (needle hay : String) : Bool := infixOfB needle.data hay.data

/-- Python `str.endswith(suffix)`. -/
def pyEndsWith (s suffix : String) : Bool :=
  suffix.data.reverse.isPrefixOf s.data.reverse

/-- Python `str.replace(old, new)` for one-character patterns, as used on
column names (a single-character replace is a character map). -/
def pyReplaceChar (old new : Char) (s : String) : String :=
  ⟨s.data.map (fun c => if c = old then new else c)⟩

/-- Numeric value of a digit string. -/
def natOfDigits (l : List Char) : ℕ :=
  l.foldl (fun n c => 10 * n + (c.toNat - 48)) 0

/-- Parse a non-empty all-digit character run. -/
def parseUDigits? (cs : List Char) : Option ℕ :=
  if cs ≠ [] ∧ cs.all Char.isDigit then some (natOfDigits cs) else none

/-- Split a character list at the first occurrence of a separator satisfying
`p`, if any. -/
def splitAtFirst (p : Char → Bool) (cs : List Char) : List Char × Option (List Char) :=
  match cs.findIdx? p with
  | none => (cs, none)
  | some i => (cs.take i, some (cs.drop (i + 1)))

/-- Mantissa of a Python float literal: digits with at most one dot and at
least one digit. -/
def parseMant (cs : List Char) : Option ℚ :=
  match splitAtFirst (fun c => c = '.') cs with
  | (ds, none) => (parseUDigits? ds).map (fun n => Rat.divInt (n : ℤ) 1)
  | (l, some r) =>
    if (l ++ r) ≠ [] ∧ (l ++ r).all Char.isDigit then
      some (Rat.divInt ((natOfDigits (l ++ r) : ℤ)) ((10 : ℤ) ^ r.length))
    else none

/-- Exponent of a Python float literal: optional sign and digits. -/
def parseExp (cs : List Char) : Option ℤ :=
  match cs with
  | '+' :: rest => (parseUDigits? rest).map (fun n => (n : ℤ))
  | '-' :: rest => (parseUDigits? rest).map (fun n => -(n : ℤ))
  | _ => (parseUDigits? cs).map (fun n => (n : ℤ))

/-- Python `float(str)` on its decimal grammar: optional surrounding
whitespace, optional sign, digits with an optional dot, optional exponent.
`inf`/`nan` literals and underscore separators are outside the model and
parse as failures; no claim depends on them. -/
def pyFloat (s : String) : Option ℚ :=
  let cs := (s.data.dropWhile pySpaceB).reverse.dropWhile pySpaceB |>.reverse
  let sgn : ℤ := match cs with
    | '-' :: _ => -1
    | _ => 1
  let cs := match cs with
    | '-' :: r => r
    | '+' :: r => r
    | r => r
  match splitAtFirst (fun c => c = 'e' || c = 'E') cs with
  | (mcs, none) => (parseMant mcs).map (fun m => qMul (Rat.divInt sgn 1) m)
  | (mcs, some ecs) =>
    match parseMant mcs, parseExp ecs with
    | some m, some e => some (qMul (Rat.divInt sgn 1) (qMul m (qPow10 e)))
    | _, _ => none

/-- Python `int(str)`: optional surrounding whitespace, optional sign,
digits (no dot). -/
def pyIntStr (s : String) : Option ℤ :=
  let cs := (s.data.dropWhile pySpaceB).reverse.dropWhile pySpaceB |>.reverse
  match cs with
  | '-' :: r => (parseUDigits? r).map (fun n => -(n : ℤ))
  | '+' :: r => (parseUDigits? r).map (fun n => (n : ℤ))
  | r => (parseUDigits? r).map (fun n => (n : ℤ))

/-- The substitution `re.sub(r"[^0-9.]", "", s)` from `parse_price`: keep
only digits and dots. -/
def stripNonDigitDot (s : String) : String :=
  ⟨s.data.filter (fun c => c.isDigit || c = '.')⟩

/-- Worker for `splitChar`: accumulated current piece (reversed). -/
def splitCharGo (sep : Char) (acc : List Char) : List Char → List String
  | [] => [⟨acc.reverse⟩]
  | c :: cs =>
    if c = sep then ⟨acc.reverse⟩ :: splitCharGo sep [] cs
    else splitCharGo sep (c :: acc) cs

/-- Python `str.split(sep)` for a one-character separator
(`"a--b".split("-") == ["a", "", "b"]`). -/
def splitChar (sep : Char) (s : String) : List String := splitCharGo sep [] s.data

/-- Attempt to match the regex `last\s+(\d+)\s+years` at the head of the
list, returning the captured integer. The character classes of consecutive
greedy pieces are disjoint, so maximal munch is exact. -/
def lastNAt (cs : List Char) : Option ℕ := do
  let cs ← if "last".data.isPrefixOf cs then some (cs.drop 4) else none
  let ws1 := cs.takeWhile pySpaceB
  let cs := cs.dropWhile pySpaceB
  if ws1 = [] then none else
  let ds := cs.takeWhile Char.isDigit
  let cs := cs.dropWhile Char.isDigit
  if ds = [] then none else
  let ws2 := cs.takeWhile pySpaceB
  let cs := cs.dropWhile pySpaceB
  if ws2 = [] then none else
  if "years".data.isPrefixOf cs then some (natOfDigits ds) else none

/-- `re.search(r"last\s+(\d+)\s+years", query)`: leftmost match. -/
def searchLastN : List Char → Option ℕ
  | [] => none
  | c :: cs => (lastNAt (c :: cs)).orElse (fun _ => searchLastN cs)

/-- The `last N years` window extracted by `analyze`. -/
def parseLastN (q : String) : Option ℕ := searchLastN q.data

/-- Python `f"{x:.1f}"` on the exact rational value (round half-to-even at
one decimal). -/
def fmtFix1 (q : ℚ) : String :=
  let s := qRoundHalfEven (qMul q (Rat.divInt 10 1))
  let a := s.natAbs
  let body := toString (a / 10) ++ "." ++ toString (a % 10)
  if decide (q < 0) then "-" ++ body else body

/-! ### difflib: `SequenceMatcher.ratio` and `get_close_matches`

`fuzzy_match_location` calls `difflib.get_close_matches(query, [loc], n=1,
cutoff=0.8)`.  `get_close_matches` constructs `SequenceMatcher(None, b=query)`
and keeps `loc` iff its `ratio()` reaches the cutoff (the two quick ratios it
also tests are documented upper bounds of `ratio()`, so they never change the
outcome).  With `isjunk=None` the junk set is empty; the autojunk "popular"
rule (only active when `len(b) ≥ 200`) is modelled. -/

/-- Default character for out-of-range `getD` reads; all guarded reads are
in range. -/
def nulChar : Char := Char.ofNat 0

/-- The `b2j` lookup of `SequenceMatcher`: ascending positions of `c` in
`b`, with "popular" elements removed when autojunk applies. -/
def b2jGet (b : List Char) (c : Char) : List ℕ :=
  if b.length ≥ 200 && b.count c > b.length / 100 + 1 then []
  else (List.range b.length).filter (fun j => b.getD j nulChar = c)

/-- Lookup in the `j2len` map with default `0`. -/
def j2get (m : List (ℕ × ℕ)) (j : ℕ) : ℕ := (m.lookup j).getD 0

/-- The dynamic-programming core loop of `find_longest_match`. The inner
loop reads the previous row map and builds the new one; `continue`/`break`
on the ascending index list become `filter`/`takeWhile`. -/
def flmMain (a b : List Char) (alo ahi blo bhi : ℕ) : ℕ × ℕ × ℕ :=
  let step := fun (st : List (ℕ × ℕ) × (ℕ × ℕ × ℕ)) (i : ℕ) =>
    let js := ((b2jGet b (a.getD i nulChar)).filter (fun j => blo ≤ j)).takeWhile
      (fun j => j < bhi)
    js.foldl (fun (acc : List (ℕ × ℕ) × (ℕ × ℕ × ℕ)) j =>
      let k := if j = 0 then 1 else j2get st.1 (j - 1) + 1
      let best := if k > acc.2.2.2 then (i + 1 - k, j + 1 - k, k) else acc.2
      ((j, k) :: acc.1, best)) ([], st.2)
  ((List.range' alo (ahi - alo)).foldl step ([], (alo, blo, 0))).2

/-- The lower extension loop of `find_longest_match` (the junk set is
empty, so the character condition is just equality).  Structural recursion
on a fuel argument so that the definition kernel-reduces; called with
`fuel = bi`, which is exact: each step decreases `bi` by one and the loop
guard fails at `bi = 0`. -/
def extendLo (a b : List Char) (alo blo : ℕ) : ℕ → ℕ → ℕ → ℕ → ℕ × ℕ × ℕ
  | 0, bi, bj, bs => (bi, bj, bs)
  | fuel + 1, bi, bj, bs =>
    if alo < bi ∧ blo < bj ∧ a.getD (bi - 1) nulChar = b.getD (bj - 1) nulChar then
      extendLo a b alo blo fuel (bi - 1) (bj - 1) (bs + 1)
    else (bi, bj, bs)

/-- The upper extension loop of `find_longest_match`; called with
`fuel = ahi`, which bounds the number of steps (`bi + bs < ahi` and `bs`
grows by one per step). -/
def extendHi (a b : List Char) (ahi bhi : ℕ) (bi bj : ℕ) : ℕ → ℕ → ℕ
  | 0, bs => bs
  | fuel + 1, bs =>
    if bi + bs < ahi ∧ bj + bs < bhi ∧
        a.getD (bi + bs) nulChar = b.getD (bj + bs) nulChar then
      extendHi a b ahi bhi bi bj fuel (bs + 1)
    else bs

/-- `SequenceMatcher.find_longest_match` over `[alo, ahi) × [blo, bhi)`. -/
def findLongestMatch (a b : List Char) (alo ahi blo bhi : ℕ) : ℕ × ℕ × ℕ :=
  let m := flmMain a b alo ahi blo bhi
  let e := extendLo a b alo blo m.1 m.1 m.2.1 m.2.2
  (e.1, e.2.1, extendHi a b ahi bhi e.1 e.2.1 ahi e.2.2)

/-- Total size of the blocks of `get_matching_blocks` (the only part of the
block list `ratio()` uses).  Fueled structural recursion: the interval
measure `(ahi - alo) + (bhi - blo)` strictly shrinks at each recursive call
(`find_longest_match` returns a block inside the interval), so the initial
fuel `ahi + bhi + 1` supplied by `diffRatioGe08` is never exhausted. -/
def blocksSize (a b : List Char) : ℕ → ℕ → ℕ → ℕ → ℕ → ℕ
  | 0, _, _, _, _ => 0
  | fuel + 1, alo, ahi, blo, bhi =>
    match findLongestMatch a b alo ahi blo bhi with
    | (i, j, k) =>
      if k = 0 then 0
      else
        k + (if alo < i ∧ blo < j then blocksSize a b fuel alo i blo j else 0) +
          (if i + k < ahi ∧ j + k < bhi then
            blocksSize a b fuel (i + k) ahi (j + k) bhi
          else 0)

/-- `SequenceMatcher.ratio() ≥ 0.8`, decided exactly on naturals
(`2M/T ≥ 4/5  ↔  10M ≥ 4T`; ratio of two empty sequences is `1.0`). -/
def diffRatioGe08 (a b : List Char) : Bool :=
  let m := blocksSize a b (a.length + b.length + 1) 0 a.length 0 b.length
  let t := a.length + b.length
  if t = 0 then true else 10 * m ≥ 4 * t

/-- `fuzzy_match_location(query, [loc])` is truthy: the single candidate is
within cutoff `0.8` of the query (`a` is the candidate, `b` the query). -/
def fuzzy_match_location (query loc : String) : Bool :=
  diffRatioGe08 loc.data query.data

/-! ### Cells, rows, data frames -/

/-- A pandas cell: missing (`None`/`NaN`/`pd.NA`), numeric (Python
int/float as an exact rational), or string. -/
inductive Cell where
  | na
  | num (q : ℚ)
  | str (s : String)
deriving DecidableEq

/-- A data-frame row: cells positionally aligned with the column list. -/
abbrev Row := List Cell

/-- A pandas data frame. -/
structure DF where
  cols : List String
  rows : List Row
deriving DecidableEq

/-- The Python exceptions this code can raise. -/
inductive PyErr where
  | keyError
  | typeError
  | valueError
  | zeroDivisionError
deriving DecidableEq

/-- Index of a column label (`df[c]` raises `KeyError` when absent). -/
def colIdx? (df : DF) (c : String) : Option ℕ := df.cols.findIdx? (· == c)

/-- Cell of a row at a column index. -/
def cellAt (r : Row) (i : ℕ) : Cell := r.getD i Cell.na

/-- Whether a cell is missing. -/
def Cell.isNA : Cell → Bool
  | .na => true
  | _ => false

/-- Whether a cell is numeric. -/
def Cell.isNum : Cell → Bool
  | .num _ => true
  | _ => false

/-- Whether a cell is a string. -/
def Cell.isStr : Cell → Bool
  | .str _ => true
  | _ => false

/-- `Series.dropna()`. -/
def dropNA (cs : List Cell) : List Cell := cs.filter (fun c => !c.isNA)

/-- Numeric values of a cell list, in order. -/
def numsOf (cs : List Cell) : List ℚ :=
  cs.filterMap (fun c => match c with
    | .num q => some q
    | _ => none)

/-- String values of a cell list, in order. -/
def strsOf (cs : List Cell) : List String :=
  cs.filterMap (fun c => match c with
    | .str s => some s
    | _ => none)

/-- `pd.to_numeric(x, errors="coerce")` on one cell. -/
def toNumeric : Cell → Cell
  | .num q => .num q
  | .str s =>
    match pyFloat s with
    | some q => .num q
    | none => .na
  | .na => .na

/-- Largest numeric value of a cell list (`Series.max()`, skipna: `None` when
no numeric value exists). -/
def qListMax : List ℚ → Option ℚ
  | [] => none
  | x :: xs =>
    match qListMax xs with
    | none => some x
    | some m => some (if decide (m ≤ x) then x else m)

/-- `Series.max()` over the numeric cells. -/
def maxNum? (cs : List Cell) : Option ℚ := qListMax (numsOf cs)

/-- `Series.sum()` / row-wise `DataFrame.sum` on object cells: `0` when all
values are missing, numeric sum for numeric values, concatenation for
all-string values, `TypeError` for a mix. -/
def pySumCells (cs : List Cell) : Except PyErr Cell :=
  let vs := dropNA cs
  if vs.isEmpty then .ok (.num 0)
  else if vs.all Cell.isNum then .ok (.num (qSum (numsOf vs)))
  else if vs.all Cell.isStr then .ok (.str (String.join (strsOf vs)))
  else .error .typeError

/-- Python `int(x)` on a cell value: truncation for numbers, strict string
parse for strings, `TypeError` on missing values. -/
def pyIntOfCell : Cell → Except PyErr ℤ
  | .num q => .ok (qTrunc q)
  | .str s =>
    match pyIntStr s with
    | some z => .ok z
    | none => .error .valueError
  | .na => .error .typeError

/-- `str(x)` for a cell (`astype(str)`); missing values become `"nan"`.
Numeric labels get a decimal-style rendering — a model detail, no claim
involves numeric location labels. -/
def pyStrOfCell : Cell → String
  | .str s => s
  | .na => "nan"
  | .num q =>
    if q.den = 1 then toString q.num ++ ".0"
    else toString q.num ++ "div" ++ toString q.den

/-- `pd.to_numeric(errors="coerce").astype("Int64")` on one year cell:
non-numeric coerces to missing; a numeric value must be integral, otherwise
pandas raises (cannot safely cast). -/
def yearCoerce (c : Cell) : Except PyErr Cell :=
  match toNumeric c with
  | .na => .ok .na
  | .num q => if q.den = 1 then .ok (.num q) else .error .typeError
  | .str _ => .ok .na

/-- Strict ordering on year cells used by `sort_values("year")`: ascending
numeric order, missing values last. -/
def cellYearLt : Cell → Cell → Bool
  | .num a, .num b => decide (a < b)
  | .num _, .na => true
  | _, _ => false

/-- Insert a row into a year-sorted row list, before any row of equal key
(stability). -/
def insertRowY (yIdx : ℕ) (r : Row) : List Row → List Row
  | [] => [r]
  | s :: ss =>
    if cellYearLt (cellAt s yIdx) (cellAt r yIdx) then s :: insertRowY yIdx r ss
    else r :: s :: ss

/-- `sort_values("year")` as a stable sort with missing years last. -/
def sortRowsY (yIdx : ℕ) : List Row → List Row
  | [] => []
  | r :: rs => insertRowY yIdx r (sortRowsY yIdx rs)

/-- Insert into an ascending duplicate-free list of rationals. -/
def qInsertSortedDedup (x : ℚ) : List ℚ → List ℚ
  | [] => [x]
  | y :: ys =>
    if decide (y < x) then y :: qInsertSortedDedup x ys
    else if x = y then y :: ys
    else x :: y :: ys

/-- The numeric value of a cell, when it has one. -/
def cellNum? : Cell → Option ℚ
  | .num q => some q
  | _ => none

/-- The ascending distinct numeric year keys of a row list (`groupby`
sorts its keys and drops missing ones). -/
def sortedYears (yIdx : ℕ) (rows : List Row) : List ℚ :=
  (rows.filterMap (fun r => cellNum? (cellAt r yIdx))).foldr qInsertSortedDedup []

/-- `area.groupby("year")`: ascending distinct numeric keys, each with its
rows in frame order. -/
def groupsByYear (yIdx : ℕ) (rows : List Row) : List (ℚ × List Row) :=
  (sortedYears yIdx rows).map
    (fun q => (q, rows.filter (fun r => decide (cellAt r yIdx = Cell.num q))))

/-! ### Dataset loading (`load_dataframe`) and upload (`upload_file`) -/

/-- A spreadsheet file as seen through `pd.read_excel`: the byte-level
parser is external to this code, so a file either parses to a raw frame or
raises. -/
inductive XFile where
  | wellFormed (raw : DF)
  | corrupt
deriving DecidableEq

/-- `pd.read_excel`. -/
def pdReadExcel : XFile → Except PyErr DF
  | .wellFormed raw => .ok raw
  | .corrupt => .error .valueError

/-- Column-name normalization applied by both the loader and the upload
handler: `strip`, `lower`, then single-character replaces of space and
hyphen by underscore. -/
def normColName (c : String) : String :=
  pyReplaceChar '-' '_' (pyReplaceChar ' ' '_' (pyLower (pyStrip c)))

/-- Stage 1 of the shared normalization: rename the columns. -/
def normCols (raw : DF) : DF := ⟨raw.cols.map normColName, raw.rows⟩

/-- Stage 2: `df["final_location"] = df["final_location"].astype(str)
.str.lower().str.strip()` when the column exists. -/
def normLoc (df : DF) : DF :=
  match df.cols.findIdx? (· == "final_location") with
  | none => df
  | some i =>
    ⟨df.cols,
     df.rows.map (fun r => r.set i (Cell.str (pyStrip (pyLower (pyStrOfCell (cellAt r i))))))⟩

/-- Effectful map over a list in `Except`, written structurally (the order
of effects is the Python loop order). -/
def mapME {α β : Type} (f : α → Except PyErr β) : List α → Except PyErr (List β)
  | [] => pure []
  | a :: as => do
    let b ← f a
    let bs ← mapME f as
    pure (b :: bs)

/-- Stage 3: coerce the `year` column to nullable integers when it exists. -/
def normYear (df : DF) : Except PyErr DF :=
  match df.cols.findIdx? (· == "year") with
  | none => pure df
  | some i => do
    let rows ← mapME (fun r => do
      let c ← yearCoerce (cellAt r i)
      pure (r.set i c)) df.rows
    pure ⟨df.cols, rows⟩

/-- Stage 4: synthesize `demand` from the "sold"+"igr" columns when no
`demand` column exists. -/
def addDemand (df : DF) : Except PyErr DF := do
  let soldIdxs := (List.range df.cols.length).filter
    (fun i => pyIn "sold" (df.cols.getD i "") && pyIn "igr" (df.cols.getD i ""))
  if df.cols.contains "demand" then
    pure df
  else if soldIdxs.isEmpty then
    pure ⟨df.cols ++ ["demand"], df.rows.map (fun r => r ++ [Cell.num 0])⟩
  else do
    let rows ← mapME (fun r => do
      let s ← pySumCells (soldIdxs.map (cellAt r))
      pure (r ++ [s])) df.rows
    pure ⟨df.cols ++ ["demand"], rows⟩

/-- The shared frame-normalization body of `load_dataframe` and
`upload_file` (lines 90–103 and 125–138 of `views.py`): normalize column
names, lower/strip `final_location`, coerce `year` to nullable integers,
synthesize `demand` from the "sold"+"igr" columns when absent. -/
def normalizeDF (raw : DF) : Except PyErr DF := do
  let df ← normYear (normLoc (normCols raw))
  addDemand df

/-- The module-level mutable state of `views.py`: the `_cached_df` global
and the one-slot memo of `@lru_cache load_dataframe`. -/
structure ServerState where
  cachedDf : Option DF
  lruSlot : Option (Option DF)
deriving DecidableEq

/-- `load_dataframe()`: memoized no-arg loader.  `disk` is the optional
file at `BASE_DIR/real_estate.xlsx` (`none` when `os.path.exists` is
false). -/
def load_dataframe (st : ServerState) (disk : Option XFile) : Option DF × ServerState :=
  match st.lruSlot with
  | some memo => (memo, st)
  | none =>
    match st.cachedDf with
    | some df => (some df, ⟨some df, some (some df)⟩)
    | none =>
      match disk with
      | none => (none, ⟨none, some none⟩)
      | some f =>
        match (pdReadExcel f >>= normalizeDF : Except PyErr DF) with
        | .ok df => (some df, ⟨some df, some (some df)⟩)
        | .error _ => (none, ⟨none, some none⟩)

/-- Responses of the upload endpoint. -/
inductive UploadResp where
  | success (msg : String)
  | clientError (msg : String)
  | serverError (msg : String)
deriving DecidableEq

/-- `upload_file(request)`: `file?` is the optional uploaded file with its
name.  On success the new frame replaces `_cached_df` and the loader memo is
cleared (`cache_clear`). -/
def upload_file (st : ServerState) (file? : Option (String × XFile)) :
    UploadResp × ServerState :=
  match file? with
  | none => (.clientError "No file provided.", st)
  | some (name, f) =>
    if pyEndsWith name ".xlsx" || pyEndsWith name ".xls" then
      match (pdReadExcel f >>= normalizeDF : Except PyErr DF) with
      | .ok df => (.success "File uploaded successfully.", ⟨some df, none⟩)
      | .error _ => (.serverError "Failed to process file.", st)
    else (.clientError "Invalid file format.", st)

/-! ### `parse_price` and `detect_price_cols` -/

/-- The string branch of `parse_price` (the `except:` handler of the
direct conversion, lines 20–32): `str(value) = s` for a string input. -/
def parsePriceStr (s : String) : Except PyErr (Option ℚ) :=
  if pyIn "-" s then
    match (splitChar '-' s).mapM pyFloat with
    | some parts => .ok (some (qMean parts))
    | none => .ok none
  else
    match pyFloat (stripNonDigitDot s) with
    | some q => .ok (some q)
    | none => .ok none

/-- `parse_price(value)` (views.py lines 15–32).  Every fallible Python
operation is explicit and the bare `except:` handlers become the failure
branches, so an uncaught exception would surface as `.error`.  A missing
cell plays the role of `None`; `float(value)` always succeeds on a numeric
value, so only strings reach the handler. -/
def parse_price : Cell → Except PyErr (Option ℚ)
  | .na => .ok none
  | .num q => .ok (some q)
  | .str s =>
    match pyFloat s with
    | some q => .ok (some q)
    | none => parsePriceStr s

/-- `detect_price_cols(df)`: columns whose lower-cased name contains
"rate", "price" or "prevailing". -/
def isPriceCol (col : String) : Bool :=
  pyIn "rate" (pyLower col) || pyIn "price" (pyLower col) ||
    pyIn "prevailing" (pyLower col)

/-- The price column labels of a frame. -/
def detect_price_cols (df : DF) : List String := df.cols.filter isPriceCol

/-- The price column indices of a frame (label selection `df[price_cols]`
picks exactly the columns whose name satisfies the predicate). -/
def priceIdxsOf (df : DF) : List ℕ :=
  (List.range df.cols.length).filter (fun i => isPriceCol (df.cols.getD i ""))

/-! ### `generate_mock_summary` -/

/-- Column lookup, `KeyError` when the label is absent. -/
def keyIdx (cols : List String) (c : String) : Except PyErr ℕ :=
  match cols.findIdx? (· == c) with
  | some i => pure i
  | none => throw .keyError

/-- `Series > z` for an integer bound: missing values compare false. -/
def cellGtZ (c : Cell) (z : ℤ) : Bool :=
  match c with
  | .num q => decide (Rat.divInt z 1 < q)
  | _ => false

/-- Lexicographic code-point order on character lists (Python string `<`). -/
def charListLt : List Char → List Char → Bool
  | [], [] => false
  | [], _ :: _ => true
  | _ :: _, [] => false
  | a :: as, b :: bs =>
    if a.toNat < b.toNat then true
    else if b.toNat < a.toNat then false
    else charListLt as bs

/-- Python `>` on two non-missing cell values; mixed types raise. -/
def pyGtCell : Cell → Cell → Except PyErr Bool
  | .num a, .num b => .ok (decide (b < a))
  | .str a, .str b => .ok (charListLt b.data a.data)
  | _, _ => .error .typeError

/-- The windowed price values of `generate_mock_summary`: for each price
column in order, `area[col].dropna().map(parse_price).dropna().tolist()`,
flattened by `extend`. -/
def collectPrices (rows : List Row) : List ℕ → Except PyErr (List ℚ)
  | [] => pure []
  | i :: is => do
    let parsed ← mapME parse_price (dropNA (rows.map (fun r => cellAt r i)))
    let rest ← collectPrices rows is
    pure (parsed.reduceOption ++ rest)

/-- `generate_mock_summary(area, price_cols, location_name, last_n)`
(views.py lines 44–76).  `rows` is the already-windowed slice `analyze`
passes in; the function sorts and windows again just as the source does. -/
def generate_mock_summary (cols : List String) (priceIdxs : List ℕ) (rows : List Row)
    (location_name : String) (last_n : Option ℕ) : Except PyErr String :=
  keyIdx cols "year" >>= fun yIdx =>
  (match last_n with
    | some n =>
      if n = 0 then pure (sortRowsY yIdx rows)
      else
        (match maxNum? ((sortRowsY yIdx rows).map (fun r => cellAt r yIdx)) with
          | some q => pure (qTrunc q)
          | none => throw .typeError) >>= fun my =>
        pure ((sortRowsY yIdx rows).filter
          (fun r => cellGtZ (cellAt r yIdx) (my - (n : ℤ))))
    | none => pure (sortRowsY yIdx rows)) >>= fun rows2 =>
  keyIdx cols "demand" >>= fun dIdx =>
  (fun demand_vals =>
    collectPrices rows2 priceIdxs >>= fun avg_price_vals =>
    (if demand_vals.length > 1 then
      pyGtCell ((demand_vals.getLast?).getD .na) (demand_vals.headD .na) >>= fun gt =>
      if gt then pure "rising"
      else
        pyGtCell (demand_vals.headD .na) ((demand_vals.getLast?).getD .na) >>= fun lt =>
        pure (if lt then "falling" else "stable")
    else if !demand_vals.isEmpty then pure "steady"
    else pure "") >>= fun demand_trend =>
    (match avg_price_vals with
    | [] => pure "No price data available"
    | first :: _ =>
      if first = 0 then throw .zeroDivisionError
      else
        pure (fmtFix1 (qMul
          (qDiv (qSub ((avg_price_vals.getLast?).getD 0) first) first)
          (Rat.divInt 100 1)) ++ "% average change over period")) >>= fun price_trend =>
    pure (pyTitle location_name ++ " has shown " ++ price_trend ++
      " in prices, with demand " ++ demand_trend ++ " over the past " ++
      (match last_n with
        | some n => if n = 0 then "all" else toString n
        | none => "all") ++ " years."))
    (dropNA (rows2.map (fun r => cellAt r dIdx)))

/-! ### `analyze` -/

/-- A JSON-style record: ordered keyed fields (a Python dict). -/
abbrev Rec := List (String × Cell)

/-- Dict assignment `rec[k] = v`: update in place or append. -/
def recSet (r : Rec) (k : String) (v : Cell) : Rec :=
  if (r.lookup k).isSome then r.map (fun p => if p.1 = k then (k, v) else p)
  else r ++ [(k, v)]

/-- Dict assignment on the year-keyed merge map. -/
def ymSet (ym : List (ℤ × Rec)) (y : ℤ) (rec : Rec) : List (ℤ × Rec) :=
  if (ym.lookup y).isSome then ym.map (fun p => if p.1 = y then (y, rec) else p)
  else ym ++ [(y, rec)]

/-- The classified intent of a query. -/
inductive QType where
  | demand_trends
  | price_growth
  | analysis
deriving DecidableEq

/-- `query_type in ["analysis", "demand_trends"]`. -/
def QType.hasDemand : QType → Bool
  | .demand_trends => true
  | .analysis => true
  | _ => false

/-- `query_type in ["analysis", "price_growth"]`. -/
def QType.hasPrice : QType → Bool
  | .price_growth => true
  | .analysis => true
  | _ => false

/-- The intent classifier of `analyze` (views.py lines 171–176). -/
def classifyQuery (query : String) : QType :=
  if pyIn "compare" query && pyIn "demand" query then .demand_trends
  else if pyIn "price growth" query then .price_growth
  else .analysis

/-- Mean over the non-missing numeric coercions of one column slice
(`NaN`/`none` when no value remains). -/
def colMeanOpt (cs : List Cell) : Option ℚ :=
  let vs := numsOf (cs.map toNumeric)
  if vs.isEmpty then none else some (qMean vs)

/-- `group[price_cols].apply(pd.to_numeric, errors="coerce").mean().mean()`:
the mean over price columns of each column's mean, both levels skipping
missing values; `NaN`/`none` when nothing remains. -/
def meanOfColMeans (priceIdxs : List ℕ) (group : List Row) : Option ℚ :=
  let ms := priceIdxs.filterMap (fun i => colMeanOpt (group.map (fun r => cellAt r i)))
  if ms.isEmpty then none else some (qMean ms)

/-- `round(avg_price, 2)` with `NaN` passing through. -/
def roundCell : Option ℚ → Cell
  | none => .na
  | some q => .num (pyRound2 q)

/-- First-occurrence deduplication worker (`Series.unique()`). -/
def uniqFirstGo (seen : List Cell) : List Cell → List Cell
  | [] => []
  | x :: xs => if seen.contains x then uniqFirstGo seen xs else x :: uniqFirstGo (x :: seen) xs

/-- `Series.unique().tolist()`: distinct values in first-occurrence order. -/
def uniqFirst (cs : List Cell) : List Cell := uniqFirstGo [] cs

/-- The location resolution loop of `analyze`:
`[loc for loc in locations if loc in query or fuzzy_match_location(query, [loc])]`.
A non-string location raises `TypeError` at `loc in query`. -/
def collectFound (query : String) : List Cell → Except PyErr (List String)
  | [] => pure []
  | c :: cs =>
    match c with
    | .str loc => do
      let rest ← collectFound query cs
      pure (if pyIn loc query || fuzzy_match_location query loc then loc :: rest else rest)
    | _ => throw .typeError

/-- The per-location accumulator of `analyze`: `table_data`, `summaries`
and the year-keyed merge map. -/
structure AnSt where
  table : List Rec
  summaries : List (String × String)
  yearMap : List (ℤ × Rec)
deriving DecidableEq

/-- `year_map[year]` or the fresh record `{"year": year}` (views.py lines
199–200). -/
def chartRec0 (ym : List (ℤ × Rec)) (y : ℤ) : Rec :=
  match ym.lookup y with
  | some r => r
  | none => [("year", Cell.num (Rat.divInt y 1))]

/-- The chart-merging loop body of `analyze` (views.py lines 196–213), one
iteration per `(year, group)` of `area.groupby("year")`. -/
def chartFold (dIdx : ℕ) (priceIdxs : List ℕ) (qt : QType) (locTitle : String) :
    List (ℚ × List Row) → List (ℤ × Rec) → Except PyErr (List (ℤ × Rec))
  | [], ym => pure ym
  | g :: gs, ym =>
    (if qt.hasDemand then do
        let s ← pySumCells (g.2.map (fun r => cellAt r dIdx))
        let z ← pyIntOfCell s
        pure (recSet (chartRec0 ym (qTrunc g.1)) locTitle (Cell.num (Rat.divInt z 1)))
      else pure (chartRec0 ym (qTrunc g.1))) >>= fun rec1 =>
    chartFold dIdx priceIdxs qt locTitle gs
      (ymSet ym (qTrunc g.1)
        (if qt.hasPrice then
          recSet rec1 (locTitle ++ "_price") (roundCell (meanOfColMeans priceIdxs g.2))
        else rec1))

/-- The intent-dependent table column labels (views.py lines 216–220). -/
def tableCols (qt : QType) (priceCols : List String) : List String :=
  ["final_location", "year"] ++ (if qt.hasDemand then ["demand"] else []) ++
    (if qt.hasPrice then priceCols else [])

/-- `area[cols].to_dict(orient="records")` for one row. -/
def rowRecord (allCols : List String) (cols : List String) (r : Row) : Rec :=
  cols.foldl (fun rec c =>
    recSet rec c (cellAt r ((allCols.findIdx? (fun x => x == c)).getD 0))) []

/-- The body of `analyze`'s `for loc in found_locs` loop (views.py lines
181–222) for a single location. -/
def processLoc (df : DF) (flIdx : ℕ) (priceIdxs : List ℕ) (priceCols : List String)
    (qt : QType) (last_n : Option ℕ) (st : AnSt) (loc : String) : Except PyErr AnSt :=
  (match last_n with
    | some n =>
      if n = 0 then pure (df.rows.filter (fun r => decide (cellAt r flIdx = Cell.str loc)))
      else
        keyIdx df.cols "year" >>= fun yIdx =>
        (match maxNum? ((df.rows.filter
            (fun r => decide (cellAt r flIdx = Cell.str loc))).map
            (fun r => cellAt r yIdx)) with
          | some q => pure (qTrunc q)
          | none => throw .typeError) >>= fun my =>
        pure ((df.rows.filter (fun r => decide (cellAt r flIdx = Cell.str loc))).filter
          (fun r => cellGtZ (cellAt r yIdx) (my - (n : ℤ))))
    | none => pure (df.rows.filter (fun r => decide (cellAt r flIdx = Cell.str loc))))
    >>= fun area1 =>
  keyIdx df.cols "year" >>= fun yIdx =>
  generate_mock_summary df.cols priceIdxs (sortRowsY yIdx area1) loc last_n >>= fun ms =>
  keyIdx df.cols "demand" >>= fun dIdx =>
  chartFold dIdx priceIdxs qt (pyTitle loc) (groupsByYear yIdx (sortRowsY yIdx area1))
    st.yearMap >>= fun ym =>
  pure ⟨st.table ++ (sortRowsY yIdx area1).map (rowRecord df.cols (tableCols qt priceCols)),
    st.summaries ++ [(pyTitle loc, ms)], ym⟩

/-- Iterate `processLoc` over the matched locations. -/
def processLocs (df : DF) (flIdx : ℕ) (priceIdxs : List ℕ) (priceCols : List String)
    (qt : QType) (last_n : Option ℕ) : List String → AnSt → Except PyErr AnSt
  | [], st => pure st
  | loc :: rest, st => do
    let st2 ← processLoc df flIdx priceIdxs priceCols qt last_n st loc
    processLocs df flIdx priceIdxs priceCols qt last_n rest st2

/-- Stable insert for the final chart sort. -/
def insertPairY (p : ℤ × Rec) : List (ℤ × Rec) → List (ℤ × Rec)
  | [] => [p]
  | q :: qs => if decide (q.1 < p.1) then q :: insertPairY p qs else p :: q :: qs

/-- `sorted(year_map.values(), key=lambda x: x["year"])`: the map keys are
exactly the records' `year` fields (established as an invariant in the
proofs below), so sorting the keyed pairs is the same sort. -/
def sortPairsByYear : List (ℤ × Rec) → List (ℤ × Rec)
  | [] => []
  | p :: ps => insertPairY p (sortPairsByYear ps)

/-- The success payload of `analyze`. -/
structure Payload where
  summary : List (String × String)
  chartData : List Rec
  tableData : List Rec
deriving DecidableEq

/-- Responses of the analyze endpoint. -/
inductive AnalyzeResp where
  | ok (p : Payload)
  | clientError (msg : String)
  | serverError (msg : String)
deriving DecidableEq

/-- A single-quote character, for the no-match message. -/
def sq : String := String.singleton (Char.ofNat 39)

/-- The message `analyze` returns when no location matches. -/
def noMatchMsg (q : String) : String :=
  "No matching location found for " ++ sq ++ q ++ sq ++ "."

/-- `analyze(request)` (views.py lines 146–231).  `disk` is the optional
default spreadsheet next to the process, `areaField` the request's `area`
field.  The pair threads the module state through `load_dataframe`. -/
def analyze (st : ServerState) (disk : Option XFile) (areaField : Option String) :
    Except PyErr (AnalyzeResp × ServerState) := do
  match load_dataframe st disk with
  | (none, st1) => pure (.serverError "No data available.", st1)
  | (some df, st1) =>
    let query := pyStrip (pyLower (areaField.getD ""))
    if query = "" then pure (.clientError "Missing query.", st1)
    else do
      let flIdx ← keyIdx df.cols "final_location"
      let locCells := uniqFirst (dropNA (df.rows.map (fun r => cellAt r flIdx)))
      let priceCols := detect_price_cols df
      let last_n := parseLastN query
      let found ← collectFound query locCells
      if found.isEmpty then pure (.clientError (noMatchMsg query), st1)
      else do
        let qt := classifyQuery query
        let fin ← processLocs df flIdx (priceIdxsOf df) priceCols qt last_n found ⟨[], [], []⟩
        let chart := (sortPairsByYear fin.yearMap).map Prod.snd
        pure (.ok ⟨fin.summaries, chart, fin.table⟩, st1)

/-! ### Witness fixtures -/

/-- A small normalized dataset used by several witnesses: two locations,
overlapping years, one price column. -/
def wDF : DF :=
  ⟨["final_location", "year", "rate", "demand"],
   [[Cell.str "pune", Cell.num (Rat.divInt 2020 1), Cell.num (Rat.divInt 1200 1),
      Cell.num (Rat.divInt 10 1)],
    [Cell.str "pune", Cell.num (Rat.divInt 2021 1), Cell.num (Rat.divInt 1400 1),
      Cell.num (Rat.divInt 12 1)],
    [Cell.str "mumbai", Cell.num (Rat.divInt 2021 1), Cell.num (Rat.divInt 2000 1),
      Cell.num (Rat.divInt 5 1)],
    [Cell.str "mumbai", Cell.num (Rat.divInt 2022 1), Cell.num (Rat.divInt 2200 1),
      Cell.num (Rat.divInt 7 1)]]⟩

/-- Server state with `wDF` cached and a cold loader memo. -/
def wSt : ServerState := ⟨some wDF, none⟩

/-- The state after a load has memoized `wDF`. -/
def wSt1 : ServerState := ⟨some wDF, some (some wDF)⟩

/-- A raw upload fixture with unnormalized headers and location values. -/
def wRaw : DF :=
  ⟨[" Final Location", "Year", "Rate per sqft"],
   [[Cell.str "Pune ", Cell.num (Rat.divInt 2020 1), Cell.num (Rat.divInt 1200 1)]]⟩

/-- What `normalizeDF` produces from `wRaw`. -/
def wNorm : DF :=
  ⟨["final_location", "year", "rate_per_sqft", "demand"],
   [[Cell.str "pune", Cell.num (Rat.divInt 2020 1), Cell.num (Rat.divInt 1200 1),
      Cell.num 0]]⟩

/-! ### Generic helper lemmas -/

theorem optionMapM_eq_none {α β : Type} (f : α → Option β) (l : List α)
    (h : ∃ x ∈ l, f x = none) : l.mapM f = none := by
  induction l with
  | nil => simp at h
  | cons a as ih =>
    rw [List.mapM_cons]
    rcases h with ⟨x, hx, hfx⟩
    rcases List.mem_cons.mp hx with rfl | hmem
    · rw [hfx]; rfl
    · cases hfa : f a
      · rfl
      · rw [ih ⟨x, hmem, hfx⟩]; rfl

/-- `parsePriceStr` is total. -/
theorem parsePriceStr_total (s : String) :
    ∃ r : Option ℚ, parsePriceStr s = Except.ok r := by
  unfold parsePriceStr
  by_cases h : pyIn "-" s = true
  · simp only [h, if_true]
    cases (splitChar '-' s).mapM pyFloat with
    | none => exact ⟨none, rfl⟩
    | some parts => exact ⟨some (qMean parts), rfl⟩
  · simp only [Bool.not_eq_true] at h
    simp only [h, Bool.false_eq_true, if_false]
    cases pyFloat (stripNonDigitDot s) with
    | none => exact ⟨none, rfl⟩
    | some q => exact ⟨some q, rfl⟩

/-- `parse_price` is total: every branch of the source returns. -/
theorem parse_price_total (v : Cell) : ∃ r : Option ℚ, parse_price v = Except.ok r := by
  cases v with
  | na => exact ⟨none, rfl⟩
  | num q => exact ⟨some q, rfl⟩
  | str s =>
    show ∃ r, (match pyFloat s with
      | some q => Except.ok (some q)
      | none => parsePriceStr s) = Except.ok r
    cases pyFloat s with
    | some q => exact ⟨some q, rfl⟩
    | none => exact parsePriceStr_total s

/-! ### Claim C8 -/

/-- C8: for every input value (absent, numeric, or arbitrary string) the
price normalizer returns a float or absent and never raises an exception:
`parse_price` always evaluates to `.ok` of an `Option ℚ`. -/
theorem claimC8 (v : Cell) : ∃ r : Option ℚ, parse_price v = Except.ok r :=
  parse_price_total v

/-! ### Claim C5 -/

/-- C5 counterexample: `"abc-5"` contains a hyphen, direct conversion
fails, and the split part `"abc"` does not parse as a float.  The claimed
fall-through to the stripping step would produce `5.0` (stripping leaves
`"5"`), but `parse_price` returns absent. -/
theorem claimC5_counterexample :
    pyIn "-" "abc-5" = true ∧
    ((splitChar '-' "abc-5").any (fun p => (pyFloat p).isNone)) = true ∧
    pyFloat (stripNonDigitDot "abc-5") = some (Rat.divInt 5 1) ∧
    parse_price (Cell.str "abc-5") = Except.ok none := by decide

/-- C5 (amended): for every string containing a hyphen on which direct
float conversion fails and at least one hyphen-split part does not parse as
a float, the price normalizer returns absent immediately; the stripping
step is not attempted. -/
theorem claimC5 (s : String) (h1 : pyFloat s = none) (h2 : pyIn "-" s = true)
    (h3 : ∃ p ∈ splitChar '-' s, pyFloat p = none) :
    parse_price (Cell.str s) = Except.ok none := by
  show (match pyFloat s with
    | some q => Except.ok (some q)
    | none => parsePriceStr s) = Except.ok none
  rw [h1, parsePriceStr]
  simp only [h2, if_true, optionMapM_eq_none pyFloat _ h3]

/-- C5 witness at `"x-9"` (stripping would give `9.0`; the result is
absent). -/
theorem claimC5_witness : parse_price (Cell.str "x-9") = Except.ok none :=
  claimC5 "x-9" (by decide) (by decide) ⟨"x", by decide, by decide⟩

/-! ### Claim C7 -/

/-- C7 counterexample: with no cached dataset and no spreadsheet on disk, a
request with a missing query field gets the server-error "No data
available." response — the dataset check precedes the query check, so the
claimed client error is not returned. -/
theorem claimC7_counterexample :
    analyze ⟨none, none⟩ none none =
      Except.ok (AnalyzeResp.serverError "No data available.", ⟨none, some none⟩) := by
  decide

/-- C7 (amended): when a dataset is cached or loadable, every analyze
request whose query field is missing or empty after trimming receives the
client error "Missing query.";  when no dataset loads, the server
"No data available." error takes precedence. -/
theorem claimC7 (st : ServerState) (disk : Option XFile) (af : Option String)
    (df : DF) (st1 : ServerState)
    (hload : load_dataframe st disk = (some df, st1))
    (hq : pyStrip (pyLower (af.getD "")) = "") :
    analyze st disk af = Except.ok (AnalyzeResp.clientError "Missing query.", st1) := by
  unfold analyze
  rw [hload]
  simp [hq]
  rfl

/-- C7 witness: whitespace-only query against the cached fixture. -/
theorem claimC7_witness :
    analyze wSt none (some "   ") =
      Except.ok (AnalyzeResp.clientError "Missing query.", wSt1) :=
  claimC7 wSt none (some "   ") wDF wSt1 (by decide) (by decide)

/-! ### Character-level lemmas -/

theorem charOfNat_toNat (n : ℕ) (h : n.isValidChar) : (Char.ofNat n).toNat = n := by
  have hlt : n < 2 ^ 32 := by
    rcases h with h | ⟨h1, h2⟩ <;> omega
  simp only [Char.ofNat, h, dite_true, Char.ofNatAux, Char.toNat]
  show (UInt32.ofNatCore n _).toNat = n
  simp [UInt32.ofNatCore, UInt32.toNat]

theorem char_eq_of_toNat_eq {a b : Char} (h : a.toNat = b.toNat) : a = b := by
  cases a with
  | mk va ha =>
    cases b with
    | mk vb hb =>
      have hv : va = vb := by
        revert h
        cases va
        cases vb
        intro h
        simp only [Char.toNat, UInt32.toNat] at h
        congr 1
        exact BitVec.eq_of_toNat_eq h
      subst hv
      rfl

theorem char_eq_iff_toNat (a b : Char) : a = b ↔ a.toNat = b.toNat :=
  ⟨fun h => by rw [h], char_eq_of_toNat_eq⟩

theorem toLower_toNat (c : Char) :
    (Char.toLower c).toNat =
      if 65 ≤ c.toNat ∧ c.toNat ≤ 90 then c.toNat + 32 else c.toNat := by
  show (if c.toNat ≥ 65 ∧ c.toNat ≤ 90 then Char.ofNat (c.toNat + 32) else c).toNat = _
  by_cases h : 65 ≤ c.toNat ∧ c.toNat ≤ 90
  · rw [if_pos h, if_pos h, charOfNat_toNat _ (by unfold Nat.isValidChar; omega)]
  · rw [if_neg h, if_neg h]

theorem toLower_idem (c : Char) : (Char.toLower c).toLower = c.toLower := by
  apply char_eq_of_toNat_eq
  by_cases h : 65 ≤ c.toNat ∧ c.toNat ≤ 90
  · have h1 : (Char.toLower c).toNat = c.toNat + 32 := by rw [toLower_toNat, if_pos h]
    rw [toLower_toNat, h1, if_neg (by omega)]
  · have h1 : (Char.toLower c).toNat = c.toNat := by rw [toLower_toNat, if_neg h]
    rw [toLower_toNat, h1, if_neg h]

theorem pySpaceB_iff_toNat (c : Char) :
    pySpaceB c = true ↔ c.toNat = 32 ∨ c.toNat = 9 ∨ c.toNat = 13 ∨ c.toNat = 10 := by
  unfold pySpaceB Char.isWhitespace
  simp only [Bool.or_eq_true, decide_eq_true_eq]
  rw [char_eq_iff_toNat c ' ', char_eq_iff_toNat c '\t', char_eq_iff_toNat c '\x0d',
    char_eq_iff_toNat c '\n']
  show ((c.toNat = 32 ∨ c.toNat = 9) ∨ c.toNat = 13) ∨ c.toNat = 10 ↔ _
  tauto

theorem toLower_pySpaceB (c : Char) : pySpaceB (Char.toLower c) = pySpaceB c := by
  by_cases h : 65 ≤ c.toNat ∧ c.toNat ≤ 90
  · have h1 : pySpaceB c = false := by
      by_contra hc
      rcases (pySpaceB_iff_toNat c).mp (by revert hc; cases pySpaceB c <;> simp) with
        h2 | h2 | h2 | h2 <;> omega
    have h2 : pySpaceB (Char.toLower c) = false := by
      by_contra hc
      have ht := toLower_toNat c
      rw [if_pos h] at ht
      rcases (pySpaceB_iff_toNat (Char.toLower c)).mp
        (by revert hc; cases pySpaceB (Char.toLower c) <;> simp) with
        h2 | h2 | h2 | h2 <;> omega
    rw [h1, h2]
  · have : Char.toLower c = c := char_eq_of_toNat_eq (by rw [toLower_toNat c, if_neg h])
    rw [this]

/-! ### dropWhile / strip lemmas -/

theorem head?_dropWhile_not {α : Type} (p : α → Bool) (l : List α) (c : α)
    (h : (l.dropWhile p).head? = some c) : p c = false := by
  induction l with
  | nil => simp [List.dropWhile] at h
  | cons x xs ih =>
    rw [List.dropWhile_cons] at h
    by_cases hp : p x = true
    · rw [if_pos hp] at h
      exact ih h
    · rw [if_neg hp] at h
      simp only [List.head?_cons, Option.some_inj] at h
      subst h
      exact Bool.not_eq_true _ |>.mp hp

theorem dropWhile_eq_self_of_head {α : Type} (p : α → Bool) (l : List α)
    (h : ∀ c, l.head? = some c → p c = false) : l.dropWhile p = l := by
  cases l with
  | nil => rfl
  | cons x xs =>
    rw [List.dropWhile_cons, h x rfl]
    simp

/-- The character-list form of `pyStrip`. -/
def stripL (l : List Char) : List Char :=
  ((l.dropWhile pySpaceB).reverse.dropWhile pySpaceB).reverse

theorem pyStrip_data (s : String) : (pyStrip s).data = stripL s.data := rfl

theorem stripL_mem {l : List Char} {c : Char} (h : c ∈ stripL l) : c ∈ l := by
  unfold stripL at h
  rw [List.mem_reverse] at h
  have h2 := (List.dropWhile_sublist pySpaceB (l := (l.dropWhile pySpaceB).reverse)).mem h
  rw [List.mem_reverse] at h2
  exact (List.dropWhile_sublist pySpaceB (l := l)).mem h2

theorem stripL_getLast? {l : List Char} {c : Char} (h : (stripL l).getLast? = some c) :
    pySpaceB c = false := by
  unfold stripL at h
  rw [← List.head?_reverse, List.reverse_reverse] at h
  exact head?_dropWhile_not _ _ _ h

theorem stripL_head? {l : List Char} {c : Char} (h : (stripL l).head? = some c) :
    pySpaceB c = false := by
  unfold stripL at h
  rw [List.head?_reverse] at h
  obtain ⟨t, ht⟩ := List.dropWhile_suffix (l := (l.dropWhile pySpaceB).reverse) pySpaceB
  rcases hd : (l.dropWhile pySpaceB).reverse.dropWhile pySpaceB with _ | ⟨x, xs⟩
  · rw [hd] at h
    simp at h
  · rw [hd] at h ht
    have hYlast : (l.dropWhile pySpaceB).reverse.getLast? = some c := by
      rw [← ht, List.getLast?_append_of_ne_nil t (by simp)]
      exact h
    rw [List.getLast?_reverse] at hYlast
    exact head?_dropWhile_not _ _ _ hYlast

theorem stripL_eq_self (l : List Char)
    (hh : ∀ c, l.head? = some c → pySpaceB c = false)
    (hl : ∀ c, l.getLast? = some c → pySpaceB c = false) : stripL l = l := by
  unfold stripL
  rw [dropWhile_eq_self_of_head _ _ hh]
  rw [dropWhile_eq_self_of_head _ _ (by
    intro c hc
    rw [List.head?_reverse] at hc
    exact hl c hc)]
  exact List.reverse_reverse l

theorem stripL_idem (l : List Char) : stripL (stripL l) = stripL l :=
  stripL_eq_self _ (fun _ h => stripL_head? h) (fun _ h => stripL_getLast? h)

/-- `pyStrip` is idempotent. -/
theorem pyStrip_idem (s : String) : pyStrip (pyStrip s) = pyStrip s := by
  cases s with
  | mk l =>
    show (⟨stripL (stripL l)⟩ : String) = ⟨stripL l⟩
    rw [stripL_idem]

/-- Reduction of `upload_file` on a present file (all outer matches are on
constructors). -/
theorem upload_some_eq (st : ServerState) (name : String) (f : XFile) :
    upload_file st (some (name, f)) =
      if pyEndsWith name ".xlsx" || pyEndsWith name ".xls" then
        match (pdReadExcel f >>= normalizeDF : Except PyErr DF) with
        | .ok df => (UploadResp.success "File uploaded successfully.", ⟨some df, none⟩)
        | .error _ => (UploadResp.serverError "Failed to process file.", st)
      else (UploadResp.clientError "Invalid file format.", st) := rfl

/-- Reduction of `load_dataframe` on a cold cache with a file on disk. -/
theorem load_cold_eq (f : XFile) :
    load_dataframe ⟨none, none⟩ (some f) =
      match (pdReadExcel f >>= normalizeDF : Except PyErr DF) with
      | .ok df => (some df, ⟨some df, some (some df)⟩)
      | .error _ => (none, ⟨none, some none⟩) := rfl

/-! ### Claim C9 -/

/-- Normalized column names: trimmed, lower-case, free of spaces and
hyphens. -/
def ColsNormalized (df : DF) : Prop :=
  ∀ c ∈ df.cols, pyStrip c = c ∧ pyLower c = c ∧ ∀ ch ∈ c.data, ch ≠ ' ' ∧ ch ≠ '-'

/-- Normalized `final_location` values: every row holds a trimmed
lower-case string there. -/
def LocValsNormalized (df : DF) : Prop :=
  ∀ i, df.cols.findIdx? (· == "final_location") = some i →
    ∀ r ∈ df.rows, ∃ s, cellAt r i = Cell.str s ∧ pyStrip s = s ∧ pyLower s = s

/-- Rectangularity of a raw frame (what `pd.read_excel` produces). -/
def Rect (df : DF) : Prop := ∀ r ∈ df.rows, r.length = df.cols.length

theorem list_map_eq_self {α : Type} (f : α → α) (l : List α)
    (h : ∀ x ∈ l, f x = x) : l.map f = l := by
  induction l with
  | nil => rfl
  | cons a as ih =>
    rw [List.map_cons, h a (List.mem_cons_self a as),
      ih (fun x hx => h x (List.mem_cons_of_mem a hx))]

theorem pyStrip_eq_self_of (s : String)
    (hh : ∀ c, s.data.head? = some c → pySpaceB c = false)
    (hl : ∀ c, s.data.getLast? = some c → pySpaceB c = false) : pyStrip s = s := by
  cases s with
  | mk l =>
    show (⟨stripL l⟩ : String) = ⟨l⟩
    rw [stripL_eq_self l hh hl]

theorem pyLower_eq_self_of (s : String)
    (h : ∀ ch ∈ s.data, Char.toLower ch = ch) : pyLower s = s := by
  cases s with
  | mk l =>
    show (⟨l.map Char.toLower⟩ : String) = ⟨l⟩
    rw [list_map_eq_self _ _ h]

/-- The transformation a single column-name character undergoes. -/
def colChar (w : Char) : Char :=
  if (if Char.toLower w = ' ' then '_' else Char.toLower w) = '-' then '_'
  else if Char.toLower w = ' ' then '_' else Char.toLower w

theorem normColName_data (c : String) :
    (normColName c).data = (stripL c.data).map colChar := by
  show (((stripL c.data).map Char.toLower).map (fun x => if x = ' ' then '_' else x)).map
      (fun x => if x = '-' then '_' else x) = _
  rw [List.map_map, List.map_map]
  rfl

theorem colChar_props (w : Char) :
    colChar w ≠ ' ' ∧ colChar w ≠ '-' ∧ Char.toLower (colChar w) = colChar w ∧
      (pySpaceB w = false → pySpaceB (colChar w) = false) := by
  unfold colChar
  by_cases h1 : Char.toLower w = ' '
  · rw [h1]
    exact ⟨by decide, by decide, by decide, fun _ => by decide⟩
  · rw [if_neg h1]
    by_cases h2 : Char.toLower w = '-'
    · rw [if_pos h2]
      exact ⟨by decide, by decide, by decide, fun _ => by decide⟩
    · rw [if_neg h2]
      exact ⟨h1, h2, toLower_idem w, fun hw => by rw [toLower_pySpaceB]; exact hw⟩

theorem normColName_props (c : String) :
    pyStrip (normColName c) = normColName c ∧ pyLower (normColName c) = normColName c ∧
      ∀ ch ∈ (normColName c).data, ch ≠ ' ' ∧ ch ≠ '-' := by
  refine ⟨?_, ?_, ?_⟩
  · apply pyStrip_eq_self_of
    · intro ch hch
      rw [normColName_data, List.head?_map] at hch
      cases hw : (stripL c.data).head? with
      | none => rw [hw] at hch; simp at hch
      | some w =>
        rw [hw, Option.map_some'] at hch
        injection hch with hch
        subst hch
        exact (colChar_props w).2.2.2 (stripL_head? hw)
    · intro ch hch
      rw [normColName_data, List.getLast?_map] at hch
      cases hw : (stripL c.data).getLast? with
      | none => rw [hw] at hch; simp at hch
      | some w =>
        rw [hw, Option.map_some'] at hch
        injection hch with hch
        subst hch
        exact (colChar_props w).2.2.2 (stripL_getLast? hw)
  · apply pyLower_eq_self_of
    intro ch hch
    rw [normColName_data] at hch
    obtain ⟨w, _, rfl⟩ := List.mem_map.mp hch
    exact (colChar_props w).2.2.1
  · intro ch hch
    rw [normColName_data] at hch
    obtain ⟨w, _, rfl⟩ := List.mem_map.mp hch
    exact ⟨(colChar_props w).1, (colChar_props w).2.1⟩

/-- The normalized `final_location` cell value is trimmed and lower-case. -/
theorem locVal_props (x : String) :
    pyStrip (pyStrip (pyLower x)) = pyStrip (pyLower x) ∧
      pyLower (pyStrip (pyLower x)) = pyStrip (pyLower x) := by
  refine ⟨pyStrip_idem _, ?_⟩
  apply pyLower_eq_self_of
  intro ch hch
  rw [pyStrip_data] at hch
  have hmem : ch ∈ (pyLower x).data := stripL_mem hch
  obtain ⟨w, _, rfl⟩ := List.mem_map.mp hmem
  exact toLower_idem w

/-! ### `findIdx?` and `mapME` inversion lemmas -/

theorem findIdx?_some_spec {α : Type} (p : α → Bool) :
    ∀ (l : List α) (k j : ℕ), l.findIdx? p k = some j →
      k ≤ j ∧ j - k < l.length ∧ ∃ a, l[j - k]? = some a ∧ p a = true := by
  intro l
  induction l with
  | nil => intro k j h; exact Option.noConfusion h
  | cons x xs ih =>
    intro k j h
    rw [List.findIdx?_cons] at h
    by_cases hp : p x = true
    · rw [if_pos hp] at h
      injection h with h
      subst h
      exact ⟨le_refl _, by simp, x, by simp, hp⟩
    · rw [if_neg hp] at h
      obtain ⟨hk, hlen, a, ha, hpa⟩ := ih (k + 1) j h
      refine ⟨by omega, by simp; omega, a, ?_, hpa⟩
      have he : j - k = (j - (k + 1)) + 1 := by omega
      rw [he]
      simpa using ha

theorem findIdx?_append_left {α : Type} (p : α → Bool) :
    ∀ (l₁ l₂ : List α) (k j : ℕ), l₁.findIdx? p k = some j →
      (l₁ ++ l₂).findIdx? p k = some j := by
  intro l₁
  induction l₁ with
  | nil => intro l₂ k j h; exact Option.noConfusion h
  | cons x xs ih =>
    intro l₂ k j h
    rw [List.findIdx?_cons] at h
    rw [List.cons_append, List.findIdx?_cons]
    by_cases hp : p x = true
    · rw [if_pos hp] at h ⊢; exact h
    · rw [if_neg hp] at h ⊢; exact ih l₂ (k + 1) j h

theorem findIdx?_append_none {α : Type} (p : α → Bool) :
    ∀ (l₁ l₂ : List α) (k : ℕ), l₁.findIdx? p k = none →
      (l₁ ++ l₂).findIdx? p k = l₂.findIdx? p (k + l₁.length) := by
  intro l₁
  induction l₁ with
  | nil =>
    intro l₂ k _
    rw [List.nil_append, List.length_nil, Nat.add_zero]
  | cons x xs ih =>
    intro l₂ k h
    rw [List.findIdx?_cons] at h
    rw [List.cons_append, List.findIdx?_cons]
    by_cases hp : p x = true
    · rw [if_pos hp] at h; exact absurd h (by simp)
    · rw [if_neg hp] at h ⊢
      rw [ih l₂ (k + 1) h]
      congr 1
      simp
      omega

theorem mapME_ok_forall₂ {α β : Type} (f : α → Except PyErr β) :
    ∀ (l : List α) (l' : List β), mapME f l = .ok l' →
      List.Forall₂ (fun a b => f a = .ok b) l l' := by
  intro l
  induction l with
  | nil =>
    intro l' h
    unfold mapME at h
    injection h with h
    subst h
    exact List.Forall₂.nil
  | cons a as ih =>
    intro l' h
    unfold mapME at h
    cases hfa : f a with
    | error e =>
      rw [hfa] at h
      simp only [Bind.bind, Except.bind] at h
      exact Except.noConfusion h
    | ok b =>
      rw [hfa] at h
      simp only [Bind.bind, Except.bind] at h
      cases hrest : mapME f as with
      | error e => rw [hrest] at h; simp at h
      | ok bs =>
        rw [hrest] at h
        simp only [pure, Except.pure, Except.ok.injEq] at h
        subst h
        exact List.Forall₂.cons hfa (ih bs hrest)

theorem except_bind_ok {α β : Type} (x : Except PyErr α) (f : α → Except PyErr β) (b : β)
    (h : (x >>= f) = .ok b) : ∃ a, x = .ok a ∧ f a = .ok b := by
  cases x with
  | ok a => exact ⟨a, rfl, h⟩
  | error e =>
    simp only [Bind.bind, Except.bind] at h
    exact Except.noConfusion h

/-! ### Stage lemmas for `normalizeDF` -/

theorem normCols_spec (raw : DF) :
    (normCols raw).cols = raw.cols.map normColName ∧ (normCols raw).rows = raw.rows :=
  ⟨rfl, rfl⟩

theorem normLoc_cols (df : DF) : (normLoc df).cols = df.cols := by
  unfold normLoc
  cases df.cols.findIdx? (· == "final_location") <;> rfl

theorem normYear_spec (df df2 : DF) (h : normYear df = .ok df2) :
    df2.cols = df.cols ∧
      ((df2.rows = df.rows) ∨
        ∃ i, df.cols.findIdx? (· == "year") = some i ∧
          List.Forall₂ (fun r r2 => ∃ c, yearCoerce (cellAt r i) = .ok c ∧ r2 = r.set i c)
            df.rows df2.rows) := by
  unfold normYear at h
  cases hf : df.cols.findIdx? (· == "year") with
  | none =>
    rw [hf] at h
    injection h with h
    subst h
    exact ⟨rfl, Or.inl rfl⟩
  | some i =>
    rw [hf] at h
    obtain ⟨rows, hrows, hpure⟩ := except_bind_ok _ _ _ h
    injection hpure with hpure
    subst hpure
    refine ⟨rfl, Or.inr ⟨i, rfl, ?_⟩⟩
    have h2 := mapME_ok_forall₂ _ _ _ hrows
    refine List.Forall₂.imp ?_ h2
    intro r r2 hr
    obtain ⟨c, hc, hr2⟩ := except_bind_ok _ _ _ hr
    injection hr2 with hr2
    exact ⟨c, hc, hr2.symm⟩

theorem addDemand_spec (df df2 : DF) (h : addDemand df = .ok df2) :
    (df2 = df ∧ df.cols.contains "demand" = true) ∨
      (df2.cols = df.cols ++ ["demand"] ∧
        List.Forall₂ (fun r r2 => ∃ c, r2 = r ++ [c]) df.rows df2.rows) := by
  unfold addDemand at h
  by_cases hd : df.cols.contains "demand" = true
  · simp only [hd, if_true] at h
    injection h with h
    exact Or.inl ⟨h.symm, hd⟩
  · simp only [hd, Bool.false_eq_true, if_false] at h
    by_cases he : ((List.range df.cols.length).filter
        (fun i => pyIn "sold" (df.cols.getD i "") && pyIn "igr" (df.cols.getD i ""))).isEmpty = true
    · simp only [he, if_true] at h
      injection h with h
      subst h
      refine Or.inr ⟨rfl, ?_⟩
      have : ∀ (l : List Row), List.Forall₂ (fun r r2 => ∃ c, r2 = r ++ [c]) l
          (l.map (fun r => r ++ [Cell.num 0])) := by
        intro l
        induction l with
        | nil => exact List.Forall₂.nil
        | cons a as ih => exact List.Forall₂.cons ⟨Cell.num 0, rfl⟩ ih
      exact this df.rows
    · simp only [he, Bool.false_eq_true, if_false] at h
      obtain ⟨rows, hrows, hpure⟩ := except_bind_ok _ _ _ h
      injection hpure with hpure
      subst hpure
      refine Or.inr ⟨rfl, ?_⟩
      have h2 := mapME_ok_forall₂ _ _ _ hrows
      refine List.Forall₂.imp ?_ h2
      intro r r2 hr
      obtain ⟨c, _, hr2⟩ := except_bind_ok _ _ _ hr
      injection hr2 with hr2
      exact ⟨c, hr2.symm⟩

/-- Columns of a normalized frame: the renamed columns, possibly with
`demand` appended. -/
theorem normalizeDF_cols (raw df : DF) (h : normalizeDF raw = .ok df) :
    df.cols = raw.cols.map normColName ∨ df.cols = raw.cols.map normColName ++ ["demand"] := by
  unfold normalizeDF at h
  obtain ⟨df1, h1, h2⟩ := except_bind_ok _ _ _ h
  have hc1 : df1.cols = raw.cols.map normColName := by
    rw [(normYear_spec _ _ h1).1, normLoc_cols, (normCols_spec raw).1]
  rcases addDemand_spec _ _ h2 with ⟨rfl, _⟩ | ⟨hcols, _⟩
  · exact Or.inl hc1
  · right
    rw [hcols, hc1]

/-- C9 column half: every successful normalization gives normalized
column names. -/
theorem normalizeDF_colsNormalized (raw df : DF) (h : normalizeDF raw = .ok df) :
    ColsNormalized df := by
  intro c hc
  rcases normalizeDF_cols raw df h with hcols | hcols
  · rw [hcols] at hc
    obtain ⟨c0, _, rfl⟩ := List.mem_map.mp hc
    exact normColName_props c0
  · rw [hcols] at hc
    rcases List.mem_append.mp hc with hc | hc
    · obtain ⟨c0, _, rfl⟩ := List.mem_map.mp hc
      exact normColName_props c0
    · have : c = "demand" := by simpa using hc
      subst this
      exact ⟨by decide, by decide, by decide⟩

theorem forall₂_mem_right {α β : Type} {R : α → β → Prop} :
    ∀ {l : List α} {l' : List β}, List.Forall₂ R l l' → ∀ b ∈ l', ∃ a ∈ l, R a b := by
  intro l l' h
  induction h with
  | nil => intro b hb; cases hb
  | @cons a b as bs hR hFa ih =>
    intro x hx
    rcases List.mem_cons.mp hx with rfl | hx
    · exact ⟨a, List.mem_cons_self a as, hR⟩
    · obtain ⟨a2, ha2, hab⟩ := ih x hx
      exact ⟨a2, List.mem_cons_of_mem a ha2, hab⟩

theorem normLoc_found (df : DF) (i : ℕ)
    (h : df.cols.findIdx? (· == "final_location") = some i) :
    normLoc df = ⟨df.cols, df.rows.map (fun r =>
      r.set i (Cell.str (pyStrip (pyLower (pyStrOfCell (cellAt r i))))))⟩ := by
  unfold normLoc
  rw [h]

theorem cellAt_set_self (r : Row) (i : ℕ) (c : Cell) (h : i < r.length) :
    cellAt (r.set i c) i = c := by
  unfold cellAt
  rw [List.getD_eq_getElem?_getD, List.getElem?_set, if_pos rfl, if_pos h]
  rfl

theorem cellAt_set_ne (r : Row) (i j : ℕ) (c : Cell) (h : j ≠ i) :
    cellAt (r.set j c) i = cellAt r i := by
  unfold cellAt
  rw [List.getD_eq_getElem?_getD, List.getElem?_set_ne h, ← List.getD_eq_getElem?_getD]

theorem cellAt_append_lt (r : Row) (l : Row) (i : ℕ) (h : i < r.length) :
    cellAt (r ++ l) i = cellAt r i := by
  unfold cellAt
  rw [List.getD_eq_getElem?_getD, List.getElem?_append, if_pos h,
    ← List.getD_eq_getElem?_getD]

/-- The `final_location` half of C9, for any successful normalization of a
rectangular raw frame. -/
theorem normalizeDF_locVals (raw df : DF) (hrect : Rect raw)
    (h : normalizeDF raw = .ok df) : LocValsNormalized df := by
  intro i hi
  unfold normalizeDF at h
  obtain ⟨df2, h2, h3⟩ := except_bind_ok _ _ _ h
  have hcols2 : df2.cols = raw.cols.map normColName := by
    rw [(normYear_spec _ _ h2).1, normLoc_cols]
    rfl
  have hC : (raw.cols.map normColName).findIdx? (· == "final_location") = some i := by
    rcases addDemand_spec _ _ h3 with ⟨heq, _⟩ | ⟨hcols, _⟩
    · rw [← hcols2, ← heq]; exact hi
    · rw [hcols, hcols2] at hi
      cases hfc : (raw.cols.map normColName).findIdx? (· == "final_location") with
      | some i0 =>
        have hap := findIdx?_append_left _ _ ["demand"] 0 i0 hfc
        rw [hap] at hi
        injection hi with hi
        subst hi
        rfl
      | none =>
        rw [findIdx?_append_none _ _ ["demand"] 0 hfc] at hi
        exact Option.noConfusion hi
  obtain ⟨_, hilen, a, ha, hpa⟩ := findIdx?_some_spec _ _ 0 i hC
  simp only [Nat.sub_zero] at hilen ha
  have hiraw : i < raw.cols.length := by
    rw [List.length_map] at hilen
    exact hilen
  -- the frame after location normalization
  have hC1 : (normCols raw).cols.findIdx? (· == "final_location") = some i := hC
  have hdf1 := normLoc_found (normCols raw) i hC1
  -- every row of df2 has the normalized string at i, within bounds
  have hdf2row : ∀ r2 ∈ df2.rows, i < r2.length ∧
      ∃ s, cellAt r2 i = Cell.str s ∧ pyStrip s = s ∧ pyLower s = s := by
    intro r2 hr2
    have hrows1 : (normLoc (normCols raw)).rows = raw.rows.map (fun r =>
        r.set i (Cell.str (pyStrip (pyLower (pyStrOfCell (cellAt r i)))))) := by
      rw [hdf1]
      rfl
    have hprop1 : ∀ r1 ∈ (normLoc (normCols raw)).rows, i < r1.length ∧
        ∃ s, cellAt r1 i = Cell.str s ∧ pyStrip s = s ∧ pyLower s = s := by
      intro r1 hr1
      rw [hrows1] at hr1
      obtain ⟨r, hr, rfl⟩ := List.mem_map.mp hr1
      have hrl : i < r.length := by rw [hrect r hr]; exact hiraw
      have hlen : i < (r.set i (Cell.str (pyStrip (pyLower (pyStrOfCell (cellAt r i)))))).length := by
        rw [List.length_set]
        exact hrl
      refine ⟨hlen, pyStrip (pyLower (pyStrOfCell (cellAt r i))), ?_, ?_, ?_⟩
      · exact cellAt_set_self r i _ hrl
      · exact (locVal_props (pyStrOfCell (cellAt r i))).1
      · exact (locVal_props (pyStrOfCell (cellAt r i))).2
    rcases (normYear_spec _ _ h2).2 with heqr | ⟨j, hj, hfa⟩
    · rw [← heqr] at hprop1
      exact hprop1 r2 hr2
    · obtain ⟨r1, hr1, c, _, rfl⟩ := forall₂_mem_right hfa r2 hr2
      have hji : j ≠ i := by
        intro hji
        subst hji
        obtain ⟨_, hjlen, b, hb, hpb⟩ := findIdx?_some_spec _ _ 0 j hj
        simp only [Nat.sub_zero] at hb
        have hab : a = "final_location" := eq_of_beq hpa
        have hbb : b = "year" := eq_of_beq hpb
        rw [normLoc_cols] at hb
        have : (normCols raw).cols = raw.cols.map normColName := rfl
        rw [this] at hb
        rw [ha] at hb
        injection hb with hb
        rw [hab, hbb] at hb
        exact absurd hb (by decide)
      obtain ⟨h1len, s, hs, hs1, hs2⟩ := hprop1 r1 hr1
      refine ⟨by rw [List.length_set]; exact h1len, s, ?_, hs1, hs2⟩
      rw [cellAt_set_ne r1 i j c hji]
      exact hs
  -- push through addDemand
  intro r3 hr3
  rcases addDemand_spec _ _ h3 with ⟨heq, _⟩ | ⟨_, hfa⟩
  · subst heq
    exact (hdf2row r3 hr3).2
  · obtain ⟨r2, hr2, c, rfl⟩ := forall₂_mem_right hfa r3 hr3
    obtain ⟨hlen, s, hs, hs1, hs2⟩ := hdf2row r2 hr2
    refine ⟨s, ?_, hs1, hs2⟩
    rw [cellAt_append_lt r2 [c] i hlen]
    exact hs

/-! ### Claim C9 -/

/-- C9: after every successful upload and every successful load of a
rectangular raw frame, the cached table has trimmed, lower-case column
names with no spaces or hyphens, and — when a `final_location` column is
present — all its values are trimmed lower-case strings; the invariant
holds on both the upload path and the load path. -/
theorem claimC9 (raw : DF) (hrect : Rect raw) :
    (∀ st name st2 msg,
      upload_file st (some (name, XFile.wellFormed raw)) = (UploadResp.success msg, st2) →
      ∃ df, st2.cachedDf = some df ∧ ColsNormalized df ∧ LocValsNormalized df) ∧
    (∀ df st2, load_dataframe ⟨none, none⟩ (some (XFile.wellFormed raw)) = (some df, st2) →
      ColsNormalized df ∧ LocValsNormalized df) := by
  constructor
  · intro st name st2 msg hup
    rw [upload_some_eq] at hup
    by_cases hext : (pyEndsWith name ".xlsx" || pyEndsWith name ".xls") = true
    · rw [if_pos hext] at hup
      cases hn : (pdReadExcel (XFile.wellFormed raw) >>= normalizeDF : Except PyErr DF) with
      | ok df =>
        rw [hn] at hup
        have hdf : normalizeDF raw = .ok df := hn
        injection hup with h1 h2
        refine ⟨df, by rw [← h2], normalizeDF_colsNormalized raw df hdf,
          normalizeDF_locVals raw df hrect hdf⟩
      | error e =>
        rw [hn] at hup
        injection hup with h1 _
        exact absurd h1 (by intro hh; cases hh)
    · rw [if_neg hext] at hup
      injection hup with h1 _
      exact absurd h1 (by intro hh; cases hh)
  · intro df st2 hld
    rw [load_cold_eq] at hld
    cases hn : (pdReadExcel (XFile.wellFormed raw) >>= normalizeDF : Except PyErr DF) with
    | ok df0 =>
      rw [hn] at hld
      have hdf : normalizeDF raw = .ok df0 := hn
      injection hld with h1 h2
      injection h1 with h1
      subst h1
      exact ⟨normalizeDF_colsNormalized raw df0 hdf, normalizeDF_locVals raw df0 hrect hdf⟩
    | error e =>
      rw [hn] at hld
      injection hld with h1 _
      exact Option.noConfusion h1

/-- C9 witness: the `wRaw` fixture (unnormalized headers and location
casing) through the upload path and the load path. -/
theorem claimC9_witness :
    (∃ df, (ServerState.mk (some wNorm) none).cachedDf = some df ∧
      ColsNormalized df ∧ LocValsNormalized df) ∧
    (ColsNormalized wNorm ∧ LocValsNormalized wNorm) := by
  have hrect : Rect wRaw := by
    intro r hr
    rw [List.mem_singleton.mp hr]
    rfl
  constructor
  · exact (claimC9 wRaw hrect).1 wSt "a.xlsx" ⟨some wNorm, none⟩
      "File uploaded successfully." (by decide)
  · exact (claimC9 wRaw hrect).2 wNorm ⟨some wNorm, some (some wNorm)⟩ (by decide)

/-! ### Claim C4 -/

/-- C4: an upload whose file fails to parse returns the server error with
the module state exactly unchanged; an upload that parses replaces the
cached frame, clears the loader memo, and the next `load_dataframe` (hence
the next analyze) sees the new frame regardless of what is on disk. -/
theorem claimC4 (st : ServerState) (name : String) (f : XFile)
    (hext : (pyEndsWith name ".xlsx" || pyEndsWith name ".xls") = true) :
    ((pdReadExcel f >>= normalizeDF : Except PyErr DF).isOk = false →
      upload_file st (some (name, f)) =
        (UploadResp.serverError "Failed to process file.", st)) ∧
    (∀ df : DF, (pdReadExcel f >>= normalizeDF : Except PyErr DF) = .ok df →
      upload_file st (some (name, f)) =
        (UploadResp.success "File uploaded successfully.", ⟨some df, none⟩) ∧
      ∀ disk : Option XFile,
        load_dataframe ⟨some df, none⟩ disk = (some df, ⟨some df, some (some df)⟩)) := by
  constructor
  · intro hfail
    unfold upload_file
    simp only [hext, if_true]
    cases h : (pdReadExcel f >>= normalizeDF : Except PyErr DF) with
    | ok df => rw [h] at hfail; simp [Except.isOk, Except.toBool] at hfail
    | error e => rfl
  · intro df hok
    constructor
    · unfold upload_file
      simp only [hext, if_true, hok]
    · intro disk
      rfl

/-- C4 witness: a corrupt `.xlsx` upload leaves the state unchanged; a
well-formed `.xls` upload installs the normalized frame and the next load
returns it. -/
theorem claimC4_witness :
    upload_file wSt (some ("data.xlsx", XFile.corrupt)) =
      (UploadResp.serverError "Failed to process file.", wSt) ∧
    upload_file wSt (some ("data.xls", XFile.wellFormed wRaw)) =
      (UploadResp.success "File uploaded successfully.", ⟨some wNorm, none⟩) ∧
    load_dataframe ⟨some wNorm, none⟩ none = (some wNorm, ⟨some wNorm, some (some wNorm)⟩) := by
  refine ⟨?_, ?_, ?_⟩
  · exact (claimC4 wSt "data.xlsx" XFile.corrupt (by decide)).1 (by decide)
  · exact ((claimC4 wSt "data.xls" (XFile.wellFormed wRaw) (by decide)).2 wNorm (by decide)).1
  · exact ((claimC4 wSt "data.xls" (XFile.wellFormed wRaw) (by decide)).2 wNorm (by decide)).2 none

/-! ### `pyTitle` key-shape lemmas

The chart records key demand values under `loc.title()` and prices under
`loc.title() + "_price"`; these lemmas show the keys of distinct lower-case
locations never collide with each other or with `"year"`. -/

/-- ASCII lower-case letters. -/
def lowerAlpha (c : Char) : Bool := decide (97 ≤ c.toNat) && decide (c.toNat ≤ 122)

theorem bool_ne_false {b : Bool} (h : ¬b = false) : b = true := by
  cases b
  · exact absurd rfl h
  · rfl

theorem toUpper_toNat (c : Char) :
    (Char.toUpper c).toNat =
      if 97 ≤ c.toNat ∧ c.toNat ≤ 122 then c.toNat - 32 else c.toNat := by
  show (if c.toNat ≥ 97 ∧ c.toNat ≤ 122 then Char.ofNat (c.toNat - 32) else c).toNat = _
  by_cases h : 97 ≤ c.toNat ∧ c.toNat ≤ 122
  · rw [if_pos h, if_pos h, charOfNat_toNat _ (by unfold Nat.isValidChar; omega)]
  · rw [if_neg h, if_neg h]

theorem isAlpha_iff_toNat (c : Char) :
    c.isAlpha = true ↔ (65 ≤ c.toNat ∧ c.toNat ≤ 90) ∨ (97 ≤ c.toNat ∧ c.toNat ≤ 122) := by
  unfold Char.isAlpha Char.isUpper Char.isLower
  constructor
  · intro h
    rcases Bool.or_eq_true_iff.mp h with h | h <;>
      rcases Bool.and_eq_true_iff.mp h with ⟨h1, h2⟩
    · exact Or.inl ⟨by exact_mod_cast of_decide_eq_true h1, by exact_mod_cast of_decide_eq_true h2⟩
    · exact Or.inr ⟨by exact_mod_cast of_decide_eq_true h1, by exact_mod_cast of_decide_eq_true h2⟩
  · intro h
    rcases h with ⟨h1, h2⟩ | ⟨h1, h2⟩
    · apply Bool.or_eq_true_iff.mpr
      left
      apply Bool.and_eq_true_iff.mpr
      exact ⟨decide_eq_true (by exact_mod_cast h1), decide_eq_true (by exact_mod_cast h2)⟩
    · apply Bool.or_eq_true_iff.mpr
      right
      apply Bool.and_eq_true_iff.mpr
      exact ⟨decide_eq_true (by exact_mod_cast h1), decide_eq_true (by exact_mod_cast h2)⟩

theorem lowerAlpha_iff_toNat (c : Char) :
    lowerAlpha c = true ↔ 97 ≤ c.toNat ∧ c.toNat ≤ 122 := by
  unfold lowerAlpha
  rw [Bool.and_eq_true_iff, decide_eq_true_iff, decide_eq_true_iff]

theorem lowerAlpha_toUpper (c : Char) : lowerAlpha (Char.toUpper c) = false := by
  by_contra h
  have h2 := (lowerAlpha_iff_toNat _).mp (bool_ne_false h)
  rw [toUpper_toNat] at h2
  by_cases hc : 97 ≤ c.toNat ∧ c.toNat ≤ 122
  · rw [if_pos hc] at h2; omega
  · rw [if_neg hc] at h2; exact hc ⟨h2.1, h2.2⟩

theorem lowerAlpha_isAlpha {c : Char} (h : lowerAlpha c = true) : c.isAlpha = true := by
  rw [isAlpha_iff_toNat]
  exact Or.inr ((lowerAlpha_iff_toNat c).mp h)

theorem isAlpha_toLower (c : Char) : (Char.toLower c).isAlpha = c.isAlpha := by
  by_cases h : c.isAlpha = true
  · rw [h]
    rcases (isAlpha_iff_toNat c).mp h with h2 | h2
    · apply (isAlpha_iff_toNat _).mpr
      rw [toLower_toNat, if_pos ⟨h2.1, h2.2⟩]
      right
      omega
    · have : Char.toLower c = c := char_eq_of_toNat_eq (by rw [toLower_toNat, if_neg (by omega)])
      rw [this]
      exact h
  · have h1 : c.isAlpha = false := by
      cases hca : c.isAlpha
      · rfl
      · exact absurd hca h
    rw [h1]
    by_contra h2
    have h3 : (Char.toLower c).isAlpha = true := bool_ne_false h2
    rcases (isAlpha_iff_toNat _).mp h3 with h4 | h4 <;>
      · rw [toLower_toNat] at h4
        by_cases hc : 65 ≤ c.toNat ∧ c.toNat ≤ 90
        · rw [if_pos hc] at h4
          exact absurd ((isAlpha_iff_toNat c).mpr (Or.inl hc)) (by rw [h1]; simp)
        · rw [if_neg hc] at h4
          exact absurd ((isAlpha_iff_toNat c).mpr (by omega)) (by rw [h1]; simp)

theorem isAlpha_toUpper (c : Char) : (Char.toUpper c).isAlpha = c.isAlpha := by
  by_cases h : c.isAlpha = true
  · rw [h]
    rcases (isAlpha_iff_toNat c).mp h with h2 | h2
    · have : Char.toUpper c = c := char_eq_of_toNat_eq (by rw [toUpper_toNat, if_neg (by omega)])
      rw [this]
      exact h
    · apply (isAlpha_iff_toNat _).mpr
      rw [toUpper_toNat, if_pos ⟨h2.1, h2.2⟩]
      left
      omega
  · have h1 : c.isAlpha = false := by
      cases hca : c.isAlpha
      · rfl
      · exact absurd hca h
    rw [h1]
    by_contra h2
    have h3 : (Char.toUpper c).isAlpha = true := bool_ne_false h2
    rcases (isAlpha_iff_toNat _).mp h3 with h4 | h4 <;>
      · rw [toUpper_toNat] at h4
        by_cases hc : 97 ≤ c.toNat ∧ c.toNat ≤ 122
        · rw [if_pos hc] at h4
          exact absurd ((isAlpha_iff_toNat c).mpr (Or.inr hc)) (by rw [h1]; simp)
        · rw [if_neg hc] at h4
          exact absurd ((isAlpha_iff_toNat c).mpr (by omega)) (by rw [h1]; simp)

/-- The character emitted by `pyTitleChars` for input `c` after a
previous-alphabetic flag `prev`. -/
def titleChar (prev : Bool) (c : Char) : Char :=
  if c.isAlpha then (if prev then c.toLower else c.toUpper) else c

theorem pyTitleChars_eq (prev : Bool) (l : List Char) :
    pyTitleChars prev l = match l with
      | [] => []
      | c :: cs => titleChar prev c :: pyTitleChars c.isAlpha cs := by
  cases l <;> rfl

theorem titleChar_lowerAlpha {prev : Bool} {c : Char}
    (h : lowerAlpha (titleChar prev c) = true) : c.isAlpha = true ∧ prev = true := by
  unfold titleChar at h
  by_cases ha : c.isAlpha = true
  · refine ⟨ha, ?_⟩
    rw [if_pos ha] at h
    cases hp : prev
    · rw [hp, if_neg (by simp)] at h
      exact absurd h (by rw [lowerAlpha_toUpper]; simp)
    · rfl
  · rw [if_neg ha] at h
    exact absurd (lowerAlpha_isAlpha h) ha

theorem titleChar_isAlpha (prev : Bool) (c : Char) :
    (titleChar prev c).isAlpha = c.isAlpha := by
  unfold titleChar
  by_cases ha : c.isAlpha = true
  · rw [if_pos ha]
    cases prev
    · rw [if_neg (by simp), isAlpha_toUpper]
    · rw [if_pos rfl, isAlpha_toLower]
  · rw [if_neg ha]

/-- In a `title()`-cased string, a lower-case letter is always preceded by
an alphabetic character. -/
theorem pyTitleChars_chain (prev : Bool) (l : List Char) :
    List.Chain' (fun a b => lowerAlpha b = true → a.isAlpha = true) (pyTitleChars prev l) := by
  induction l generalizing prev with
  | nil => exact List.chain'_nil
  | cons c cs ih =>
    rw [pyTitleChars_eq]
    cases cs with
    | nil => exact List.chain'_singleton _
    | cons d ds =>
      rw [List.chain'_cons' ]
      constructor
      · intro y hy hlow
        rw [pyTitleChars_eq] at hy
        simp only [List.head?_cons] at hy
        have hyy : y = titleChar c.isAlpha d := by
          cases hy
          rfl
        subst hyy
        have hd := titleChar_lowerAlpha hlow
        rw [titleChar_isAlpha]
        exact hd.2
      · exact ih c.isAlpha

/-- The first character of a `title()`-cased string is never a lower-case
letter. -/
theorem pyTitle_head (s : String) (c : Char) (h : (pyTitle s).data.head? = some c) :
    lowerAlpha c = false := by
  unfold pyTitle at h
  cases hs : s.data with
  | nil => rw [hs] at h; exact Option.noConfusion h
  | cons x xs =>
    rw [hs, pyTitleChars_eq] at h
    simp only [List.head?_cons, Option.some_inj] at h
    subst h
    by_contra hc
    have h2 := @titleChar_lowerAlpha false x (bool_ne_false hc)
    exact Bool.noConfusion h2.2

theorem string_ext {a b : String} (h : a.data = b.data) : a = b := by
  cases a
  cases b
  simp only at h
  rw [h]

theorem string_append_data (s t : String) : (s ++ t).data = s.data ++ t.data := by
  cases s
  cases t
  rfl

theorem toLower_toUpper_of_lower (c : Char) (h : Char.toLower c = c) :
    Char.toLower (Char.toUpper c) = c := by
  by_cases ha : 97 ≤ c.toNat ∧ c.toNat ≤ 122
  · apply char_eq_of_toNat_eq
    rw [toLower_toNat, toUpper_toNat, if_pos ha, if_pos (by omega)]
    omega
  · have h2 : Char.toUpper c = c := char_eq_of_toNat_eq (by rw [toUpper_toNat, if_neg ha])
    rw [h2, h]

theorem titleChar_cancel (prev : Bool) (c : Char) (h : Char.toLower c = c) :
    Char.toLower (titleChar prev c) = c := by
  unfold titleChar
  by_cases ha : c.isAlpha = true
  · rw [if_pos ha]
    cases prev
    · rw [if_neg (by simp)]
      exact toLower_toUpper_of_lower c h
    · rw [if_pos rfl, toLower_idem, h]
  · rw [if_neg ha]
    exact h

theorem eq_of_map_eq_self {α : Type} (f : α → α) :
    ∀ l : List α, l.map f = l → ∀ x ∈ l, f x = x := by
  intro l
  induction l with
  | nil => intro _ x hx; cases hx
  | cons a as ih =>
    intro h x hx
    rw [List.map_cons] at h
    injection h with h1 h2
    rcases List.mem_cons.mp hx with rfl | hx
    · exact h1
    · exact ih h2 x hx

theorem pyTitleChars_cancel :
    ∀ (l : List Char), (∀ c ∈ l, Char.toLower c = c) →
      ∀ prev, (pyTitleChars prev l).map Char.toLower = l := by
  intro l
  induction l with
  | nil => intro _ _; rfl
  | cons c cs ih =>
    intro hl prev
    rw [pyTitleChars_eq, List.map_cons,
      titleChar_cancel prev c (hl c (List.mem_cons_self c cs)),
      ih (fun x hx => hl x (List.mem_cons_of_mem c hx)) c.isAlpha]

theorem pyLower_pyTitle (s : String) (h : pyLower s = s) : pyLower (pyTitle s) = s := by
  have hl : ∀ c ∈ s.data, Char.toLower c = c := by
    intro c hc
    have hd : s.data.map Char.toLower = s.data := by
      have := congrArg String.data h
      exact this
    exact eq_of_map_eq_self _ _ hd c hc
  apply string_ext
  show (pyTitleChars false s.data).map Char.toLower = s.data
  exact pyTitleChars_cancel s.data hl false

theorem pyTitle_inj {a b : String} (ha : pyLower a = a) (hb : pyLower b = b)
    (h : pyTitle a = pyTitle b) : a = b := by
  rw [← pyLower_pyTitle a ha, ← pyLower_pyTitle b hb, h]

theorem pyTitle_ne_append_price (a b : String) : pyTitle a ≠ pyTitle b ++ "_price" := by
  intro h
  have hd : (pyTitle a).data = (pyTitle b).data ++ ('_' :: 'p' :: "rice".data) := by
    rw [h, string_append_data]
  have hchain : List.Chain' (fun x y => lowerAlpha y = true → x.isAlpha = true)
      (pyTitle a).data := pyTitleChars_chain false a.data
  have hsuf : ('_' :: 'p' :: "rice".data) <:+ (pyTitle a).data := ⟨(pyTitle b).data, hd.symm⟩
  have hc2 := hchain.suffix hsuf
  have hR := (List.chain'_cons.mp hc2).1
  exact absurd (hR (by decide)) (by decide)

theorem pyTitle_ne_year (a : String) : pyTitle a ≠ "year" := by
  intro h
  have hh : (pyTitle a).data.head? = some 'y' := by rw [h]; rfl
  exact absurd (pyTitle_head a 'y' hh) (by decide)

theorem year_ne_append_price (b : String) : "year" ≠ pyTitle b ++ "_price" := by
  intro h
  have hm : '_' ∈ "year".data := by
    have : "year".data = (pyTitle b).data ++ "_price".data := by
      rw [h, string_append_data]
    rw [this]
    exact List.mem_append_right _ (by decide)
  exact absurd hm (by decide)

theorem append_price_inj {a b : String} (h : a ++ "_price" = b ++ "_price") : a = b := by
  apply string_ext
  have hd := congrArg String.data h
  rw [string_append_data, string_append_data] at hd
  exact List.append_cancel_right hd

/-! ### Sorting lemmas -/

theorem cellNum?_eq_some {c : Cell} {q : ℚ} : cellNum? c = some q ↔ c = Cell.num q := by
  cases c <;> simp [cellNum?]

theorem qInsertSortedDedup_mem (a x : ℚ) :
    ∀ l : List ℚ, (x ∈ qInsertSortedDedup a l ↔ x = a ∨ x ∈ l) := by
  intro l
  induction l with
  | nil => simp [qInsertSortedDedup]
  | cons y ys ih =>
    unfold qInsertSortedDedup
    by_cases h1 : y < a
    · rw [if_pos (decide_eq_true h1)]
      simp only [List.mem_cons, ih]
      tauto
    · rw [if_neg (by simp [h1])]
      by_cases h2 : a = y
      · subst h2
        rw [if_pos rfl]
        simp only [List.mem_cons]
        tauto
      · rw [if_neg h2]
        simp only [List.mem_cons]

theorem qInsertSortedDedup_pairwise (a : ℚ) :
    ∀ l : List ℚ, l.Pairwise (· < ·) → (qInsertSortedDedup a l).Pairwise (· < ·) := by
  intro l
  induction l with
  | nil => intro _; exact List.pairwise_singleton _ _
  | cons y ys ih =>
    intro hp
    rw [List.pairwise_cons] at hp
    unfold qInsertSortedDedup
    by_cases h1 : y < a
    · rw [if_pos (decide_eq_true h1)]
      rw [List.pairwise_cons]
      constructor
      · intro z hz
        rcases (qInsertSortedDedup_mem a z ys).mp hz with rfl | hz
        · exact h1
        · exact hp.1 z hz
      · exact ih hp.2
    · rw [if_neg (by simp [h1])]
      by_cases h2 : a = y
      · rw [if_pos h2, List.pairwise_cons]
        exact hp
      · rw [if_neg h2, List.pairwise_cons]
        have hay : a < y := by
          rcases lt_trichotomy a y with h | h | h
          · exact h
          · exact absurd h h2
          · exact absurd h h1
        constructor
        · intro z hz
          rcases List.mem_cons.mp hz with rfl | hz
          · exact hay
          · exact lt_trans hay (hp.1 z hz)
        · rw [List.pairwise_cons]
          exact hp

theorem foldr_qisd_mem (x : ℚ) :
    ∀ ys : List ℚ, (x ∈ ys.foldr qInsertSortedDedup [] ↔ x ∈ ys) := by
  intro ys
  induction ys with
  | nil => simp
  | cons y ys ih =>
    rw [List.foldr_cons, qInsertSortedDedup_mem, ih, List.mem_cons]

theorem foldr_qisd_pairwise :
    ∀ ys : List ℚ, (ys.foldr qInsertSortedDedup []).Pairwise (· < ·) := by
  intro ys
  induction ys with
  | nil => exact List.Pairwise.nil
  | cons y ys ih => exact qInsertSortedDedup_pairwise y _ ih

theorem sorted_lt_ext :
    ∀ (l₁ l₂ : List ℚ), l₁.Pairwise (· < ·) → l₂.Pairwise (· < ·) →
      (∀ x, x ∈ l₁ ↔ x ∈ l₂) → l₁ = l₂ := by
  intro l₁
  induction l₁ with
  | nil =>
    intro l₂ _ _ hm
    cases l₂ with
    | nil => rfl
    | cons b bs => exact absurd ((hm b).mpr (List.mem_cons_self b bs)) (by simp)
  | cons a as ih =>
    intro l₂ h₁ h₂ hm
    cases l₂ with
    | nil => exact absurd ((hm a).mp (List.mem_cons_self a as)) (by simp)
    | cons b bs =>
      rw [List.pairwise_cons] at h₁ h₂
      have hab : a = b := by
        rcases List.mem_cons.mp ((hm a).mp (List.mem_cons_self a as)) with h | h
        · exact h
        · rcases List.mem_cons.mp ((hm b).mpr (List.mem_cons_self b bs)) with h3 | h3
          · exact h3.symm
          · exact absurd (lt_trans (h₂.1 a h) (h₁.1 b h3)) (lt_irrefl b)
      subst hab
      congr 1
      apply ih bs h₁.2 h₂.2
      intro x
      constructor
      · intro hx
        rcases List.mem_cons.mp ((hm x).mp (List.mem_cons_of_mem a hx)) with rfl | h
        · exact absurd (h₁.1 x hx) (lt_irrefl x)
        · exact h
      · intro hx
        rcases List.mem_cons.mp ((hm x).mpr (List.mem_cons_of_mem a hx)) with rfl | h
        · exact absurd (h₂.1 x hx) (lt_irrefl x)
        · exact h

theorem sortedYears_mem (yIdx : ℕ) (rows : List Row) (x : ℚ) :
    x ∈ sortedYears yIdx rows ↔ ∃ r ∈ rows, cellAt r yIdx = Cell.num x := by
  unfold sortedYears
  rw [foldr_qisd_mem, List.mem_filterMap]
  constructor
  · rintro ⟨r, hr, hx⟩
    exact ⟨r, hr, cellNum?_eq_some.mp hx⟩
  · rintro ⟨r, hr, hx⟩
    exact ⟨r, hr, cellNum?_eq_some.mpr hx⟩

theorem sortedYears_pairwise (yIdx : ℕ) (rows : List Row) :
    (sortedYears yIdx rows).Pairwise (· < ·) := foldr_qisd_pairwise _

theorem sortedYears_congr_perm (yIdx : ℕ) {l l' : List Row} (h : l.Perm l') :
    sortedYears yIdx l = sortedYears yIdx l' := by
  apply sorted_lt_ext _ _ (sortedYears_pairwise yIdx l) (sortedYears_pairwise yIdx l')
  intro x
  rw [sortedYears_mem, sortedYears_mem]
  constructor
  · rintro ⟨r, hr, hx⟩
    exact ⟨r, h.mem_iff.mp hr, hx⟩
  · rintro ⟨r, hr, hx⟩
    exact ⟨r, h.mem_iff.mpr hr, hx⟩

theorem insertRowY_perm (yIdx : ℕ) (r : Row) :
    ∀ l : List Row, (insertRowY yIdx r l).Perm (r :: l) := by
  intro l
  induction l with
  | nil => exact List.Perm.refl _
  | cons s ss ih =>
    unfold insertRowY
    by_cases h : cellYearLt (cellAt s yIdx) (cellAt r yIdx) = true
    · rw [if_pos h]
      exact (ih.cons s).trans (List.Perm.swap r s ss)
    · rw [if_neg h]

theorem sortRowsY_perm (yIdx : ℕ) : ∀ l : List Row, (sortRowsY yIdx l).Perm l := by
  intro l
  induction l with
  | nil => exact List.Perm.refl _
  | cons r rs ih =>
    unfold sortRowsY
    exact (insertRowY_perm yIdx r (sortRowsY yIdx rs)).trans (ih.cons r)

theorem insertPairY_perm (p : ℤ × Rec) :
    ∀ l : List (ℤ × Rec), (insertPairY p l).Perm (p :: l) := by
  intro l
  induction l with
  | nil => exact List.Perm.refl _
  | cons q qs ih =>
    unfold insertPairY
    by_cases h : q.1 < p.1
    · rw [if_pos (decide_eq_true h)]
      exact (ih.cons q).trans (List.Perm.swap p q qs)
    · rw [if_neg (by simp [h])]

theorem sortPairsByYear_perm :
    ∀ l : List (ℤ × Rec), (sortPairsByYear l).Perm l := by
  intro l
  induction l with
  | nil => exact List.Perm.refl _
  | cons p ps ih =>
    unfold sortPairsByYear
    exact (insertPairY_perm p (sortPairsByYear ps)).trans (ih.cons p)

theorem insertPairY_pairwise (p : ℤ × Rec) :
    ∀ l : List (ℤ × Rec), l.Pairwise (fun a b => a.1 ≤ b.1) →
      (insertPairY p l).Pairwise (fun a b => a.1 ≤ b.1) := by
  intro l
  induction l with
  | nil => intro _; exact List.pairwise_singleton _ _
  | cons q qs ih =>
    intro hp
    rw [List.pairwise_cons] at hp
    unfold insertPairY
    by_cases h : q.1 < p.1
    · rw [if_pos (decide_eq_true h)]
      rw [List.pairwise_cons]
      constructor
      · intro z hz
        rcases (insertPairY_perm p qs).mem_iff.mp hz with hz2
        rcases List.mem_cons.mp hz2 with rfl | hz3
        · exact le_of_lt h
        · exact hp.1 z hz3
      · exact ih hp.2
    · rw [if_neg (by simp [h])]
      rw [List.pairwise_cons]
      constructor
      · intro z hz
        rcases List.mem_cons.mp hz with rfl | hz2
        · exact le_of_not_lt h
        · exact le_trans (le_of_not_lt h) (hp.1 z hz2)
      · rw [List.pairwise_cons]
        exact hp

theorem sortPairsByYear_pairwise :
    ∀ l : List (ℤ × Rec), (sortPairsByYear l).Pairwise (fun a b => a.1 ≤ b.1) := by
  intro l
  induction l with
  | nil => exact List.Pairwise.nil
  | cons p ps ih =>
    unfold sortPairsByYear
    exact insertPairY_pairwise p _ ih

/-! ### Claim-side characterizations of the aggregation -/

/-- The rows of one location: `df[df["final_location"] == loc]`. -/
def locRows (df : DF) (flIdx : ℕ) (loc : String) : List Row :=
  df.rows.filter (fun r => decide (cellAt r flIdx = Cell.str loc))

/-- The windowed rows of one location: with a positive window `n`, the rows
whose year exceeds the location's maximum year minus `n` (exactly the
filter the source applies); otherwise all the location's rows.  The
`none`-max case never coexists with a successful `analyze` call. -/
def winRows (df : DF) (flIdx yIdx : ℕ) (last_n : Option ℕ) (loc : String) : List Row :=
  match last_n with
  | some n =>
    if n = 0 then locRows df flIdx loc
    else
      match maxNum? ((locRows df flIdx loc).map (fun r => cellAt r yIdx)) with
      | some q =>
        (locRows df flIdx loc).filter
          (fun r => cellGtZ (cellAt r yIdx) (qTrunc q - (n : ℤ)))
      | none => locRows df flIdx loc
  | none => locRows df flIdx loc

/-- The distinct integer years of a location's windowed rows, ascending. -/
def locYearsZ (df : DF) (flIdx yIdx : ℕ) (last_n : Option ℕ) (loc : String) : List ℤ :=
  (sortedYears yIdx (winRows df flIdx yIdx last_n loc)).map qTrunc

/-- The year group `analyze` processes for location `loc` and integer year
`y` (frame order after the stable year sort). -/
def grpRowsA (df : DF) (flIdx yIdx : ℕ) (last_n : Option ℕ) (loc : String) (y : ℤ) : List Row :=
  (sortRowsY yIdx (winRows df flIdx yIdx last_n loc)).filter
    (fun r => decide (cellAt r yIdx = Cell.num (Rat.divInt y 1)))

/-- The demand number stored in the chart for one year group:
`int(group["demand"].sum())`. -/
def chartDemandE (dIdx : ℕ) (rows : List Row) : Except PyErr ℤ := do
  let s ← pySumCells (rows.map (fun r => cellAt r dIdx))
  pyIntOfCell s

/-- All year cells of a frame are integral or missing (true of every frame
the loader or the upload handler caches, by the `Int64` coercion). -/
def YearsIntegral (df : DF) (yIdx : ℕ) : Prop :=
  ∀ r ∈ df.rows, ∀ q : ℚ, cellAt r yIdx = Cell.num q → ∃ z : ℤ, q = Rat.divInt z 1

/-! ### Association-list lookup lemmas -/

theorem lookup_map_update {α β : Type} [BEq α] [LawfulBEq α] [DecidableEq α] (k : α) (v : β) :
    ∀ l : List (α × β),
      (l.map (fun p => if p.1 = k then (k, v) else p)).lookup k =
        (l.lookup k).map (fun _ => v) := by
  intro l
  induction l with
  | nil => rfl
  | cons p ps ih =>
    rw [List.map_cons]
    cases p with
    | mk pk pv =>
      by_cases hp : pk = k
      · simp only
        rw [if_pos hp]
        subst hp
        simp [List.lookup, beq_self_eq_true pk]
      · simp only
        rw [if_neg hp]
        have hb : (k == pk) = false := by
          by_contra hc
          exact hp (eq_of_beq (bool_ne_false hc)).symm
        simp [List.lookup, hb, ih]

theorem lookup_map_update_ne {α β : Type} [BEq α] [LawfulBEq α] [DecidableEq α]
    (k k' : α) (v : β) (hne : k' ≠ k) :
    ∀ l : List (α × β),
      (l.map (fun p => if p.1 = k then (k, v) else p)).lookup k' = l.lookup k' := by
  intro l
  induction l with
  | nil => rfl
  | cons p ps ih =>
    rw [List.map_cons]
    cases p with
    | mk pk pv =>
      by_cases hp : pk = k
      · simp only
        rw [if_pos hp]
        subst hp
        have hb : (k' == pk) = false := by
          by_contra hc
          exact hne (eq_of_beq (bool_ne_false hc))
        simp [List.lookup, hb, ih]
      · simp only
        rw [if_neg hp]
        by_cases hb : (k' == pk) = true
        · simp [List.lookup, hb]
        · have hb2 : (k' == pk) = false := by
            cases hx : (k' == pk)
            · rfl
            · exact absurd hx hb
          simp [List.lookup, hb2, ih]

theorem lookup_append_single {α β : Type} [BEq α] [LawfulBEq α] (k : α) (v : β) :
    ∀ l : List (α × β), l.lookup k = none → (l ++ [(k, v)]).lookup k = some v := by
  intro l
  induction l with
  | nil => intro _; simp [List.lookup]
  | cons p ps ih =>
    intro hl
    cases p with
    | mk pk pv =>
      by_cases hb : (k == pk) = true
      · simp [List.lookup, hb] at hl
      · have hb2 : (k == pk) = false := by
          cases hx : (k == pk)
          · rfl
          · exact absurd hx hb
        simp only [List.lookup, hb2] at hl
        rw [List.cons_append]
        simp [List.lookup, hb2, ih hl]

theorem lookup_append_single_ne {α β : Type} [BEq α] [LawfulBEq α] (k k' : α) (v : β)
    (hne : k' ≠ k) :
    ∀ l : List (α × β), (l ++ [(k, v)]).lookup k' = l.lookup k' := by
  intro l
  induction l with
  | nil =>
    have hb : (k' == k) = false := by
      by_contra hc
      exact hne (eq_of_beq (bool_ne_false hc))
    simp [List.lookup, hb]
  | cons p ps ih =>
    cases p with
    | mk pk pv =>
      rw [List.cons_append]
      by_cases hb : (k' == pk) = true
      · simp [List.lookup, hb]
      · have hb2 : (k' == pk) = false := by
          cases hx : (k' == pk)
          · rfl
          · exact absurd hx hb
        simp [List.lookup, hb2, ih]

theorem recSet_lookup_self (r : Rec) (k : String) (v : Cell) :
    (recSet r k v).lookup k = some v := by
  unfold recSet
  by_cases h : (r.lookup k).isSome = true
  · rw [if_pos h, lookup_map_update]
    obtain ⟨w, hw⟩ := Option.isSome_iff_exists.mp h
    rw [hw]
    rfl
  · rw [if_neg h]
    exact lookup_append_single k v r (Option.not_isSome_iff_eq_none.mp (by
      cases hx : (r.lookup k).isSome
      · simp
      · exact absurd hx h))

theorem recSet_lookup_ne (r : Rec) (k k' : String) (v : Cell) (hne : k' ≠ k) :
    (recSet r k v).lookup k' = r.lookup k' := by
  unfold recSet
  by_cases h : (r.lookup k).isSome = true
  · rw [if_pos h, lookup_map_update_ne k k' v hne]
  · rw [if_neg h, lookup_append_single_ne k k' v hne]

theorem ymSet_lookup_self (ym : List (ℤ × Rec)) (y : ℤ) (rec : Rec) :
    (ymSet ym y rec).lookup y = some rec := by
  unfold ymSet
  by_cases h : (ym.lookup y).isSome = true
  · rw [if_pos h, lookup_map_update]
    obtain ⟨w, hw⟩ := Option.isSome_iff_exists.mp h
    rw [hw]
    rfl
  · rw [if_neg h]
    exact lookup_append_single y rec ym (Option.not_isSome_iff_eq_none.mp (by
      cases hx : (ym.lookup y).isSome
      · simp
      · exact absurd hx h))

theorem ymSet_lookup_ne (ym : List (ℤ × Rec)) (y y' : ℤ) (rec : Rec) (hne : y' ≠ y) :
    (ymSet ym y rec).lookup y' = ym.lookup y' := by
  unfold ymSet
  by_cases h : (ym.lookup y).isSome = true
  · rw [if_pos h, lookup_map_update_ne y y' rec hne]
  · rw [if_neg h, lookup_append_single_ne y y' rec hne]

theorem self_ne_append_price (s : String) : s ≠ s ++ "_price" := by
  intro h
  have hd := congrArg (fun t => t.data.length) h
  simp only at hd
  rw [string_append_data, List.length_append] at hd
  have : ("_price".data.length) = 6 := by decide
  omega

theorem chartRec0_year (ym : List (ℤ × Rec)) (y : ℤ)
    (hyear : ∀ y0 rec, ym.lookup y0 = some rec →
      rec.lookup "year" = some (Cell.num (Rat.divInt y0 1))) :
    (chartRec0 ym y).lookup "year" = some (Cell.num (Rat.divInt y 1)) := by
  unfold chartRec0
  cases hl : ym.lookup y with
  | some r => exact hyear y r hl
  | none => rfl

theorem chartRec0_other (ym : List (ℤ × Rec)) (y : ℤ) (k : String) (hk : k ≠ "year") :
    (chartRec0 ym y).lookup k = (ym.lookup y).bind (fun r0 => r0.lookup k) := by
  unfold chartRec0
  cases hl : ym.lookup y with
  | some r => rfl
  | none =>
    have hb : (k == "year") = false := by
      by_contra hc
      exact hk (eq_of_beq (bool_ne_false hc))
    simp [List.lookup, hb]

/-- The full behaviour of the chart-merging loop for one location: keys
outside the group keys are untouched, and each group's key ends up with the
fresh-or-merged record holding the year, the demand value (under the
location's title key) and the rounded mean-of-column-means price (under the
`_price` key), all other fields unchanged. -/
theorem chartFold_spec (dIdx : ℕ) (priceIdxs : List ℕ) (qt : QType) (tKey : String)
    (hty : tKey ≠ "year") (hpy : tKey ++ "_price" ≠ "year") :
    ∀ (gs : List (ℚ × List Row)) (ym ym' : List (ℤ × Rec)),
      chartFold dIdx priceIdxs qt tKey gs ym = .ok ym' →
      (gs.map (fun g => qTrunc g.1)).Nodup →
      (∀ y rec, ym.lookup y = some rec →
        rec.lookup "year" = some (Cell.num (Rat.divInt y 1))) →
      (∀ y, y ∉ gs.map (fun g => qTrunc g.1) → ym'.lookup y = ym.lookup y) ∧
      (∀ g ∈ gs, ∃ rec',
        ym'.lookup (qTrunc g.1) = some rec' ∧
        rec'.lookup "year" = some (Cell.num (Rat.divInt (qTrunc g.1) 1)) ∧
        (qt.hasDemand = true → ∃ z, chartDemandE dIdx g.2 = .ok z ∧
          rec'.lookup tKey = some (Cell.num (Rat.divInt z 1))) ∧
        (qt.hasDemand = false →
          rec'.lookup tKey = (ym.lookup (qTrunc g.1)).bind (fun r0 => r0.lookup tKey)) ∧
        (qt.hasPrice = true → rec'.lookup (tKey ++ "_price") =
          some (roundCell (meanOfColMeans priceIdxs g.2))) ∧
        (qt.hasPrice = false → rec'.lookup (tKey ++ "_price") =
          (ym.lookup (qTrunc g.1)).bind (fun r0 => r0.lookup (tKey ++ "_price"))) ∧
        (∀ k, k ≠ tKey → k ≠ tKey ++ "_price" → k ≠ "year" →
          rec'.lookup k = (ym.lookup (qTrunc g.1)).bind (fun r0 => r0.lookup k))) := by
  intro gs
  induction gs with
  | nil =>
    intro ym ym' h _ _
    have hymym : (pure ym : Except PyErr (List (ℤ × Rec))) = .ok ym' := h
    have : ym = ym' := by injection hymym
    subst this
    exact ⟨fun y _ => rfl, fun g hg => absurd hg (by simp)⟩
  | cons g gs ih =>
    intro ym ym' h hnd hyear
    rw [List.map_cons, List.nodup_cons] at hnd
    unfold chartFold at h
    obtain ⟨rec1, hrec1, hrest⟩ := except_bind_ok _ _ _ h
    -- Properties of rec1, by intent
    have hrec1_props :
        ((qt.hasDemand = true → ∃ z, chartDemandE dIdx g.2 = .ok z ∧
            rec1 = recSet (chartRec0 ym (qTrunc g.1)) tKey (Cell.num (Rat.divInt z 1))) ∧
          (qt.hasDemand = false → rec1 = chartRec0 ym (qTrunc g.1))) := by
      cases hd : qt.hasDemand with
      | true =>
        rw [hd, if_pos rfl] at hrec1
        obtain ⟨s, hs, hrec1b⟩ := except_bind_ok _ _ _ hrec1
        obtain ⟨z, hz, hrec1c⟩ := except_bind_ok _ _ _ hrec1b
        refine ⟨fun _ => ⟨z, ?_, ?_⟩, fun hf => Bool.noConfusion hf⟩
        · show (pySumCells (g.2.map (fun r => cellAt r dIdx)) >>= pyIntOfCell) = .ok z
          rw [hs]
          exact hz
        · injection hrec1c with hh
          exact hh.symm
      | false =>
        rw [hd, if_neg (by simp)] at hrec1
        refine ⟨fun ht => Bool.noConfusion ht, fun _ => ?_⟩
        injection hrec1 with hh
        exact hh.symm
    -- rec2 as written in the fold
    have hrest2 : chartFold dIdx priceIdxs qt tKey gs
        (ymSet ym (qTrunc g.1)
          (if qt.hasPrice then
            recSet rec1 (tKey ++ "_price") (roundCell (meanOfColMeans priceIdxs g.2))
          else rec1)) = .ok ym' := hrest
    -- name the second-level record
    generalize hrec2 : (if qt.hasPrice then
        recSet rec1 (tKey ++ "_price") (roundCell (meanOfColMeans priceIdxs g.2))
      else rec1) = rec2 at hrest2
    have htp : tKey ≠ tKey ++ "_price" := self_ne_append_price tKey
    -- lookups in rec2
    have hrec2_year : rec2.lookup "year" = some (Cell.num (Rat.divInt (qTrunc g.1) 1)) := by
      rw [← hrec2]
      by_cases hp : qt.hasPrice = true
      · rw [if_pos hp, recSet_lookup_ne _ _ _ _ (Ne.symm hpy)]
        rcases Bool.eq_false_or_eq_true qt.hasDemand with hd | hd
        · obtain ⟨z, _, hr1⟩ := hrec1_props.1 hd
          rw [hr1, recSet_lookup_ne _ _ _ _ (Ne.symm hty)]
          exact chartRec0_year ym (qTrunc g.1) hyear
        · rw [hrec1_props.2 hd]
          exact chartRec0_year ym (qTrunc g.1) hyear
      · rw [if_neg hp]
        rcases Bool.eq_false_or_eq_true qt.hasDemand with hd | hd
        · obtain ⟨z, _, hr1⟩ := hrec1_props.1 hd
          rw [hr1, recSet_lookup_ne _ _ _ _ (Ne.symm hty)]
          exact chartRec0_year ym (qTrunc g.1) hyear
        · rw [hrec1_props.2 hd]
          exact chartRec0_year ym (qTrunc g.1) hyear
    have hrec2_tKey_true : qt.hasDemand = true → ∃ z, chartDemandE dIdx g.2 = .ok z ∧
        rec2.lookup tKey = some (Cell.num (Rat.divInt z 1)) := by
      intro hd
      obtain ⟨z, hz, hr1⟩ := hrec1_props.1 hd
      refine ⟨z, hz, ?_⟩
      rw [← hrec2]
      by_cases hp : qt.hasPrice = true
      · rw [if_pos hp, recSet_lookup_ne _ _ _ _ htp, hr1, recSet_lookup_self]
      · rw [if_neg hp, hr1, recSet_lookup_self]
    have hrec2_tKey_false : qt.hasDemand = false →
        rec2.lookup tKey = (ym.lookup (qTrunc g.1)).bind (fun r0 => r0.lookup tKey) := by
      intro hd
      rw [← hrec2]
      by_cases hp : qt.hasPrice = true
      · rw [if_pos hp, recSet_lookup_ne _ _ _ _ htp, hrec1_props.2 hd]
        exact chartRec0_other ym (qTrunc g.1) tKey hty
      · rw [if_neg hp, hrec1_props.2 hd]
        exact chartRec0_other ym (qTrunc g.1) tKey hty
    have hrec2_kp_true : qt.hasPrice = true →
        rec2.lookup (tKey ++ "_price") = some (roundCell (meanOfColMeans priceIdxs g.2)) := by
      intro hp
      rw [← hrec2, if_pos hp, recSet_lookup_self]
    have hrec2_kp_false : qt.hasPrice = false →
        rec2.lookup (tKey ++ "_price") =
          (ym.lookup (qTrunc g.1)).bind (fun r0 => r0.lookup (tKey ++ "_price")) := by
      intro hp
      rw [← hrec2, if_neg (by simp [hp])]
      rcases Bool.eq_false_or_eq_true qt.hasDemand with hd | hd
      · obtain ⟨z, _, hr1⟩ := hrec1_props.1 hd
        rw [hr1, recSet_lookup_ne _ _ _ _ (Ne.symm htp)]
        exact chartRec0_other ym (qTrunc g.1) _ hpy
      · rw [hrec1_props.2 hd]
        exact chartRec0_other ym (qTrunc g.1) _ hpy
    have hrec2_other : ∀ k, k ≠ tKey → k ≠ tKey ++ "_price" → k ≠ "year" →
        rec2.lookup k = (ym.lookup (qTrunc g.1)).bind (fun r0 => r0.lookup k) := by
      intro k hk1 hk2 hk3
      rw [← hrec2]
      by_cases hp : qt.hasPrice = true
      · rw [if_pos hp, recSet_lookup_ne _ _ _ _ hk2]
        rcases Bool.eq_false_or_eq_true qt.hasDemand with hd | hd
        · obtain ⟨z, _, hr1⟩ := hrec1_props.1 hd
          rw [hr1, recSet_lookup_ne _ _ _ _ hk1]
          exact chartRec0_other ym (qTrunc g.1) k hk3
        · rw [hrec1_props.2 hd]
          exact chartRec0_other ym (qTrunc g.1) k hk3
      · rw [if_neg hp]
        rcases Bool.eq_false_or_eq_true qt.hasDemand with hd | hd
        · obtain ⟨z, _, hr1⟩ := hrec1_props.1 hd
          rw [hr1, recSet_lookup_ne _ _ _ _ hk1]
          exact chartRec0_other ym (qTrunc g.1) k hk3
        · rw [hrec1_props.2 hd]
          exact chartRec0_other ym (qTrunc g.1) k hk3
    -- the updated year map
    have hyear2 : ∀ y rec, (ymSet ym (qTrunc g.1) rec2).lookup y = some rec →
        rec.lookup "year" = some (Cell.num (Rat.divInt y 1)) := by
      intro y rec hl
      by_cases hy : y = qTrunc g.1
      · subst hy
        rw [ymSet_lookup_self] at hl
        injection hl with hl
        subst hl
        exact hrec2_year
      · rw [ymSet_lookup_ne _ _ _ _ hy] at hl
        exact hyear y rec hl
    obtain ⟨ihA, ihB⟩ := ih (ymSet ym (qTrunc g.1) rec2) ym' hrest2 hnd.2 hyear2
    constructor
    · intro y hy
      rw [List.map_cons, List.mem_cons] at hy
      push_neg at hy
      rw [ihA y hy.2, ymSet_lookup_ne _ _ _ _ hy.1]
    · intro g0 hg0
      rcases List.mem_cons.mp hg0 with rfl | hg0
      · refine ⟨rec2, ?_, hrec2_year, hrec2_tKey_true, hrec2_tKey_false,
          hrec2_kp_true, hrec2_kp_false, hrec2_other⟩
        rw [ihA (qTrunc g0.1) hnd.1, ymSet_lookup_self]
      · obtain ⟨rec', hl, hy, htk1, htk2, hkp1, hkp2, hoth⟩ := ihB g0 hg0
        have hne : qTrunc g0.1 ≠ qTrunc g.1 := by
          intro he
          exact hnd.1 (he ▸ List.mem_map_of_mem (fun g => qTrunc g.1) hg0)
        have hsame : (ymSet ym (qTrunc g.1) rec2).lookup (qTrunc g0.1) =
            ym.lookup (qTrunc g0.1) := ymSet_lookup_ne _ _ _ _ hne
        rw [hsame] at htk2 hkp2
        refine ⟨rec', hl, hy, htk1, htk2, hkp1, hkp2, ?_⟩
        intro k h1 h2 h3
        rw [hoth k h1 h2 h3, hsame]

/-! ### Inversion of the per-location loop -/

theorem locRows_subset (df : DF) (flIdx : ℕ) (loc : String) :
    ∀ r ∈ locRows df flIdx loc, r ∈ df.rows := by
  intro r hr
  exact (List.mem_filter.mp hr).1

theorem winRows_somePos_eq (df : DF) (flIdx yIdx : ℕ) (n : ℕ) (loc : String)
    (hn : ¬ n = 0) :
    winRows df flIdx yIdx (some n) loc =
      match maxNum? ((locRows df flIdx loc).map (fun r => cellAt r yIdx)) with
      | some q => (locRows df flIdx loc).filter
          (fun r => cellGtZ (cellAt r yIdx) (qTrunc q - (n : ℤ)))
      | none => locRows df flIdx loc := by
  show (if n = 0 then locRows df flIdx loc
    else match maxNum? ((locRows df flIdx loc).map (fun r => cellAt r yIdx)) with
      | some q => (locRows df flIdx loc).filter
          (fun r => cellGtZ (cellAt r yIdx) (qTrunc q - (n : ℤ)))
      | none => locRows df flIdx loc) = _
  rw [if_neg hn]

theorem winRows_subset (df : DF) (flIdx yIdx : ℕ) (last_n : Option ℕ) (loc : String) :
    ∀ r ∈ winRows df flIdx yIdx last_n loc, r ∈ df.rows := by
  intro r hr
  cases last_n with
  | none => exact locRows_subset df flIdx loc r hr
  | some n =>
    by_cases hn : n = 0
    · subst hn
      exact locRows_subset df flIdx loc r hr
    · rw [winRows_somePos_eq df flIdx yIdx n loc hn] at hr
      cases hmax : maxNum? ((locRows df flIdx loc).map (fun r => cellAt r yIdx)) with
      | some q =>
        rw [hmax] at hr
        exact locRows_subset df flIdx loc r (List.mem_filter.mp hr).1
      | none =>
        rw [hmax] at hr
        exact locRows_subset df flIdx loc r hr

theorem processLoc_ok_inv (df : DF) (flIdx : ℕ) (priceIdxs : List ℕ)
    (priceCols : List String) (qt : QType) (last_n : Option ℕ) (st : AnSt) (loc : String)
    (st' : AnSt) (h : processLoc df flIdx priceIdxs priceCols qt last_n st loc = .ok st') :
    ∃ yIdx dIdx ms ym,
      keyIdx df.cols "year" = .ok yIdx ∧
      keyIdx df.cols "demand" = .ok dIdx ∧
      generate_mock_summary df.cols priceIdxs
        (sortRowsY yIdx (winRows df flIdx yIdx last_n loc)) loc last_n = .ok ms ∧
      chartFold dIdx priceIdxs qt (pyTitle loc)
        (groupsByYear yIdx (sortRowsY yIdx (winRows df flIdx yIdx last_n loc)))
        st.yearMap = .ok ym ∧
      st' = ⟨st.table ++ (sortRowsY yIdx (winRows df flIdx yIdx last_n loc)).map
          (rowRecord df.cols (tableCols qt priceCols)),
        st.summaries ++ [(pyTitle loc, ms)], ym⟩ := by
  unfold processLoc at h
  obtain ⟨area1, h1, h2⟩ := except_bind_ok _ _ _ h
  obtain ⟨yIdx, hy, h3⟩ := except_bind_ok _ _ _ h2
  obtain ⟨ms, hms, h4⟩ := except_bind_ok _ _ _ h3
  obtain ⟨dIdx, hd, h5⟩ := except_bind_ok _ _ _ h4
  obtain ⟨ym, hym, h6⟩ := except_bind_ok _ _ _ h5
  have harea : area1 = winRows df flIdx yIdx last_n loc := by
    cases last_n with
    | none =>
      have h7 : Except.ok (locRows df flIdx loc) = Except.ok area1 := h1
      injection h7 with h8
      exact h8.symm
    | some n =>
      by_cases hn : n = 0
      · subst hn
        have h7 : Except.ok (locRows df flIdx loc) = Except.ok area1 := h1
        injection h7 with h8
        exact h8.symm
      · have h1b : (if n = 0 then
            (pure (locRows df flIdx loc) : Except PyErr (List Row))
          else
            keyIdx df.cols "year" >>= fun yIdx2 =>
            (match maxNum? ((locRows df flIdx loc).map (fun r => cellAt r yIdx2)) with
              | some q => pure (qTrunc q)
              | none => throw PyErr.typeError) >>= fun my =>
            pure ((locRows df flIdx loc).filter
              (fun r => cellGtZ (cellAt r yIdx2) (my - (n : ℤ))))) = Except.ok area1 := h1
        rw [if_neg hn] at h1b
        obtain ⟨yIdx2, hy2, h1c⟩ := except_bind_ok _ _ _ h1b
        rw [hy] at hy2
        injection hy2 with hy3
        subst hy3
        rw [winRows_somePos_eq df flIdx yIdx n loc hn]
        cases hmax : maxNum? ((locRows df flIdx loc).map (fun r => cellAt r yIdx)) with
        | some q =>
          rw [hmax] at h1c
          have h7 : Except.ok ((locRows df flIdx loc).filter
              (fun r => cellGtZ (cellAt r yIdx) (qTrunc q - (n : ℤ)))) = Except.ok area1 := h1c
          injection h7 with h8
          exact h8.symm
        | none =>
          rw [hmax] at h1c
          have h7 : (Except.error PyErr.typeError : Except PyErr (List Row))
              = Except.ok area1 := h1c
          exact Except.noConfusion h7
  subst harea
  have hst' : st' = ⟨st.table ++ (sortRowsY yIdx (winRows df flIdx yIdx last_n loc)).map
      (rowRecord df.cols (tableCols qt priceCols)),
    st.summaries ++ [(pyTitle loc, ms)], ym⟩ := by
    have h7 : Except.ok (⟨st.table ++
        (sortRowsY yIdx (winRows df flIdx yIdx last_n loc)).map
          (rowRecord df.cols (tableCols qt priceCols)),
      st.summaries ++ [(pyTitle loc, ms)], ym⟩ : AnSt) = Except.ok st' := h6
    injection h7 with h8
    exact h8.symm
  exact ⟨yIdx, dIdx, ms, ym, hy, hd, hms, hym, hst'⟩

/-! ### Integral year keys -/

theorem divInt_one_eq (z : ℤ) : Rat.divInt z 1 = (z : ℚ) := by
  rw [Rat.divInt_one]

theorem qTrunc_intCast (z : ℤ) : qTrunc ((z : ℚ)) = z := by
  unfold qTrunc
  by_cases h : 0 ≤ ((z : ℚ)).num
  · rw [if_pos h, qFloor_eq, Int.floor_intCast]
  · rw [if_neg h, qFloor_eq]
    rw [show -((z : ℚ)) = ((-z : ℤ) : ℚ) by push_cast; ring]
    rw [Int.floor_intCast]
    ring

theorem qTrunc_divInt_one (z : ℤ) : qTrunc (Rat.divInt z 1) = z := by
  rw [divInt_one_eq, qTrunc_intCast]

theorem divInt_one_inj {a b : ℤ} (h : Rat.divInt a 1 = Rat.divInt b 1) : a = b := by
  rw [divInt_one_eq, divInt_one_eq] at h
  exact_mod_cast h

theorem divInt_one_lt {a b : ℤ} (h : Rat.divInt a 1 < Rat.divInt b 1) : a < b := by
  rw [divInt_one_eq, divInt_one_eq] at h
  exact_mod_cast h

theorem winRows_years_integral (df : DF) (flIdx yIdx : ℕ) (last_n : Option ℕ) (loc : String)
    (hint : YearsIntegral df yIdx) (q : ℚ)
    (hq : q ∈ sortedYears yIdx (winRows df flIdx yIdx last_n loc)) :
    ∃ z : ℤ, q = Rat.divInt z 1 := by
  obtain ⟨r, hr, hcell⟩ := (sortedYears_mem _ _ _).mp hq
  exact hint r (winRows_subset df flIdx yIdx last_n loc r hr) q hcell

theorem map_qTrunc_nodup : ∀ {l : List ℚ}, l.Pairwise (· < ·) →
    (∀ q ∈ l, ∃ z : ℤ, q = Rat.divInt z 1) → (l.map qTrunc).Nodup := by
  intro l
  induction l with
  | nil => intro _ _; simp
  | cons a as ih =>
    intro hp hi
    rw [List.pairwise_cons] at hp
    rw [List.map_cons, List.nodup_cons]
    constructor
    · intro hmem
      obtain ⟨b, hb, hqb⟩ := List.mem_map.mp hmem
      obtain ⟨za, hza⟩ := hi a (List.mem_cons_self a as)
      obtain ⟨zb, hzb⟩ := hi b (List.mem_cons_of_mem a hb)
      have hlt : a < b := hp.1 b hb
      rw [hza, hzb] at hlt
      have hz : za < zb := divInt_one_lt hlt
      rw [hza, hzb, qTrunc_divInt_one, qTrunc_divInt_one] at hqb
      omega
    · exact ih hp.2 (fun q hq => hi q (List.mem_cons_of_mem a hq))

theorem locYearsZ_mem (df : DF) (flIdx yIdx : ℕ) (last_n : Option ℕ) (loc : String)
    (hint : YearsIntegral df yIdx) (y : ℤ) :
    y ∈ locYearsZ df flIdx yIdx last_n loc ↔
      Rat.divInt y 1 ∈ sortedYears yIdx (winRows df flIdx yIdx last_n loc) := by
  unfold locYearsZ
  constructor
  · intro h
    obtain ⟨q, hq, hqt⟩ := List.mem_map.mp h
    obtain ⟨z, rfl⟩ := winRows_years_integral df flIdx yIdx last_n loc hint q hq
    rw [qTrunc_divInt_one] at hqt
    subst hqt
    exact hq
  · intro h
    exact List.mem_map.mpr ⟨_, h, qTrunc_divInt_one y⟩

theorem sortedYears_sortRowsY (yIdx : ℕ) (rows : List Row) :
    sortedYears yIdx (sortRowsY yIdx rows) = sortedYears yIdx rows :=
  sortedYears_congr_perm yIdx (sortRowsY_perm yIdx rows)

theorem groupsByYear_keys (yIdx : ℕ) (rows : List Row) :
    (groupsByYear yIdx rows).map Prod.fst = sortedYears yIdx rows := by
  unfold groupsByYear
  rw [List.map_map]
  exact List.map_id _

theorem groupsByYear_mem (yIdx : ℕ) (rows : List Row) (g : ℚ × List Row)
    (hg : g ∈ groupsByYear yIdx rows) :
    g.1 ∈ sortedYears yIdx rows ∧
      g.2 = rows.filter (fun r => decide (cellAt r yIdx = Cell.num g.1)) := by
  unfold groupsByYear at hg
  obtain ⟨q, hq, hgq⟩ := List.mem_map.mp hg
  rw [← hgq]
  exact ⟨hq, rfl⟩

theorem groupsByYear_keys_trunc (yIdx : ℕ) (rows : List Row) :
    (groupsByYear yIdx rows).map (fun g => qTrunc g.1) =
      (sortedYears yIdx rows).map qTrunc := by
  unfold groupsByYear
  rw [List.map_map]
  rfl

/-! ### Sorted deduplicated integer lists (for the chart year axis) -/

def zInsertSortedDedup (x : ℤ) : List ℤ → List ℤ
  | [] => [x]
  | y :: ys =>
    if decide (y < x) then y :: zInsertSortedDedup x ys
    else if x = y then y :: ys
    else x :: y :: ys

/-- The ascending distinct years of all matched locations together: the
year axis the chart is claimed to carry. -/
def allYearsZ (df : DF) (flIdx yIdx : ℕ) (last_n : Option ℕ) (locs : List String) : List ℤ :=
  ((locs.map (locYearsZ df flIdx yIdx last_n)).flatten).foldr zInsertSortedDedup []

theorem zInsertSortedDedup_mem (a x : ℤ) :
    ∀ l : List ℤ, (x ∈ zInsertSortedDedup a l ↔ x = a ∨ x ∈ l) := by
  intro l
  induction l with
  | nil => simp [zInsertSortedDedup]
  | cons y ys ih =>
    unfold zInsertSortedDedup
    by_cases h1 : y < a
    · rw [if_pos (decide_eq_true h1)]
      simp only [List.mem_cons, ih]
      tauto
    · rw [if_neg (by simp [h1])]
      by_cases h2 : a = y
      · subst h2
        rw [if_pos rfl]
        simp only [List.mem_cons]
        tauto
      · rw [if_neg h2]
        simp only [List.mem_cons]

theorem zInsertSortedDedup_pairwise (a : ℤ) :
    ∀ l : List ℤ, l.Pairwise (· < ·) → (zInsertSortedDedup a l).Pairwise (· < ·) := by
  intro l
  induction l with
  | nil => intro _; exact List.pairwise_singleton _ _
  | cons y ys ih =>
    intro hp
    rw [List.pairwise_cons] at hp
    unfold zInsertSortedDedup
    by_cases h1 : y < a
    · rw [if_pos (decide_eq_true h1)]
      rw [List.pairwise_cons]
      constructor
      · intro z hz
        rcases (zInsertSortedDedup_mem a z ys).mp hz with rfl | hz
        · exact h1
        · exact hp.1 z hz
      · exact ih hp.2
    · rw [if_neg (by simp [h1])]
      by_cases h2 : a = y
      · rw [if_pos h2, List.pairwise_cons]
        exact hp
      · rw [if_neg h2, List.pairwise_cons]
        have hay : a < y := by
          rcases lt_trichotomy a y with h | h | h
          · exact h
          · exact absurd h h2
          · exact absurd h h1
        constructor
        · intro z hz
          rcases List.mem_cons.mp hz with rfl | hz
          · exact hay
          · exact lt_trans hay (hp.1 z hz)
        · rw [List.pairwise_cons]
          exact hp

theorem foldr_zisd_mem (x : ℤ) :
    ∀ ys : List ℤ, (x ∈ ys.foldr zInsertSortedDedup [] ↔ x ∈ ys) := by
  intro ys
  induction ys with
  | nil => simp
  | cons y ys ih =>
    rw [List.foldr_cons, zInsertSortedDedup_mem, ih, List.mem_cons]

theorem foldr_zisd_pairwise :
    ∀ ys : List ℤ, (ys.foldr zInsertSortedDedup []).Pairwise (· < ·) := by
  intro ys
  induction ys with
  | nil => exact List.Pairwise.nil
  | cons y ys ih => exact zInsertSortedDedup_pairwise y _ ih

theorem allYearsZ_mem (df : DF) (flIdx yIdx : ℕ) (last_n : Option ℕ) (locs : List String)
    (y : ℤ) : y ∈ allYearsZ df flIdx yIdx last_n locs ↔
      ∃ loc ∈ locs, y ∈ locYearsZ df flIdx yIdx last_n loc := by
  unfold allYearsZ
  rw [foldr_zisd_mem, List.mem_flatten]
  constructor
  · rintro ⟨l, hl, hy⟩
    obtain ⟨loc, hloc, rfl⟩ := List.mem_map.mp hl
    exact ⟨loc, hloc, hy⟩
  · rintro ⟨loc, hloc, hy⟩
    exact ⟨_, List.mem_map_of_mem _ hloc, hy⟩

theorem allYearsZ_pairwise (df : DF) (flIdx yIdx : ℕ) (last_n : Option ℕ)
    (locs : List String) : (allYearsZ df flIdx yIdx last_n locs).Pairwise (· < ·) :=
  foldr_zisd_pairwise _

theorem sorted_lt_ext_int :
    ∀ (l₁ l₂ : List ℤ), l₁.Pairwise (· < ·) → l₂.Pairwise (· < ·) →
      (∀ x, x ∈ l₁ ↔ x ∈ l₂) → l₁ = l₂ := by
  intro l₁
  induction l₁ with
  | nil =>
    intro l₂ _ _ hm
    cases l₂ with
    | nil => rfl
    | cons b bs => exact absurd ((hm b).mpr (List.mem_cons_self b bs)) (by simp)
  | cons a as ih =>
    intro l₂ h₁ h₂ hm
    cases l₂ with
    | nil => exact absurd ((hm a).mp (List.mem_cons_self a as)) (by simp)
    | cons b bs =>
      rw [List.pairwise_cons] at h₁ h₂
      have hab : a = b := by
        rcases List.mem_cons.mp ((hm a).mp (List.mem_cons_self a as)) with h | h
        · exact h
        · rcases List.mem_cons.mp ((hm b).mpr (List.mem_cons_self b bs)) with h3 | h3
          · exact h3.symm
          · exact absurd (lt_trans (h₂.1 a h) (h₁.1 b h3)) (lt_irrefl b)
      subst hab
      congr 1
      apply ih bs h₁.2 h₂.2
      intro x
      constructor
      · intro hx
        rcases List.mem_cons.mp ((hm x).mp (List.mem_cons_of_mem a hx)) with rfl | h
        · exact absurd (h₁.1 x hx) (lt_irrefl x)
        · exact h
      · intro hx
        rcases List.mem_cons.mp ((hm x).mpr (List.mem_cons_of_mem a hx)) with rfl | h
        · exact absurd (h₂.1 x hx) (lt_irrefl x)
        · exact h

/-! ### Structure of the year map -/

theorem lookup_isSome_iff_mem {α β : Type} [BEq α] [LawfulBEq α] (k : α) :
    ∀ l : List (α × β), ((l.lookup k).isSome = true ↔ k ∈ l.map Prod.fst) := by
  intro l
  induction l with
  | nil => simp [List.lookup]
  | cons p ps ih =>
    obtain ⟨a, b⟩ := p
    rw [List.map_cons, List.mem_cons]
    by_cases h : k = a
    · subst h
      simp [List.lookup]
    · have hb : (k == a) = false := by simpa using h
      simp only [List.lookup, hb, ih]
      constructor
      · intro hm
        exact Or.inr hm
      · rintro (h1 | h2)
        · exact absurd h1 h
        · exact h2

theorem lookup_eq_of_mem_nodup {α β : Type} [BEq α] [LawfulBEq α] :
    ∀ {l : List (α × β)}, (l.map Prod.fst).Nodup → ∀ {p : α × β}, p ∈ l →
      l.lookup p.1 = some p.2 := by
  intro l
  induction l with
  | nil => intro _ p hp; cases hp
  | cons q qs ih =>
    intro hnd p hp
    obtain ⟨a, b⟩ := q
    rw [List.map_cons, List.nodup_cons] at hnd
    rcases List.mem_cons.mp hp with rfl | hp2
    · simp [List.lookup]
    · have hne : p.1 ≠ a := by
        intro he
        have hm : p.1 ∈ qs.map Prod.fst := List.mem_map_of_mem Prod.fst hp2
        rw [he] at hm
        exact hnd.1 hm
      have hb : (p.1 == a) = false := by simpa using hne
      simp only [List.lookup, hb]
      exact ih hnd.2 hp2

theorem mem_of_lookup_some {α β : Type} [BEq α] [LawfulBEq α] {k : α} {v : β} :
    ∀ {l : List (α × β)}, l.lookup k = some v → (k, v) ∈ l := by
  intro l
  induction l with
  | nil => intro h; simp [List.lookup] at h
  | cons q qs ih =>
    obtain ⟨a, b⟩ := q
    intro h
    by_cases he : k = a
    · subst he
      simp only [List.lookup, beq_self_eq_true] at h
      injection h with h2
      subst h2
      exact List.mem_cons_self _ _
    · have hb : (k == a) = false := by simpa using he
      simp only [List.lookup, hb] at h
      exact List.mem_cons_of_mem _ (ih h)

theorem ymSet_keys_nodup (ym : List (ℤ × Rec)) (y : ℤ) (rec : Rec)
    (h : (ym.map Prod.fst).Nodup) : ((ymSet ym y rec).map Prod.fst).Nodup := by
  unfold ymSet
  by_cases hs : (ym.lookup y).isSome = true
  · rw [if_pos hs]
    have hkeys : (ym.map (fun p => if p.1 = y then (y, rec) else p)).map Prod.fst
        = ym.map Prod.fst := by
      rw [List.map_map]
      apply List.map_congr_left
      intro p _
      by_cases hp1 : p.1 = y
      · simp [hp1]
      · simp [hp1]
    rw [hkeys]
    exact h
  · rw [if_neg hs, List.map_append]
    rw [List.nodup_append]
    refine ⟨h, List.nodup_singleton y, ?_⟩
    intro a ha hb
    rw [List.map_singleton, List.mem_singleton] at hb
    subst hb
    exact hs ((lookup_isSome_iff_mem a ym).mpr ha)

theorem chartFold_keys_nodup (dIdx : ℕ) (priceIdxs : List ℕ) (qt : QType) (tKey : String) :
    ∀ (gs : List (ℚ × List Row)) (ym ym' : List (ℤ × Rec)),
      chartFold dIdx priceIdxs qt tKey gs ym = .ok ym' →
      (ym.map Prod.fst).Nodup → (ym'.map Prod.fst).Nodup := by
  intro gs
  induction gs with
  | nil =>
    intro ym ym' h hnd
    have h2 : (Except.ok ym : Except PyErr (List (ℤ × Rec))) = Except.ok ym' := h
    injection h2 with h3
    exact h3 ▸ hnd
  | cons g gs ih =>
    intro ym ym' h hnd
    unfold chartFold at h
    obtain ⟨rec1, hrec1, hrest⟩ := except_bind_ok _ _ _ h
    exact ih _ _ hrest (ymSet_keys_nodup _ _ _ hnd)

theorem locYearsZ_nodup (df : DF) (flIdx yIdx : ℕ) (last_n : Option ℕ) (loc : String)
    (hint : YearsIntegral df yIdx) : (locYearsZ df flIdx yIdx last_n loc).Nodup :=
  map_qTrunc_nodup (sortedYears_pairwise _ _)
    (winRows_years_integral df flIdx yIdx last_n loc hint)

theorem group_exists_of_locYear (df : DF) (flIdx yIdx : ℕ) (last_n : Option ℕ)
    (loc : String) (hint : YearsIntegral df yIdx) (y : ℤ)
    (hy : y ∈ locYearsZ df flIdx yIdx last_n loc) :
    ∃ g ∈ groupsByYear yIdx (sortRowsY yIdx (winRows df flIdx yIdx last_n loc)),
      qTrunc g.1 = y ∧ g.2 = grpRowsA df flIdx yIdx last_n loc y := by
  have hq : Rat.divInt y 1 ∈ sortedYears yIdx (winRows df flIdx yIdx last_n loc) :=
    (locYearsZ_mem df flIdx yIdx last_n loc hint y).mp hy
  have hq2 : Rat.divInt y 1 ∈ sortedYears yIdx (sortRowsY yIdx
      (winRows df flIdx yIdx last_n loc)) := by
    rw [sortedYears_sortRowsY]
    exact hq
  refine ⟨(Rat.divInt y 1, (sortRowsY yIdx (winRows df flIdx yIdx last_n loc)).filter
      (fun r => decide (cellAt r yIdx = Cell.num (Rat.divInt y 1)))), ?_,
    qTrunc_divInt_one y, rfl⟩
  exact List.mem_map.mpr ⟨_, hq2, rfl⟩

/-- The running invariant of `analyze`'s per-location loop: relative to the
starting accumulator, the final year map has exactly the keys of the
processed locations' windowed years (plus the starting keys), every record
carries its own year, each processed location's demand and price entries
hold the claimed aggregates of its year group, no other field appears, and
the table and summary lists extend by each location's block in order. -/
theorem processLocs_inv (df : DF) (flIdx yIdx dIdx : ℕ) (priceCols : List String)
    (qt : QType) (last_n : Option ℕ)
    (hy : keyIdx df.cols "year" = .ok yIdx)
    (hd : keyIdx df.cols "demand" = .ok dIdx)
    (hint : YearsIntegral df yIdx) :
    ∀ (locs : List String) (st fin : AnSt),
      processLocs df flIdx (priceIdxsOf df) priceCols qt last_n locs st = .ok fin →
      locs.Pairwise (fun a b => pyTitle a ≠ pyTitle b) →
      (∀ y rec, st.yearMap.lookup y = some rec →
        rec.lookup "year" = some (Cell.num (Rat.divInt y 1))) →
      (st.yearMap.map Prod.fst).Nodup →
      ((fin.yearMap.map Prod.fst).Nodup ∧
        (∀ y rec, fin.yearMap.lookup y = some rec →
          rec.lookup "year" = some (Cell.num (Rat.divInt y 1))) ∧
        (∀ y : ℤ, (fin.yearMap.lookup y).isSome = true ↔
          ((st.yearMap.lookup y).isSome = true ∨
            ∃ loc ∈ locs, y ∈ locYearsZ df flIdx yIdx last_n loc)) ∧
        (∀ loc ∈ locs, ∀ y ∈ locYearsZ df flIdx yIdx last_n loc, ∃ rec,
          fin.yearMap.lookup y = some rec ∧
          (qt.hasDemand = true → ∃ z,
            chartDemandE dIdx (grpRowsA df flIdx yIdx last_n loc y) = .ok z ∧
            rec.lookup (pyTitle loc) = some (Cell.num (Rat.divInt z 1))) ∧
          (qt.hasPrice = true → rec.lookup (pyTitle loc ++ "_price") =
            some (roundCell (meanOfColMeans (priceIdxsOf df)
              (grpRowsA df flIdx yIdx last_n loc y))))) ∧
        (∀ y rec k v, fin.yearMap.lookup y = some rec → rec.lookup k = some v →
          k ≠ "year" →
          ((∃ rec0, st.yearMap.lookup y = some rec0 ∧ rec0.lookup k = some v) ∨
            ∃ loc ∈ locs, y ∈ locYearsZ df flIdx yIdx last_n loc ∧
              ((qt.hasDemand = true ∧ k = pyTitle loc) ∨
                (qt.hasPrice = true ∧ k = pyTitle loc ++ "_price")))) ∧
        (∀ y rec0 k v, st.yearMap.lookup y = some rec0 → rec0.lookup k = some v →
          (∀ loc2 ∈ locs, k ≠ pyTitle loc2 ∧ k ≠ pyTitle loc2 ++ "_price") →
          k ≠ "year" →
          ∃ rec, fin.yearMap.lookup y = some rec ∧ rec.lookup k = some v) ∧
        (fin.table = st.table ++ (locs.map (fun loc =>
          (sortRowsY yIdx (winRows df flIdx yIdx last_n loc)).map
            (rowRecord df.cols (tableCols qt priceCols)))).flatten) ∧
        (∃ sums, fin.summaries = st.summaries ++ sums ∧
          List.Forall₂ (fun loc p => p.1 = pyTitle loc ∧
            generate_mock_summary df.cols (priceIdxsOf df)
              (sortRowsY yIdx (winRows df flIdx yIdx last_n loc)) loc last_n = .ok p.2)
            locs sums)) := by
  intro locs
  induction locs with
  | nil =>
    intro st fin h _ hyst hnd
    have h2 : (Except.ok st : Except PyErr AnSt) = Except.ok fin := h
    injection h2 with h3
    subst h3
    refine ⟨hnd, hyst, ?_, ?_, ?_, ?_, by simp, ⟨[], by simp, List.Forall₂.nil⟩⟩
    · intro y
      simp
    · intro loc hloc
      cases hloc
    · intro y rec k v h1 h2 _
      exact Or.inl ⟨rec, h1, h2⟩
    · intro y rec0 k v h1 h2 _ _
      exact ⟨rec0, h1, h2⟩
  | cons loc rest ih =>
    intro st fin h hpw hyst hnd
    rw [List.pairwise_cons] at hpw
    unfold processLocs at h
    obtain ⟨st2, hst2, hrest⟩ := except_bind_ok _ _ _ h
    obtain ⟨yIdx2, dIdx2, ms, ym2, hy2, hd2, hms, hym, hst2eq⟩ :=
      processLoc_ok_inv df flIdx (priceIdxsOf df) priceCols qt last_n st loc st2 hst2
    rw [hy] at hy2
    injection hy2 with hy3
    subst hy3
    rw [hd] at hd2
    injection hd2 with hd3
    subst hd3
    have hst2ym : st2.yearMap = ym2 := by rw [hst2eq]
    have hst2tb : st2.table = st.table ++
        (sortRowsY yIdx (winRows df flIdx yIdx last_n loc)).map
          (rowRecord df.cols (tableCols qt priceCols)) := by rw [hst2eq]
    have hst2sm : st2.summaries = st.summaries ++ [(pyTitle loc, ms)] := by rw [hst2eq]
    have hkeysList : (groupsByYear yIdx (sortRowsY yIdx
        (winRows df flIdx yIdx last_n loc))).map (fun g => qTrunc g.1) =
        locYearsZ df flIdx yIdx last_n loc := by
      rw [groupsByYear_keys_trunc, sortedYears_sortRowsY]
      rfl
    have hnodupG : ((groupsByYear yIdx (sortRowsY yIdx
        (winRows df flIdx yIdx last_n loc))).map (fun g => qTrunc g.1)).Nodup := by
      rw [hkeysList]
      exact locYearsZ_nodup df flIdx yIdx last_n loc hint
    obtain ⟨specA, specB⟩ := chartFold_spec dIdx (priceIdxsOf df) qt (pyTitle loc)
      (pyTitle_ne_year loc) ((year_ne_append_price loc).symm) _ _ _ hym hnodupG hyst
    have hst2Y : ∀ y rec, ym2.lookup y = some rec →
        rec.lookup "year" = some (Cell.num (Rat.divInt y 1)) := by
      intro y rec hl
      by_cases hy4 : y ∈ locYearsZ df flIdx yIdx last_n loc
      · obtain ⟨g, hg, hgt, _⟩ := group_exists_of_locYear df flIdx yIdx last_n loc hint y hy4
        obtain ⟨rec', hrec'l, hrec'y, _, _, _, _, _⟩ := specB g hg
        rw [hgt] at hrec'l hrec'y
        rw [hl] at hrec'l
        injection hrec'l with he
        rw [← he] at hrec'y
        exact hrec'y
      · have hnot : y ∉ (groupsByYear yIdx (sortRowsY yIdx
            (winRows df flIdx yIdx last_n loc))).map (fun g => qTrunc g.1) := by
          rw [hkeysList]
          exact hy4
        rw [specA y hnot] at hl
        exact hyst y rec hl
    have hst2K : ∀ y : ℤ, (ym2.lookup y).isSome = true ↔
        (y ∈ locYearsZ df flIdx yIdx last_n loc ∨ (st.yearMap.lookup y).isSome = true) := by
      intro y
      by_cases hy4 : y ∈ locYearsZ df flIdx yIdx last_n loc
      · constructor
        · intro _
          exact Or.inl hy4
        · intro _
          obtain ⟨g, hg, hgt, _⟩ := group_exists_of_locYear df flIdx yIdx last_n loc hint y hy4
          obtain ⟨rec', hrec'l, _, _, _, _, _, _⟩ := specB g hg
          rw [hgt] at hrec'l
          rw [hrec'l]
          rfl
      · have hnot : y ∉ (groupsByYear yIdx (sortRowsY yIdx
            (winRows df flIdx yIdx last_n loc))).map (fun g => qTrunc g.1) := by
          rw [hkeysList]
          exact hy4
        rw [specA y hnot]
        simp [hy4]
    have hst2N : (ym2.map Prod.fst).Nodup :=
      chartFold_keys_nodup dIdx (priceIdxsOf df) qt (pyTitle loc) _ _ _ hym hnd
    have hYin : ∀ y rec, st2.yearMap.lookup y = some rec →
        rec.lookup "year" = some (Cell.num (Rat.divInt y 1)) := by
      intro y rec hl
      rw [hst2ym] at hl
      exact hst2Y y rec hl
    have hNin : (st2.yearMap.map Prod.fst).Nodup := by
      rw [hst2ym]
      exact hst2N
    obtain ⟨ihN, ihY, ihK, ihV, ihW, ihP, ihT, ihS⟩ := ih st2 fin hrest hpw.2 hYin hNin
    refine ⟨ihN, ihY, ?_, ?_, ?_, ?_, ?_, ?_⟩
    · intro y
      rw [ihK y, hst2ym, hst2K y]
      constructor
      · rintro ((h1 | h1) | ⟨loc2, hl2, h2⟩)
        · exact Or.inr ⟨loc, List.mem_cons_self loc rest, h1⟩
        · exact Or.inl h1
        · exact Or.inr ⟨loc2, List.mem_cons_of_mem loc hl2, h2⟩
      · rintro (h1 | ⟨loc2, hl2, h2⟩)
        · exact Or.inl (Or.inr h1)
        · rcases List.mem_cons.mp hl2 with rfl | hl3
          · exact Or.inl (Or.inl h2)
          · exact Or.inr ⟨loc2, hl3, h2⟩
    · intro loc2 hloc2 y hy4
      rcases List.mem_cons.mp hloc2 with rfl | hl3
      · obtain ⟨g, hg, hgt, hgrows⟩ :=
          group_exists_of_locYear df flIdx yIdx last_n loc2 hint y hy4
        obtain ⟨rec', hrec'l, _, hdemT, _, hprT, _, _⟩ := specB g hg
        rw [hgt] at hrec'l
        have hfinsome : (fin.yearMap.lookup y).isSome = true := by
          rw [ihK y, hst2ym]
          exact Or.inl (by rw [hrec'l]; rfl)
        obtain ⟨recf, hrecf⟩ := Option.isSome_iff_exists.mp hfinsome
        refine ⟨recf, hrecf, ?_, ?_⟩
        · intro hdq
          obtain ⟨z, hz, hzval⟩ := hdemT hdq
          rw [hgrows] at hz
          have hfr : ∀ loc3 ∈ rest, pyTitle loc2 ≠ pyTitle loc3 ∧
              pyTitle loc2 ≠ pyTitle loc3 ++ "_price" :=
            fun loc3 h3 => ⟨hpw.1 loc3 h3, pyTitle_ne_append_price loc2 loc3⟩
          obtain ⟨recp, hrecp, hrecpv⟩ := ihP y rec' (pyTitle loc2) _
            (by rw [hst2ym]; exact hrec'l) hzval hfr (pyTitle_ne_year loc2)
          rw [hrecf] at hrecp
          injection hrecp with he
          rw [← he] at hrecpv
          exact ⟨z, hz, hrecpv⟩
        · intro hpq
          have hval := hprT hpq
          rw [hgrows] at hval
          have hfr : ∀ loc3 ∈ rest, pyTitle loc2 ++ "_price" ≠ pyTitle loc3 ∧
              pyTitle loc2 ++ "_price" ≠ pyTitle loc3 ++ "_price" :=
            fun loc3 h3 => ⟨(pyTitle_ne_append_price loc3 loc2).symm,
              fun he => hpw.1 loc3 h3 (append_price_inj he)⟩
          obtain ⟨recp, hrecp, hrecpv⟩ := ihP y rec' (pyTitle loc2 ++ "_price") _
            (by rw [hst2ym]; exact hrec'l) hval hfr ((year_ne_append_price loc2).symm)
          rw [hrecf] at hrecp
          injection hrecp with he
          rw [← he] at hrecpv
          exact hrecpv
      · exact ihV loc2 hl3 y hy4
    · intro y rec k v hfl hkv hky
      rcases ihW y rec k v hfl hkv hky with ⟨rec0, hr0, hr0v⟩ | ⟨loc2, hl2, hy5, hattr⟩
      · rw [hst2ym] at hr0
        by_cases hy4 : y ∈ locYearsZ df flIdx yIdx last_n loc
        · obtain ⟨g, hg, hgt, _⟩ :=
            group_exists_of_locYear df flIdx yIdx last_n loc hint y hy4
          obtain ⟨rec', hrec'l, _, _, hdemF, _, hprF, hoth⟩ := specB g hg
          rw [hgt] at hrec'l hdemF hprF hoth
          rw [hr0] at hrec'l
          injection hrec'l with he
          rw [he] at hr0v
          by_cases hk1 : k = pyTitle loc
          · cases hqd : qt.hasDemand with
            | false =>
              have hbind := hdemF hqd
              rw [← hk1] at hbind
              have hsome : (st.yearMap.lookup y).bind (fun r0 => r0.lookup k) = some v := by
                rw [← hbind]
                exact hr0v
              obtain ⟨rec00, h00, h00v⟩ := Option.bind_eq_some.mp hsome
              exact Or.inl ⟨rec00, h00, h00v⟩
            | true =>
              exact Or.inr ⟨loc, List.mem_cons_self loc rest, hy4, Or.inl ⟨rfl, hk1⟩⟩
          · by_cases hk2 : k = pyTitle loc ++ "_price"
            · cases hqp : qt.hasPrice with
              | false =>
                have hbind := hprF hqp
                rw [← hk2] at hbind
                have hsome : (st.yearMap.lookup y).bind (fun r0 => r0.lookup k) = some v := by
                  rw [← hbind]
                  exact hr0v
                obtain ⟨rec00, h00, h00v⟩ := Option.bind_eq_some.mp hsome
                exact Or.inl ⟨rec00, h00, h00v⟩
              | true =>
                exact Or.inr ⟨loc, List.mem_cons_self loc rest, hy4, Or.inr ⟨rfl, hk2⟩⟩
            · have hbind := hoth k hk1 hk2 hky
              have hsome : (st.yearMap.lookup y).bind (fun r0 => r0.lookup k) = some v := by
                rw [← hbind]
                exact hr0v
              obtain ⟨rec00, h00, h00v⟩ := Option.bind_eq_some.mp hsome
              exact Or.inl ⟨rec00, h00, h00v⟩
        · have hnot : y ∉ (groupsByYear yIdx (sortRowsY yIdx
              (winRows df flIdx yIdx last_n loc))).map (fun g => qTrunc g.1) := by
            rw [hkeysList]
            exact hy4
          rw [specA y hnot] at hr0
          exact Or.inl ⟨rec0, hr0, hr0v⟩
      · exact Or.inr ⟨loc2, List.mem_cons_of_mem loc hl2, hy5, hattr⟩
    · intro y rec0 k v h1 h2 hfre hky
      have hfre2 : ∀ loc3 ∈ rest, k ≠ pyTitle loc3 ∧ k ≠ pyTitle loc3 ++ "_price" :=
        fun loc3 h3 => hfre loc3 (List.mem_cons_of_mem loc h3)
      have hfreH := hfre loc (List.mem_cons_self loc rest)
      by_cases hy4 : y ∈ locYearsZ df flIdx yIdx last_n loc
      · obtain ⟨g, hg, hgt, _⟩ :=
          group_exists_of_locYear df flIdx yIdx last_n loc hint y hy4
        obtain ⟨rec', hrec'l, _, _, _, _, _, hoth⟩ := specB g hg
        rw [hgt] at hrec'l hoth
        have hval : rec'.lookup k = some v := by
          rw [hoth k hfreH.1 hfreH.2 hky, h1]
          exact h2
        exact ihP y rec' k v (by rw [hst2ym]; exact hrec'l) hval hfre2 hky
      · have hnot : y ∉ (groupsByYear yIdx (sortRowsY yIdx
            (winRows df flIdx yIdx last_n loc))).map (fun g => qTrunc g.1) := by
          rw [hkeysList]
          exact hy4
        have hkeep : ym2.lookup y = some rec0 := by
          rw [specA y hnot]
          exact h1
        exact ihP y rec0 k v (by rw [hst2ym]; exact hkeep) h2 hfre2 hky
    · rw [ihT, hst2tb, List.map_cons, List.flatten_cons, List.append_assoc]
    · obtain ⟨sums, hsums, hfa⟩ := ihS
      refine ⟨(pyTitle loc, ms) :: sums, ?_, List.Forall₂.cons ⟨rfl, hms⟩ hfa⟩
      rw [hsums, hst2sm, List.append_assoc]
      rfl

/-- Inversion of a successful `analyze` call: the pieces the handler
computed on its way to the payload. -/
theorem analyze_ok_inv (st : ServerState) (disk : Option XFile) (af : Option String)
    (payload : Payload) (st2 : ServerState)
    (h : analyze st disk af = .ok (.ok payload, st2)) :
    ∃ df flIdx found fin,
      load_dataframe st disk = (some df, st2) ∧
      pyStrip (pyLower (af.getD "")) ≠ "" ∧
      keyIdx df.cols "final_location" = .ok flIdx ∧
      collectFound (pyStrip (pyLower (af.getD "")))
        (uniqFirst (dropNA (df.rows.map (fun r => cellAt r flIdx)))) = .ok found ∧
      found.isEmpty = false ∧
      processLocs df flIdx (priceIdxsOf df) (detect_price_cols df)
        (classifyQuery (pyStrip (pyLower (af.getD ""))))
        (parseLastN (pyStrip (pyLower (af.getD "")))) found ⟨[], [], []⟩ = .ok fin ∧
      payload = ⟨fin.summaries, (sortPairsByYear fin.yearMap).map Prod.snd, fin.table⟩ := by
  unfold analyze at h
  cases hld : load_dataframe st disk with
  | mk odf st1 =>
    rw [hld] at h
    cases odf with
    | none =>
      have h2 : (Except.ok (AnalyzeResp.serverError "No data available.", st1) :
          Except PyErr (AnalyzeResp × ServerState)) = .ok (.ok payload, st2) := h
      injection h2 with h3
      have h4 := congrArg Prod.fst h3
      exact absurd h4 (by simp)
    | some df =>
      have hv : (if pyStrip (pyLower (af.getD "")) = "" then
          (pure (AnalyzeResp.clientError "Missing query.", st1) :
            Except PyErr (AnalyzeResp × ServerState))
        else
          keyIdx df.cols "final_location" >>= fun flIdx =>
          collectFound (pyStrip (pyLower (af.getD "")))
            (uniqFirst (dropNA (List.map (fun r => cellAt r flIdx) df.rows))) >>= fun found =>
          if found.isEmpty = true then
            pure (AnalyzeResp.clientError (noMatchMsg (pyStrip (pyLower (af.getD "")))), st1)
          else
            processLocs df flIdx (priceIdxsOf df) (detect_price_cols df)
              (classifyQuery (pyStrip (pyLower (af.getD ""))))
              (parseLastN (pyStrip (pyLower (af.getD "")))) found
              ⟨[], [], []⟩ >>= fun fin =>
            pure (AnalyzeResp.ok ⟨fin.summaries,
              (sortPairsByYear fin.yearMap).map Prod.snd, fin.table⟩, st1)) =
          Except.ok (.ok payload, st2) := h
      clear h
      by_cases hq : pyStrip (pyLower (af.getD "")) = ""
      · rw [if_pos hq] at hv
        injection hv with h3
        have h4 := congrArg Prod.fst h3
        exact absurd h4 (by simp)
      · rw [if_neg hq] at hv
        obtain ⟨flIdx, hfl, h3⟩ := except_bind_ok _ _ _ hv
        obtain ⟨found, hfound, h4⟩ := except_bind_ok _ _ _ h3
        cases hfe : found.isEmpty with
        | true =>
          rw [hfe] at h4
          rw [if_pos rfl] at h4
          have h2 : (Except.ok (AnalyzeResp.clientError
              (noMatchMsg (pyStrip (pyLower (af.getD "")))), st1) :
              Except PyErr (AnalyzeResp × ServerState)) = .ok (.ok payload, st2) := h4
          injection h2 with h5
          have h6 := congrArg Prod.fst h5
          exact absurd h6 (by simp)
        | false =>
          rw [hfe] at h4
          rw [if_neg (by simp)] at h4
          obtain ⟨fin, hfin, h5⟩ := except_bind_ok _ _ _ h4
          have h6 : (Except.ok ((AnalyzeResp.ok ⟨fin.summaries,
              (sortPairsByYear fin.yearMap).map Prod.snd, fin.table⟩, st1)) :
              Except PyErr (AnalyzeResp × ServerState)) = .ok (.ok payload, st2) := h5
          injection h6 with h7
          have h8 := congrArg Prod.fst h7
          have h9 := congrArg Prod.snd h7
          simp only at h8 h9
          have h10 : payload = ⟨fin.summaries,
              (sortPairsByYear fin.yearMap).map Prod.snd, fin.table⟩ := by
            have h11 : AnalyzeResp.ok ⟨fin.summaries,
                (sortPairsByYear fin.yearMap).map Prod.snd, fin.table⟩ =
                AnalyzeResp.ok payload := h8
            injection h11 with h12
            exact h12.symm
          subst h9
          exact ⟨df, flIdx, found, fin, rfl, hq, hfl, hfound, hfe, hfin, h10⟩

/-! ### Properties of the matched-location list -/

theorem collectFound_mem (query : String) :
    ∀ (cells : List Cell) (found : List String), collectFound query cells = .ok found →
      ∀ loc ∈ found, Cell.str loc ∈ cells := by
  intro cells
  induction cells with
  | nil =>
    intro found h loc hloc
    have h2 : (Except.ok [] : Except PyErr (List String)) = .ok found := h
    injection h2 with h3
    rw [← h3] at hloc
    cases hloc
  | cons c cs ih =>
    intro found h loc hloc
    cases c with
    | str s =>
      obtain ⟨rest, hrest, h2⟩ := except_bind_ok _ _ _ h
      have h3 : Except.ok (if pyIn s query || fuzzy_match_location query s then s :: rest
          else rest) = Except.ok found := h2
      injection h3 with h4
      rw [← h4] at hloc
      cases hc : pyIn s query || fuzzy_match_location query s with
      | true =>
        rw [hc, if_pos rfl] at hloc
        rcases List.mem_cons.mp hloc with rfl | hm
        · exact List.mem_cons_self _ _
        · exact List.mem_cons_of_mem _ (ih rest hrest loc hm)
      | false =>
        rw [hc, if_neg (by simp)] at hloc
        exact List.mem_cons_of_mem _ (ih rest hrest loc hloc)
    | num q =>
      have h2 : (Except.error PyErr.typeError : Except PyErr (List String)) = .ok found := h
      exact Except.noConfusion h2
    | na =>
      have h2 : (Except.error PyErr.typeError : Except PyErr (List String)) = .ok found := h
      exact Except.noConfusion h2

theorem collectFound_nodup (query : String) :
    ∀ (cells : List Cell) (found : List String), collectFound query cells = .ok found →
      cells.Nodup → found.Nodup := by
  intro cells
  induction cells with
  | nil =>
    intro found h _
    have h2 : (Except.ok [] : Except PyErr (List String)) = .ok found := h
    injection h2 with h3
    rw [← h3]
    exact List.nodup_nil
  | cons c cs ih =>
    intro found h hnd
    rw [List.nodup_cons] at hnd
    cases c with
    | str s =>
      obtain ⟨rest, hrest, h2⟩ := except_bind_ok _ _ _ h
      have h3 : Except.ok (if pyIn s query || fuzzy_match_location query s then s :: rest
          else rest) = Except.ok found := h2
      injection h3 with h4
      rw [← h4]
      cases hc : pyIn s query || fuzzy_match_location query s with
      | true =>
        rw [if_pos rfl, List.nodup_cons]
        refine ⟨?_, ih rest hrest hnd.2⟩
        intro hm
        exact hnd.1 (collectFound_mem query cs rest hrest s hm)
      | false =>
        rw [if_neg (by simp)]
        exact ih rest hrest hnd.2
    | num q =>
      have h2 : (Except.error PyErr.typeError : Except PyErr (List String)) = .ok found := h
      exact Except.noConfusion h2
    | na =>
      have h2 : (Except.error PyErr.typeError : Except PyErr (List String)) = .ok found := h
      exact Except.noConfusion h2

theorem uniqFirstGo_mem : ∀ (cs seen : List Cell) (x : Cell),
    x ∈ uniqFirstGo seen cs → x ∈ cs := by
  intro cs
  induction cs with
  | nil =>
    intro seen x h
    simp [uniqFirstGo] at h
  | cons c cs ih =>
    intro seen x h
    unfold uniqFirstGo at h
    by_cases hc : seen.contains c = true
    · rw [if_pos hc] at h
      exact List.mem_cons_of_mem _ (ih seen x h)
    · rw [if_neg hc] at h
      rcases List.mem_cons.mp h with rfl | hm
      · exact List.mem_cons_self _ _
      · exact List.mem_cons_of_mem _ (ih (c :: seen) x hm)

theorem uniqFirstGo_not_seen : ∀ (cs seen : List Cell) (x : Cell),
    x ∈ uniqFirstGo seen cs → x ∉ seen := by
  intro cs
  induction cs with
  | nil =>
    intro seen x h
    simp [uniqFirstGo] at h
  | cons c cs ih =>
    intro seen x h
    unfold uniqFirstGo at h
    by_cases hc : seen.contains c = true
    · rw [if_pos hc] at h
      exact ih seen x h
    · rw [if_neg hc] at h
      rcases List.mem_cons.mp h with rfl | hm
      · intro hmem
        exact hc (List.elem_eq_true_of_mem hmem)
      · intro hmem
        exact ih (c :: seen) x hm (List.mem_cons_of_mem c hmem)

theorem uniqFirstGo_nodup : ∀ (cs seen : List Cell), (uniqFirstGo seen cs).Nodup := by
  intro cs
  induction cs with
  | nil =>
    intro seen
    simp [uniqFirstGo]
  | cons c cs ih =>
    intro seen
    unfold uniqFirstGo
    by_cases hc : seen.contains c = true
    · rw [if_pos hc]
      exact ih seen
    · rw [if_neg hc]
      rw [List.nodup_cons]
      refine ⟨?_, ih (c :: seen)⟩
      intro hm
      exact uniqFirstGo_not_seen cs (c :: seen) c hm (List.mem_cons_self c seen)

theorem found_props (df : DF) (flIdx : ℕ) (query : String) (found : List String)
    (hfound : collectFound query
      (uniqFirst (dropNA (df.rows.map (fun r => cellAt r flIdx)))) = .ok found)
    (hlow : ∀ r ∈ df.rows, ∀ s, cellAt r flIdx = Cell.str s → pyLower s = s) :
    found.Pairwise (fun a b => pyTitle a ≠ pyTitle b) ∧
      ∀ loc ∈ found, ∃ r ∈ df.rows, cellAt r flIdx = Cell.str loc := by
  have hmemrow : ∀ loc ∈ found, ∃ r ∈ df.rows, cellAt r flIdx = Cell.str loc := by
    intro loc hl
    have h2 : Cell.str loc ∈ dropNA (df.rows.map (fun r => cellAt r flIdx)) :=
      uniqFirstGo_mem _ _ _ (collectFound_mem query _ found hfound loc hl)
    have h3 := (List.mem_filter.mp h2).1
    obtain ⟨r, hr, he⟩ := List.mem_map.mp h3
    exact ⟨r, hr, he⟩
  have hlower : ∀ loc ∈ found, pyLower loc = loc := by
    intro loc hl
    obtain ⟨r, hr, he⟩ := hmemrow loc hl
    exact hlow r hr loc he
  have hnd : found.Nodup :=
    collectFound_nodup query _ found hfound (uniqFirstGo_nodup _ [])
  refine ⟨?_, hmemrow⟩
  refine List.Pairwise.imp_of_mem ?_ hnd
  intro a b ha hb hne he
  exact hne (pyTitle_inj (hlower a ha) (hlower b hb) he)

/-- C2: for every successful analyze request on a well-formed frame (pinned
loaded frame, integral years, lower-case location strings), the chart series
has exactly one record per distinct year of the matched locations' windowed
rows, ascending by year, and a year's record carries a location's demand or
price keys exactly when that location has a row in that year — no zero-fill
for locations without data. -/
theorem claimC2 (st : ServerState) (disk : Option XFile) (af : Option String)
    (payload : Payload) (st2 : ServerState) (df : DF) (flIdx yIdx : ℕ)
    (h : analyze st disk af = .ok (.ok payload, st2))
    (hdf : (load_dataframe st disk).1 = some df)
    (hfl : keyIdx df.cols "final_location" = .ok flIdx)
    (hy : keyIdx df.cols "year" = .ok yIdx)
    (hint : YearsIntegral df yIdx)
    (hlow : ∀ r ∈ df.rows, ∀ s, cellAt r flIdx = Cell.str s → pyLower s = s) :
    ∃ found,
      collectFound (pyStrip (pyLower (af.getD "")))
        (uniqFirst (dropNA (df.rows.map (fun r => cellAt r flIdx)))) = .ok found ∧
      found.isEmpty = false ∧
      payload.chartData.map (fun rec => rec.lookup "year") =
        (allYearsZ df flIdx yIdx (parseLastN (pyStrip (pyLower (af.getD "")))) found).map
          (fun y => some (Cell.num (Rat.divInt y 1))) ∧
      (∀ rec ∈ payload.chartData, ∃ y : ℤ,
        rec.lookup "year" = some (Cell.num (Rat.divInt y 1)) ∧
        (∃ loc ∈ found, y ∈ locYearsZ df flIdx yIdx
          (parseLastN (pyStrip (pyLower (af.getD "")))) loc) ∧
        (∀ loc ∈ found, y ∈ locYearsZ df flIdx yIdx
            (parseLastN (pyStrip (pyLower (af.getD "")))) loc →
          ((classifyQuery (pyStrip (pyLower (af.getD "")))).hasDemand = true →
            (rec.lookup (pyTitle loc)).isSome = true) ∧
          ((classifyQuery (pyStrip (pyLower (af.getD "")))).hasPrice = true →
            (rec.lookup (pyTitle loc ++ "_price")).isSome = true)) ∧
        (∀ k v, rec.lookup k = some v → k = "year" ∨
          ∃ loc ∈ found, y ∈ locYearsZ df flIdx yIdx
              (parseLastN (pyStrip (pyLower (af.getD "")))) loc ∧
            (((classifyQuery (pyStrip (pyLower (af.getD "")))).hasDemand = true ∧
                k = pyTitle loc) ∨
              ((classifyQuery (pyStrip (pyLower (af.getD "")))).hasPrice = true ∧
                k = pyTitle loc ++ "_price")))) := by
  obtain ⟨df', flIdx', found, fin, hld, hqne, hfl', hfound, hfe, hfin, hpay⟩ :=
    analyze_ok_inv st disk af payload st2 h
  obtain rfl : df = df' := by
    rw [hld] at hdf
    have h2 : some df' = some df := hdf
    exact (Option.some.inj h2).symm
  obtain rfl : flIdx = flIdx' := by
    rw [hfl] at hfl'
    exact Except.ok.inj hfl'
  obtain ⟨hpw, hmemrow⟩ := found_props df flIdx _ found hfound hlow
  have hfne : found ≠ [] := by
    intro he
    rw [he] at hfe
    simp at hfe
  obtain ⟨f, rest, hfr⟩ : ∃ f rest, found = f :: rest := by
    cases found with
    | nil => exact absurd rfl hfne
    | cons f rest => exact ⟨f, rest, rfl⟩
  obtain ⟨dIdx, hd⟩ : ∃ dIdx, keyIdx df.cols "demand" = .ok dIdx := by
    have hfin2 := hfin
    rw [hfr] at hfin2
    unfold processLocs at hfin2
    obtain ⟨stA, hstA, _⟩ := except_bind_ok _ _ _ hfin2
    obtain ⟨yIdx2, dIdx, _, _, _, hd2, _, _, _⟩ := processLoc_ok_inv _ _ _ _ _ _ _ _ _ hstA
    exact ⟨dIdx, hd2⟩
  obtain ⟨invN, invY, invK, invV, invW, _, _, _⟩ :=
    processLocs_inv df flIdx yIdx dIdx (detect_price_cols df)
      (classifyQuery (pyStrip (pyLower (af.getD ""))))
      (parseLastN (pyStrip (pyLower (af.getD "")))) hy hd hint found ⟨[], [], []⟩ fin hfin
      hpw (by intro y rec hl; simp [List.lookup] at hl) (by simp)
  have hK : ∀ y : ℤ, ((fin.yearMap.lookup y).isSome = true ↔
      ∃ loc ∈ found, y ∈ locYearsZ df flIdx yIdx
        (parseLastN (pyStrip (pyLower (af.getD "")))) loc) := by
    intro y
    rw [invK y]
    simp [List.lookup]
  have hperm : (sortPairsByYear fin.yearMap).Perm fin.yearMap :=
    sortPairsByYear_perm fin.yearMap
  have hndS : ((sortPairsByYear fin.yearMap).map Prod.fst).Nodup :=
    ((hperm.map Prod.fst).nodup_iff).mpr invN
  have hpwNe : (sortPairsByYear fin.yearMap).Pairwise (fun a b => a.1 ≠ b.1) :=
    List.pairwise_map.mp hndS
  have hpwLt : (sortPairsByYear fin.yearMap).Pairwise (fun a b => a.1 < b.1) := by
    have hand := (sortPairsByYear_pairwise fin.yearMap).and hpwNe
    exact hand.imp (fun hab => lt_of_le_of_ne hab.1 hab.2)
  have hkeysLt : ((sortPairsByYear fin.yearMap).map Prod.fst).Pairwise (· < ·) :=
    List.pairwise_map.mpr hpwLt
  have hkeys : (sortPairsByYear fin.yearMap).map Prod.fst =
      allYearsZ df flIdx yIdx (parseLastN (pyStrip (pyLower (af.getD "")))) found := by
    apply sorted_lt_ext_int _ _ hkeysLt (allYearsZ_pairwise _ _ _ _ _)
    intro x
    rw [(hperm.map Prod.fst).mem_iff, ← lookup_isSome_iff_mem, hK x, allYearsZ_mem]
  have hchart : payload.chartData = (sortPairsByYear fin.yearMap).map Prod.snd := by
    rw [hpay]
  refine ⟨found, hfound, hfe, ?_, ?_⟩
  · rw [hchart, List.map_map, ← hkeys, List.map_map]
    apply List.map_congr_left
    intro p hp
    have hlook : fin.yearMap.lookup p.1 = some p.2 :=
      lookup_eq_of_mem_nodup invN (hperm.subset hp)
    show p.2.lookup "year" = some (Cell.num (Rat.divInt p.1 1))
    exact invY p.1 p.2 hlook
  · intro rec hrec
    rw [hchart] at hrec
    obtain ⟨p, hp, rfl⟩ := List.mem_map.mp hrec
    have hlook : fin.yearMap.lookup p.1 = some p.2 :=
      lookup_eq_of_mem_nodup invN (hperm.subset hp)
    refine ⟨p.1, invY p.1 p.2 hlook, (hK p.1).mp (by rw [hlook]; rfl), ?_, ?_⟩
    · intro loc hloc hyloc
      obtain ⟨rec', hl', hdem, hpr⟩ := invV loc hloc p.1 hyloc
      rw [hlook] at hl'
      injection hl' with he
      constructor
      · intro hdq
        obtain ⟨z, _, hval⟩ := hdem hdq
        rw [← he] at hval
        rw [hval]
        rfl
      · intro hpq
        have hval := hpr hpq
        rw [← he] at hval
        rw [hval]
        rfl
    · intro k v hkv
      by_cases hk : k = "year"
      · exact Or.inl hk
      · rcases invW p.1 p.2 k v hlook hkv hk with ⟨rec0, h0, _⟩ | hr
        · simp [List.lookup] at h0
        · exact Or.inr hr

/-- Integrality of a frame's year column follows from a decidable
denominator check over the rows. -/
theorem YearsIntegral_of_den (df : DF) (yIdx : ℕ)
    (h : ∀ r ∈ df.rows, ((cellNum? (cellAt r yIdx)).map (fun q => q.den)).getD 1 = 1) :
    YearsIntegral df yIdx := by
  intro r hr q hq
  have h2 := h r hr
  rw [cellNum?_eq_some.mpr hq] at h2
  have hden : q.den = 1 := h2
  refine ⟨q.num, ?_⟩
  conv_lhs => rw [← Rat.num_divInt_den q]
  rw [hden]
  norm_num

/-- Lower-cased location values follow from a decidable check over the
rows. -/
theorem LocLower_of_forall (df : DF) (flIdx : ℕ)
    (h : ∀ r ∈ df.rows, (match cellAt r flIdx with
      | Cell.str s => pyLower s == s
      | _ => true) = true) :
    ∀ r ∈ df.rows, ∀ s, cellAt r flIdx = Cell.str s → pyLower s = s := by
  intro r hr s hs
  have h2 := h r hr
  rw [hs] at h2
  exact eq_of_beq h2

/-- The payload `analyze` produces for the query `"pune mumbai"` on the
cached fixture `wDF`. -/
def wPayload2 : Payload :=
  ⟨[("Pune", "Pune has shown 16.7% average change over period in prices, with demand rising over the past all years."),
    ("Mumbai", "Mumbai has shown 10.0% average change over period in prices, with demand rising over the past all years.")],
   [[("year", Cell.num (Rat.divInt 2020 1)), ("Pune", Cell.num (Rat.divInt 10 1)),
      ("Pune_price", Cell.num (Rat.divInt 1200 1))],
    [("year", Cell.num (Rat.divInt 2021 1)), ("Pune", Cell.num (Rat.divInt 12 1)),
      ("Pune_price", Cell.num (Rat.divInt 1400 1)), ("Mumbai", Cell.num (Rat.divInt 5 1)),
      ("Mumbai_price", Cell.num (Rat.divInt 2000 1))],
    [("year", Cell.num (Rat.divInt 2022 1)), ("Mumbai", Cell.num (Rat.divInt 7 1)),
      ("Mumbai_price", Cell.num (Rat.divInt 2200 1))]],
   [[("final_location", Cell.str "pune"), ("year", Cell.num (Rat.divInt 2020 1)),
      ("demand", Cell.num (Rat.divInt 10 1)), ("rate", Cell.num (Rat.divInt 1200 1))],
    [("final_location", Cell.str "pune"), ("year", Cell.num (Rat.divInt 2021 1)),
      ("demand", Cell.num (Rat.divInt 12 1)), ("rate", Cell.num (Rat.divInt 1400 1))],
    [("final_location", Cell.str "mumbai"), ("year", Cell.num (Rat.divInt 2021 1)),
      ("demand", Cell.num (Rat.divInt 5 1)), ("rate", Cell.num (Rat.divInt 2000 1))],
    [("final_location", Cell.str "mumbai"), ("year", Cell.num (Rat.divInt 2022 1)),
      ("demand", Cell.num (Rat.divInt 7 1)), ("rate", Cell.num (Rat.divInt 2200 1))]]⟩

/-- C2 witness: on `wDF` with query `"pune mumbai"`, the two locations have
years {2020, 2021} and {2021, 2022} and the chart has exactly three year
records. -/
theorem claimC2_witness :
    analyze wSt none (some "pune mumbai") = .ok (.ok wPayload2, wSt1) ∧
    wPayload2.chartData.length = 3 ∧
    (∃ found,
      collectFound (pyStrip (pyLower ((some "pune mumbai").getD "")))
        (uniqFirst (dropNA (wDF.rows.map (fun r => cellAt r 0)))) = .ok found ∧
      found.isEmpty = false ∧
      wPayload2.chartData.map (fun rec => rec.lookup "year") =
        (allYearsZ wDF 0 1 (parseLastN (pyStrip (pyLower ((some "pune mumbai").getD ""))))
          found).map (fun y => some (Cell.num (Rat.divInt y 1))) ∧
      (∀ rec ∈ wPayload2.chartData, ∃ y : ℤ,
        rec.lookup "year" = some (Cell.num (Rat.divInt y 1)) ∧
        (∃ loc ∈ found, y ∈ locYearsZ wDF 0 1
          (parseLastN (pyStrip (pyLower ((some "pune mumbai").getD "")))) loc) ∧
        (∀ loc ∈ found, y ∈ locYearsZ wDF 0 1
            (parseLastN (pyStrip (pyLower ((some "pune mumbai").getD "")))) loc →
          ((classifyQuery (pyStrip (pyLower
              ((some "pune mumbai").getD "")))).hasDemand = true →
            (rec.lookup (pyTitle loc)).isSome = true) ∧
          ((classifyQuery (pyStrip (pyLower
              ((some "pune mumbai").getD "")))).hasPrice = true →
            (rec.lookup (pyTitle loc ++ "_price")).isSome = true)) ∧
        (∀ k v, rec.lookup k = some v → k = "year" ∨
          ∃ loc ∈ found, y ∈ locYearsZ wDF 0 1
              (parseLastN (pyStrip (pyLower ((some "pune mumbai").getD "")))) loc ∧
            (((classifyQuery (pyStrip (pyLower
                  ((some "pune mumbai").getD "")))).hasDemand = true ∧
                k = pyTitle loc) ∨
              ((classifyQuery (pyStrip (pyLower
                  ((some "pune mumbai").getD "")))).hasPrice = true ∧
                k = pyTitle loc ++ "_price"))))) :=
  ⟨by decide, by decide,
   claimC2 wSt none (some "pune mumbai") wPayload2 wSt1 wDF 0 1 (by decide) rfl (by decide)
     (by decide) (YearsIntegral_of_den wDF 1 (by decide))
     (LocLower_of_forall wDF 0 (by decide))⟩

/-- C10: in every successful analyze request on a well-formed frame, the
demand number a chart record stores under a matched location's title-cased
key is `int(group["demand"].sum())`: the truncation toward zero of the
group's summed demand, so fractional demand mass is discarded. -/
theorem claimC10 (st : ServerState) (disk : Option XFile) (af : Option String)
    (payload : Payload) (st2 : ServerState) (df : DF) (flIdx yIdx dIdx : ℕ)
    (h : analyze st disk af = .ok (.ok payload, st2))
    (hdf : (load_dataframe st disk).1 = some df)
    (hfl : keyIdx df.cols "final_location" = .ok flIdx)
    (hy : keyIdx df.cols "year" = .ok yIdx)
    (hd : keyIdx df.cols "demand" = .ok dIdx)
    (hint : YearsIntegral df yIdx)
    (hlow : ∀ r ∈ df.rows, ∀ s, cellAt r flIdx = Cell.str s → pyLower s = s) :
    ∃ found,
      collectFound (pyStrip (pyLower (af.getD "")))
        (uniqFirst (dropNA (df.rows.map (fun r => cellAt r flIdx)))) = .ok found ∧
      ∀ rec ∈ payload.chartData, ∀ y : ℤ,
        rec.lookup "year" = some (Cell.num (Rat.divInt y 1)) →
        ∀ loc ∈ found, y ∈ locYearsZ df flIdx yIdx
          (parseLastN (pyStrip (pyLower (af.getD "")))) loc →
        (classifyQuery (pyStrip (pyLower (af.getD "")))).hasDemand = true →
        ∃ z : ℤ,
          chartDemandE dIdx (grpRowsA df flIdx yIdx
            (parseLastN (pyStrip (pyLower (af.getD "")))) loc y) = .ok z ∧
          rec.lookup (pyTitle loc) = some (Cell.num (Rat.divInt z 1)) ∧
          (∀ q0 : ℚ, pySumCells ((grpRowsA df flIdx yIdx
              (parseLastN (pyStrip (pyLower (af.getD "")))) loc y).map
              (fun r => cellAt r dIdx)) = .ok (Cell.num q0) → z = qTrunc q0) := by
  obtain ⟨df', flIdx', found, fin, hld, hqne, hfl', hfound, hfe, hfin, hpay⟩ :=
    analyze_ok_inv st disk af payload st2 h
  obtain rfl : df = df' := by
    rw [hld] at hdf
    have h2 : some df' = some df := hdf
    exact (Option.some.inj h2).symm
  obtain rfl : flIdx = flIdx' := by
    rw [hfl] at hfl'
    exact Except.ok.inj hfl'
  obtain ⟨hpw, hmemrow⟩ := found_props df flIdx _ found hfound hlow
  obtain ⟨invN, invY, invK, invV, invW, _, _, _⟩ :=
    processLocs_inv df flIdx yIdx dIdx (detect_price_cols df)
      (classifyQuery (pyStrip (pyLower (af.getD ""))))
      (parseLastN (pyStrip (pyLower (af.getD "")))) hy hd hint found ⟨[], [], []⟩ fin hfin
      hpw (by intro y rec hl; simp [List.lookup] at hl) (by simp)
  have hperm : (sortPairsByYear fin.yearMap).Perm fin.yearMap :=
    sortPairsByYear_perm fin.yearMap
  refine ⟨found, hfound, ?_⟩
  intro rec hrec y hyear loc hloc hyloc hdq
  rw [hpay] at hrec
  obtain ⟨p, hp, rfl⟩ := List.mem_map.mp hrec
  have hlook : fin.yearMap.lookup p.1 = some p.2 :=
    lookup_eq_of_mem_nodup invN (hperm.subset hp)
  obtain rfl : y = p.1 := by
    have hyf := invY p.1 p.2 hlook
    rw [hyear] at hyf
    have h2 : Cell.num (Rat.divInt y 1) = Cell.num (Rat.divInt p.1 1) :=
      Option.some.inj hyf
    injection h2 with h3
    exact divInt_one_inj h3
  obtain ⟨rec', hl', hdem, _⟩ := invV loc hloc p.1 hyloc
  rw [hlook] at hl'
  injection hl' with he
  obtain ⟨z, hz, hval⟩ := hdem hdq
  rw [← he] at hval
  refine ⟨z, hz, hval, ?_⟩
  intro q0 hsum
  unfold chartDemandE at hz
  rw [hsum] at hz
  have h2 : (Except.ok (qTrunc q0) : Except PyErr ℤ) = Except.ok z := hz
  exact (Except.ok.inj h2).symm

/-- C10 witness: concrete demand aggregation on `wDF`. -/
theorem claimC10_witness :
    analyze wSt none (some "pune mumbai") = .ok (.ok wPayload2, wSt1) ∧
    (∃ found,
      collectFound (pyStrip (pyLower ((some "pune mumbai").getD "")))
        (uniqFirst (dropNA (wDF.rows.map (fun r => cellAt r 0)))) = .ok found ∧
      ∀ rec ∈ wPayload2.chartData, ∀ y : ℤ,
        rec.lookup "year" = some (Cell.num (Rat.divInt y 1)) →
        ∀ loc ∈ found, y ∈ locYearsZ wDF 0 1
          (parseLastN (pyStrip (pyLower ((some "pune mumbai").getD "")))) loc →
        (classifyQuery (pyStrip (pyLower ((some "pune mumbai").getD "")))).hasDemand = true →
        ∃ z : ℤ,
          chartDemandE 3 (grpRowsA wDF 0 1
            (parseLastN (pyStrip (pyLower ((some "pune mumbai").getD "")))) loc y) = .ok z ∧
          rec.lookup (pyTitle loc) = some (Cell.num (Rat.divInt z 1)) ∧
          (∀ q0 : ℚ, pySumCells ((grpRowsA wDF 0 1
              (parseLastN (pyStrip (pyLower ((some "pune mumbai").getD "")))) loc y).map
              (fun r => cellAt r 3)) = .ok (Cell.num q0) → z = qTrunc q0)) :=
  ⟨by decide,
   claimC10 wSt none (some "pune mumbai") wPayload2 wSt1 wDF 0 1 3 (by decide) rfl
     (by decide) (by decide) (by decide) (YearsIntegral_of_den wDF 1 (by decide))
     (LocLower_of_forall wDF 0 (by decide))⟩

/-- The aggregation the C1 claim text describes: the mean over a year
group's rows of each row's mean across the price columns of its coerced
price values (mean of per-row cross-column means). -/
def meanOfRowMeans (priceIdxs : List ℕ) (group : List Row) : Option ℚ :=
  match group.filterMap (fun r => colMeanOpt (priceIdxs.map (fun i => cellAt r i))) with
  | [] => none
  | ms => some (qMean ms)

/-- C1: the amended statement — the chart price a year record stores under
`<Location>_price` is `round(.., 2)` of the mean of the PER-COLUMN means of
the group's coerced price values (pandas `.mean().mean()` on columns), not
the mean of per-row means the claim describes. -/
theorem claimC1 (st : ServerState) (disk : Option XFile) (af : Option String)
    (payload : Payload) (st2 : ServerState) (df : DF) (flIdx yIdx dIdx : ℕ)
    (h : analyze st disk af = .ok (.ok payload, st2))
    (hdf : (load_dataframe st disk).1 = some df)
    (hfl : keyIdx df.cols "final_location" = .ok flIdx)
    (hy : keyIdx df.cols "year" = .ok yIdx)
    (hd : keyIdx df.cols "demand" = .ok dIdx)
    (hint : YearsIntegral df yIdx)
    (hlow : ∀ r ∈ df.rows, ∀ s, cellAt r flIdx = Cell.str s → pyLower s = s) :
    ∃ found,
      collectFound (pyStrip (pyLower (af.getD "")))
        (uniqFirst (dropNA (df.rows.map (fun r => cellAt r flIdx)))) = .ok found ∧
      ∀ rec ∈ payload.chartData, ∀ y : ℤ,
        rec.lookup "year" = some (Cell.num (Rat.divInt y 1)) →
        ∀ loc ∈ found, y ∈ locYearsZ df flIdx yIdx
          (parseLastN (pyStrip (pyLower (af.getD "")))) loc →
        (classifyQuery (pyStrip (pyLower (af.getD "")))).hasPrice = true →
        rec.lookup (pyTitle loc ++ "_price") =
          some (roundCell (meanOfColMeans (priceIdxsOf df)
            (grpRowsA df flIdx yIdx
              (parseLastN (pyStrip (pyLower (af.getD "")))) loc y))) := by
  obtain ⟨df', flIdx', found, fin, hld, hqne, hfl', hfound, hfe, hfin, hpay⟩ :=
    analyze_ok_inv st disk af payload st2 h
  obtain rfl : df = df' := by
    rw [hld] at hdf
    have h2 : some df' = some df := hdf
    exact (Option.some.inj h2).symm
  obtain rfl : flIdx = flIdx' := by
    rw [hfl] at hfl'
    exact Except.ok.inj hfl'
  obtain ⟨hpw, hmemrow⟩ := found_props df flIdx _ found hfound hlow
  obtain ⟨invN, invY, invK, invV, invW, _, _, _⟩ :=
    processLocs_inv df flIdx yIdx dIdx (detect_price_cols df)
      (classifyQuery (pyStrip (pyLower (af.getD ""))))
      (parseLastN (pyStrip (pyLower (af.getD "")))) hy hd hint found ⟨[], [], []⟩ fin hfin
      hpw (by intro y rec hl; simp [List.lookup] at hl) (by simp)
  have hperm : (sortPairsByYear fin.yearMap).Perm fin.yearMap :=
    sortPairsByYear_perm fin.yearMap
  refine ⟨found, hfound, ?_⟩
  intro rec hrec y hyear loc hloc hyloc hpq
  rw [hpay] at hrec
  obtain ⟨p, hp, rfl⟩ := List.mem_map.mp hrec
  have hlook : fin.yearMap.lookup p.1 = some p.2 :=
    lookup_eq_of_mem_nodup invN (hperm.subset hp)
  obtain rfl : y = p.1 := by
    have hyf := invY p.1 p.2 hlook
    rw [hyear] at hyf
    have h2 : Cell.num (Rat.divInt y 1) = Cell.num (Rat.divInt p.1 1) :=
      Option.some.inj hyf
    injection h2 with h3
    exact divInt_one_inj h3
  obtain ⟨rec', hl', _, hpr⟩ := invV loc hloc p.1 hyloc
  rw [hlook] at hl'
  injection hl' with he
  have hval := hpr hpq
  rw [← he] at hval
  exact hval

/-- C1 witness: the concrete per-column mean on `wDF`. -/
theorem claimC1_witness :
    analyze wSt none (some "pune mumbai") = .ok (.ok wPayload2, wSt1) ∧
    (∃ found,
      collectFound (pyStrip (pyLower ((some "pune mumbai").getD "")))
        (uniqFirst (dropNA (wDF.rows.map (fun r => cellAt r 0)))) = .ok found ∧
      ∀ rec ∈ wPayload2.chartData, ∀ y : ℤ,
        rec.lookup "year" = some (Cell.num (Rat.divInt y 1)) →
        ∀ loc ∈ found, y ∈ locYearsZ wDF 0 1
          (parseLastN (pyStrip (pyLower ((some "pune mumbai").getD "")))) loc →
        (classifyQuery (pyStrip (pyLower ((some "pune mumbai").getD "")))).hasPrice = true →
        rec.lookup (pyTitle loc ++ "_price") =
          some (roundCell (meanOfColMeans (priceIdxsOf wDF)
            (grpRowsA wDF 0 1
              (parseLastN (pyStrip (pyLower ((some "pune mumbai").getD "")))) loc y)))) :=
  ⟨by decide,
   claimC1 wSt none (some "pune mumbai") wPayload2 wSt1 wDF 0 1 3 (by decide) rfl
     (by decide) (by decide) (by decide) (YearsIntegral_of_den wDF 1 (by decide))
     (LocLower_of_forall wDF 0 (by decide))⟩

/-- C1 counterexample frame: one location, one year, two price columns,
with a missing value making the column-wise and row-wise means differ. -/
def c1DF : DF :=
  ⟨["final_location", "year", "rate_a", "rate_b", "demand"],
   [[Cell.str "pune", Cell.num (Rat.divInt 2020 1), Cell.num (Rat.divInt 1 1),
      Cell.num (Rat.divInt 3 1), Cell.num (Rat.divInt 1 1)],
    [Cell.str "pune", Cell.num (Rat.divInt 2020 1), Cell.num (Rat.divInt 5 1),
      Cell.na, Cell.num (Rat.divInt 1 1)]]⟩

/-- The payload `analyze` produces for `"pune"` on `c1DF`. -/
def c1Payload : Payload :=
  ⟨[("Pune", "Pune has shown 200.0% average change over period in prices, with demand stable over the past all years.")],
   [[("year", Cell.num (Rat.divInt 2020 1)), ("Pune", Cell.num (Rat.divInt 2 1)),
      ("Pune_price", Cell.num (Rat.divInt 3 1))]],
   [[("final_location", Cell.str "pune"), ("year", Cell.num (Rat.divInt 2020 1)),
      ("demand", Cell.num (Rat.divInt 1 1)), ("rate_a", Cell.num (Rat.divInt 1 1)),
      ("rate_b", Cell.num (Rat.divInt 3 1))],
    [("final_location", Cell.str "pune"), ("year", Cell.num (Rat.divInt 2020 1)),
      ("demand", Cell.num (Rat.divInt 1 1)), ("rate_a", Cell.num (Rat.divInt 5 1)),
      ("rate_b", Cell.na)]]⟩

/-- C1 counterexample: on `c1DF` (rows `(1, 3)` and `(5, NaN)` in the two
price columns) the stored chart price is the mean of per-column means,
`3.0`, while the claim's mean of per-row means is `3.5`. -/
theorem claimC1_counterexample :
    analyze ⟨some c1DF, none⟩ none (some "pune") =
      .ok (.ok c1Payload, ⟨some c1DF, some (some c1DF)⟩) ∧
    (c1Payload.chartData.headD []).lookup "Pune_price" =
      some (Cell.num (Rat.divInt 3 1)) ∧
    meanOfColMeans (priceIdxsOf c1DF) (grpRowsA c1DF 0 1 none "pune" 2020) =
      some (Rat.divInt 3 1) ∧
    meanOfRowMeans (priceIdxsOf c1DF) (grpRowsA c1DF 0 1 none "pune" 2020) =
      some (Rat.divInt 7 2) ∧
    roundCell (meanOfRowMeans (priceIdxsOf c1DF) (grpRowsA c1DF 0 1 none "pune" 2020)) ≠
      Cell.num (Rat.divInt 3 1) :=
  ⟨by decide, by decide, by decide, by decide, by decide⟩

/-- The window the C6 claim describes: whenever a window `n` was extracted,
keep exactly the rows with year strictly above the location's maximum year
minus `n` (the code instead skips the filter when `n = 0`). -/
def winRowsSpec (df : DF) (flIdx yIdx : ℕ) (n : ℕ) (loc : String) : List Row :=
  match maxNum? ((locRows df flIdx loc).map (fun r => cellAt r yIdx)) with
  | some q => (locRows df flIdx loc).filter
      (fun r => cellGtZ (cellAt r yIdx) (qTrunc q - (n : ℤ)))
  | none => locRows df flIdx loc

theorem winRowsSpec_eq (df : DF) (flIdx yIdx : ℕ) (n : ℕ) (loc : String)
    (hn : ¬ n = 0) :
    winRows df flIdx yIdx (some n) loc = winRowsSpec df flIdx yIdx n loc := by
  rw [winRows_somePos_eq df flIdx yIdx n loc hn]
  rfl

theorem winRowsSpec_filter (df : DF) (flIdx yIdx : ℕ) (n : ℕ) (loc : String) (q0 : ℚ)
    (hmax : maxNum? ((locRows df flIdx loc).map (fun r => cellAt r yIdx)) = some q0) :
    winRowsSpec df flIdx yIdx n loc = (locRows df flIdx loc).filter
      (fun r => cellGtZ (cellAt r yIdx) (qTrunc q0 - (n : ℤ))) := by
  unfold winRowsSpec
  rw [hmax]

/-- With an active window, a successful per-location pass entails the
location has a numeric maximum year. -/
theorem processLoc_maxSome (df : DF) (flIdx : ℕ) (priceIdxs : List ℕ)
    (priceCols : List String) (qt : QType) (n : ℕ) (st : AnSt) (loc : String)
    (st' : AnSt) (yIdx : ℕ) (hy : keyIdx df.cols "year" = .ok yIdx)
    (h : processLoc df flIdx priceIdxs priceCols qt (some n) st loc = .ok st')
    (hn : ¬ n = 0) :
    ∃ q0, maxNum? ((locRows df flIdx loc).map (fun r => cellAt r yIdx)) = some q0 := by
  unfold processLoc at h
  obtain ⟨area1, h1, _⟩ := except_bind_ok _ _ _ h
  have h1b : (if n = 0 then
      (pure (locRows df flIdx loc) : Except PyErr (List Row))
    else
      keyIdx df.cols "year" >>= fun yIdx2 =>
      (match maxNum? ((locRows df flIdx loc).map (fun r => cellAt r yIdx2)) with
        | some q => pure (qTrunc q)
        | none => throw PyErr.typeError) >>= fun my =>
      pure ((locRows df flIdx loc).filter
        (fun r => cellGtZ (cellAt r yIdx2) (my - (n : ℤ))))) = Except.ok area1 := h1
  rw [if_neg hn] at h1b
  obtain ⟨yIdx2, hy2, h1c⟩ := except_bind_ok _ _ _ h1b
  rw [hy] at hy2
  injection hy2 with hy3
  subst hy3
  cases hmax : maxNum? ((locRows df flIdx loc).map (fun r => cellAt r yIdx)) with
  | some q => exact ⟨q, rfl⟩
  | none =>
    rw [hmax] at h1c
    have h7 : (Except.error PyErr.typeError : Except PyErr (List Row))
        = Except.ok area1 := h1c
    exact Except.noConfusion h7

theorem processLocs_maxSome (df : DF) (flIdx : ℕ) (priceIdxs : List ℕ)
    (priceCols : List String) (qt : QType) (n : ℕ) (yIdx : ℕ)
    (hy : keyIdx df.cols "year" = .ok yIdx) (hn : ¬ n = 0) :
    ∀ (locs : List String) (st fin : AnSt),
      processLocs df flIdx priceIdxs priceCols qt (some n) locs st = .ok fin →
      ∀ loc ∈ locs, ∃ q0,
        maxNum? ((locRows df flIdx loc).map (fun r => cellAt r yIdx)) = some q0 := by
  intro locs
  induction locs with
  | nil =>
    intro st fin _ loc hloc
    cases hloc
  | cons l rest ih =>
    intro st fin h loc hloc
    unfold processLocs at h
    obtain ⟨st2, hst2, hrest⟩ := except_bind_ok _ _ _ h
    rcases List.mem_cons.mp hloc with rfl | hm
    · exact processLoc_maxSome df flIdx priceIdxs priceCols qt n st loc st2 yIdx hy hst2 hn
    · exact ih st2 fin hrest loc hm

/-- C6 (amended): when a positive window `last N years` (`N ≥ 1`) is
extracted from the query, each matched location's table rows, summary input
and chart years are computed from exactly the rows whose year is strictly
greater than that location's maximum year minus `N`; for `N = 0` the window
is extracted but not applied (see the counterexample). -/
theorem claimC6 (st : ServerState) (disk : Option XFile) (af : Option String)
    (payload : Payload) (st2 : ServerState) (df : DF) (flIdx yIdx : ℕ) (n : ℕ)
    (h : analyze st disk af = .ok (.ok payload, st2))
    (hdf : (load_dataframe st disk).1 = some df)
    (hfl : keyIdx df.cols "final_location" = .ok flIdx)
    (hy : keyIdx df.cols "year" = .ok yIdx)
    (hint : YearsIntegral df yIdx)
    (hlow : ∀ r ∈ df.rows, ∀ s, cellAt r flIdx = Cell.str s → pyLower s = s)
    (hn : parseLastN (pyStrip (pyLower (af.getD ""))) = some n)
    (hn0 : ¬ n = 0) :
    ∃ found,
      collectFound (pyStrip (pyLower (af.getD "")))
        (uniqFirst (dropNA (df.rows.map (fun r => cellAt r flIdx)))) = .ok found ∧
      found.isEmpty = false ∧
      payload.tableData = (found.map (fun loc =>
        (sortRowsY yIdx (winRowsSpec df flIdx yIdx n loc)).map
          (rowRecord df.cols (tableCols
            (classifyQuery (pyStrip (pyLower (af.getD ""))))
            (detect_price_cols df))))).flatten ∧
      List.Forall₂ (fun loc p => p.1 = pyTitle loc ∧
        generate_mock_summary df.cols (priceIdxsOf df)
          (sortRowsY yIdx (winRowsSpec df flIdx yIdx n loc)) loc (some n) = .ok p.2)
        found payload.summary ∧
      (∀ loc ∈ found, locYearsZ df flIdx yIdx (some n) loc =
        (sortedYears yIdx (winRowsSpec df flIdx yIdx n loc)).map qTrunc) ∧
      (∀ loc ∈ found, ∃ q0,
        maxNum? ((locRows df flIdx loc).map (fun r => cellAt r yIdx)) = some q0 ∧
        winRowsSpec df flIdx yIdx n loc = (locRows df flIdx loc).filter
          (fun r => cellGtZ (cellAt r yIdx) (qTrunc q0 - (n : ℤ)))) := by
  obtain ⟨df', flIdx', found, fin, hld, hqne, hfl', hfound, hfe, hfin, hpay⟩ :=
    analyze_ok_inv st disk af payload st2 h
  obtain rfl : df = df' := by
    rw [hld] at hdf
    have h2 : some df' = some df := hdf
    exact (Option.some.inj h2).symm
  obtain rfl : flIdx = flIdx' := by
    rw [hfl] at hfl'
    exact Except.ok.inj hfl'
  rw [hn] at hfin
  obtain ⟨hpw, hmemrow⟩ := found_props df flIdx _ found hfound hlow
  have hfne : found ≠ [] := by
    intro he
    rw [he] at hfe
    simp at hfe
  obtain ⟨f, rest, hfr⟩ : ∃ f rest, found = f :: rest := by
    cases found with
    | nil => exact absurd rfl hfne
    | cons f rest => exact ⟨f, rest, rfl⟩
  obtain ⟨dIdx, hd⟩ : ∃ dIdx, keyIdx df.cols "demand" = .ok dIdx := by
    have hfin2 := hfin
    rw [hfr] at hfin2
    unfold processLocs at hfin2
    obtain ⟨stA, hstA, _⟩ := except_bind_ok _ _ _ hfin2
    obtain ⟨yIdx2, dIdx, _, _, _, hd2, _, _, _⟩ := processLoc_ok_inv _ _ _ _ _ _ _ _ _ hstA
    exact ⟨dIdx, hd2⟩
  obtain ⟨_, _, _, _, _, _, invT, invS⟩ :=
    processLocs_inv df flIdx yIdx dIdx (detect_price_cols df)
      (classifyQuery (pyStrip (pyLower (af.getD "")))) (some n) hy hd hint
      found ⟨[], [], []⟩ fin hfin
      hpw (by intro y rec hl; simp [List.lookup] at hl) (by simp)
  refine ⟨found, hfound, hfe, ?_, ?_, ?_, ?_⟩
  · have htbl : payload.tableData = (found.map (fun loc =>
        (sortRowsY yIdx (winRows df flIdx yIdx (some n) loc)).map
          (rowRecord df.cols (tableCols
            (classifyQuery (pyStrip (pyLower (af.getD ""))))
            (detect_price_cols df))))).flatten := by
      rw [hpay]
      exact invT
    rw [htbl]
    exact congrArg List.flatten (List.map_congr_left (fun loc _ => by
      rw [winRowsSpec_eq df flIdx yIdx n loc hn0]))
  · obtain ⟨sums, hsums, hfa⟩ := invS
    have hsum2 : payload.summary = sums := by
      rw [hpay]
      exact hsums
    rw [hsum2]
    refine hfa.imp ?_
    intro a b hab
    refine ⟨hab.1, ?_⟩
    rw [← winRowsSpec_eq df flIdx yIdx n a hn0]
    exact hab.2
  · intro loc _
    rw [← winRowsSpec_eq df flIdx yIdx n loc hn0]
    rfl
  · intro loc hloc
    obtain ⟨q0, hmax⟩ := processLocs_maxSome df flIdx (priceIdxsOf df)
      (detect_price_cols df) (classifyQuery (pyStrip (pyLower (af.getD "")))) n yIdx
      hy hn0 found ⟨[], [], []⟩ fin hfin loc hloc
    exact ⟨q0, hmax, winRowsSpec_filter df flIdx yIdx n loc q0 hmax⟩

/-- The payload `analyze` produces for `"pune last 0 years"` on `wDF`: the
window is extracted but the data is not filtered. -/
def c6Payload0 : Payload :=
  ⟨[("Pune", "Pune has shown 16.7% average change over period in prices, with demand rising over the past all years.")],
   [[("year", Cell.num (Rat.divInt 2020 1)), ("Pune", Cell.num (Rat.divInt 10 1)),
      ("Pune_price", Cell.num (Rat.divInt 1200 1))],
    [("year", Cell.num (Rat.divInt 2021 1)), ("Pune", Cell.num (Rat.divInt 12 1)),
      ("Pune_price", Cell.num (Rat.divInt 1400 1))]],
   [[("final_location", Cell.str "pune"), ("year", Cell.num (Rat.divInt 2020 1)),
      ("demand", Cell.num (Rat.divInt 10 1)), ("rate", Cell.num (Rat.divInt 1200 1))],
    [("final_location", Cell.str "pune"), ("year", Cell.num (Rat.divInt 2021 1)),
      ("demand", Cell.num (Rat.divInt 12 1)), ("rate", Cell.num (Rat.divInt 1400 1))]]⟩

/-- C6 counterexample: the query `"pune last 0 years"` extracts the window
`N = 0`; the claimed row set (year strictly above max − 0) is empty, yet
the handler uses all rows — two table rows and two chart years. -/
theorem claimC6_counterexample :
    parseLastN (pyStrip (pyLower ((some "pune last 0 years").getD ""))) = some 0 ∧
    winRowsSpec wDF 0 1 0 "pune" = [] ∧
    analyze wSt none (some "pune last 0 years") = .ok (.ok c6Payload0, wSt1) ∧
    c6Payload0.tableData.length = 2 ∧
    c6Payload0.tableData ≠ [] :=
  ⟨by decide, by decide, by decide, by decide, by decide⟩

/-- The payload `analyze` produces for `"pune last 1 years"` on `wDF`. -/
def c6Payload1 : Payload :=
  ⟨[("Pune", "Pune has shown 0.0% average change over period in prices, with demand steady over the past 1 years.")],
   [[("year", Cell.num (Rat.divInt 2021 1)), ("Pune", Cell.num (Rat.divInt 12 1)),
      ("Pune_price", Cell.num (Rat.divInt 1400 1))]],
   [[("final_location", Cell.str "pune"), ("year", Cell.num (Rat.divInt 2021 1)),
      ("demand", Cell.num (Rat.divInt 12 1)), ("rate", Cell.num (Rat.divInt 1400 1))]]⟩

/-- C6 witness: `"pune last 1 years"` on `wDF` keeps exactly the 2021 row. -/
theorem claimC6_witness :
    analyze wSt none (some "pune last 1 years") = .ok (.ok c6Payload1, wSt1) ∧
    (∃ found,
      collectFound (pyStrip (pyLower ((some "pune last 1 years").getD "")))
        (uniqFirst (dropNA (wDF.rows.map (fun r => cellAt r 0)))) = .ok found ∧
      found.isEmpty = false ∧
      c6Payload1.tableData = (found.map (fun loc =>
        (sortRowsY 1 (winRowsSpec wDF 0 1 1 loc)).map
          (rowRecord wDF.cols (tableCols
            (classifyQuery (pyStrip (pyLower ((some "pune last 1 years").getD ""))))
            (detect_price_cols wDF))))).flatten ∧
      List.Forall₂ (fun loc p => p.1 = pyTitle loc ∧
        generate_mock_summary wDF.cols (priceIdxsOf wDF)
          (sortRowsY 1 (winRowsSpec wDF 0 1 1 loc)) loc (some 1) = .ok p.2)
        found c6Payload1.summary ∧
      (∀ loc ∈ found, locYearsZ wDF 0 1 (some 1) loc =
        (sortedYears 1 (winRowsSpec wDF 0 1 1 loc)).map qTrunc) ∧
      (∀ loc ∈ found, ∃ q0,
        maxNum? ((locRows wDF 0 loc).map (fun r => cellAt r 1)) = some q0 ∧
        winRowsSpec wDF 0 1 1 loc = (locRows wDF 0 loc).filter
          (fun r => cellGtZ (cellAt r 1) (qTrunc q0 - ((1 : ℕ) : ℤ))))) :=
  ⟨by decide,
   claimC6 wSt none (some "pune last 1 years") c6Payload1 wSt1 wDF 0 1 1 (by decide) rfl
     (by decide) (by decide) (YearsIntegral_of_den wDF 1 (by decide))
     (LocLower_of_forall wDF 0 (by decide)) (by decide) (by decide)⟩

/-! ### Totality toolkit for `analyze` -/

theorem ok_bind {α β : Type} (a : α) (f : α → Except PyErr β) :
    (Except.ok a >>= f) = f a := rfl

theorem bind_ok_exists {α β : Type} {x : Except PyErr α} {a : α} (hx : x = .ok a)
    {f : α → Except PyErr β} (hf : ∃ b, f a = .ok b) : ∃ b, (x >>= f) = .ok b := by
  obtain ⟨b, hb⟩ := hf
  refine ⟨b, ?_⟩
  rw [hx]
  exact hb

theorem qListMax_some : ∀ l : List ℚ, l ≠ [] → ∃ m, qListMax l = some m := by
  intro l h
  cases l with
  | nil => exact absurd rfl h
  | cons x xs =>
    unfold qListMax
    cases h2 : qListMax xs with
    | none => exact ⟨x, rfl⟩
    | some m => exact ⟨if decide (m ≤ x) then x else m, rfl⟩

theorem qListMax_mem : ∀ (l : List ℚ) (m : ℚ), qListMax l = some m → m ∈ l := by
  intro l
  induction l with
  | nil =>
    intro m h
    simp [qListMax] at h
  | cons x xs ih =>
    intro m h
    unfold qListMax at h
    cases h2 : qListMax xs with
    | none =>
      rw [h2] at h
      injection h with h3
      rw [← h3]
      exact List.mem_cons_self x xs
    | some m2 =>
      rw [h2] at h
      injection h with h3
      by_cases hc : m2 ≤ x
      · rw [if_pos (decide_eq_true hc)] at h3
        rw [← h3]
        exact List.mem_cons_self x xs
      · rw [if_neg (by simp [hc])] at h3
        rw [← h3]
        exact List.mem_cons_of_mem x (ih m2 h2)

theorem qListMax_ge : ∀ (l : List ℚ) (m : ℚ), qListMax l = some m → ∀ x ∈ l, x ≤ m := by
  intro l
  induction l with
  | nil =>
    intro m h
    simp [qListMax] at h
  | cons x xs ih =>
    intro m h z hz
    unfold qListMax at h
    cases h2 : qListMax xs with
    | none =>
      rw [h2] at h
      injection h with h3
      have hxs : xs = [] := by
        cases hxs2 : xs with
        | nil => rfl
        | cons y ys =>
          obtain ⟨m2, hm2⟩ := qListMax_some (y :: ys) (by simp)
          rw [hxs2] at h2
          rw [hm2] at h2
          exact Option.noConfusion h2
      rw [hxs] at hz
      rcases List.mem_cons.mp hz with rfl | hz2
      · rw [← h3]
      · cases hz2
    | some m2 =>
      rw [h2] at h
      injection h with h3
      have hm2le : m2 ≤ m := by
        by_cases hc : m2 ≤ x
        · rw [if_pos (decide_eq_true hc)] at h3
          rw [← h3]
          exact hc
        · rw [if_neg (by simp [hc])] at h3
          rw [← h3]
      have hxle : x ≤ m := by
        by_cases hc : m2 ≤ x
        · rw [if_pos (decide_eq_true hc)] at h3
          rw [← h3]
        · rw [if_neg (by simp [hc])] at h3
          rw [← h3]
          exact le_of_lt (lt_of_not_le hc)
      rcases List.mem_cons.mp hz with rfl | hz2
      · exact hxle
      · exact le_trans (ih m2 h2 z hz2) hm2le

theorem numsOf_mem (cs : List Cell) (q : ℚ) : q ∈ numsOf cs ↔ Cell.num q ∈ cs := by
  unfold numsOf
  rw [List.mem_filterMap]
  constructor
  · rintro ⟨c, hc, hm⟩
    cases c with
    | num q2 =>
      have h2 : some q2 = some q := hm
      injection h2 with h3
      rw [← h3]
      exact hc
    | str s => exact absurd hm (by simp)
    | na => exact absurd hm (by simp)
  · intro h
    exact ⟨Cell.num q, h, rfl⟩

theorem divInt_one_lt_iff {a b : ℤ} : Rat.divInt a 1 < Rat.divInt b 1 ↔ a < b := by
  rw [divInt_one_eq, divInt_one_eq]
  exact Int.cast_lt

theorem isNum_exists {c : Cell} (h : c.isNum = true) : ∃ q, c = Cell.num q := by
  cases c with
  | num q => exact ⟨q, rfl⟩
  | str s => simp [Cell.isNum] at h
  | na => simp [Cell.isNum] at h

theorem pySumCells_eq (cs : List Cell) : pySumCells cs =
    (if (dropNA cs).isEmpty = true then Except.ok (Cell.num 0)
    else if (dropNA cs).all Cell.isNum = true then
      Except.ok (Cell.num (qSum (numsOf (dropNA cs))))
    else if (dropNA cs).all Cell.isStr = true then
      Except.ok (Cell.str (String.join (strsOf (dropNA cs))))
    else Except.error PyErr.typeError) := rfl

theorem pySumCells_num_ok (cs : List Cell)
    (h : ∀ c ∈ cs, c = Cell.na ∨ c.isNum = true) :
    ∃ q : ℚ, pySumCells cs = .ok (Cell.num q) := by
  rw [pySumCells_eq]
  by_cases he : (dropNA cs).isEmpty = true
  · rw [if_pos he]
    exact ⟨0, rfl⟩
  · rw [if_neg he]
    have hall : (dropNA cs).all Cell.isNum = true := by
      rw [List.all_eq_true]
      intro c hc
      have hcm := List.mem_filter.mp hc
      rcases h c hcm.1 with hna | hnum
      · rw [hna] at hcm
        simp [Cell.isNA] at hcm
      · exact hnum
    rw [if_pos hall]
    exact ⟨_, rfl⟩

theorem mapME_total {α β : Type} (f : α → Except PyErr β) :
    ∀ l : List α, (∀ a ∈ l, ∃ b, f a = .ok b) → ∃ bs, mapME f l = .ok bs := by
  intro l
  induction l with
  | nil =>
    intro _
    exact ⟨[], rfl⟩
  | cons a as ih =>
    intro h
    obtain ⟨b, hb⟩ := h a (List.mem_cons_self a as)
    obtain ⟨bs, hbs⟩ := ih (fun x hx => h x (List.mem_cons_of_mem a hx))
    refine ⟨b :: bs, ?_⟩
    unfold mapME
    rw [hb]
    simp only [ok_bind]
    rw [hbs]
    rfl

theorem collectPrices_total (rows : List Row) :
    ∀ idxs : List ℕ, ∃ ps, collectPrices rows idxs = .ok ps := by
  intro idxs
  induction idxs with
  | nil => exact ⟨[], rfl⟩
  | cons i is ih =>
    obtain ⟨parsed, hparsed⟩ := mapME_total parse_price
      (dropNA (rows.map (fun r => cellAt r i))) (fun c _ => parse_price_total c)
    obtain ⟨rest, hrest⟩ := ih
    refine ⟨parsed.reduceOption ++ rest, ?_⟩
    unfold collectPrices
    rw [hparsed]
    simp only [ok_bind]
    rw [hrest]
    rfl

theorem collectPrices_mem (rows : List Row) :
    ∀ (idxs : List ℕ) (ps : List ℚ), collectPrices rows idxs = .ok ps →
      ∀ q ∈ ps, ∃ i ∈ idxs, ∃ r ∈ rows, parse_price (cellAt r i) = .ok (some q) := by
  intro idxs
  induction idxs with
  | nil =>
    intro ps h q hq
    have h2 : (Except.ok [] : Except PyErr (List ℚ)) = .ok ps := h
    injection h2 with h3
    rw [← h3] at hq
    cases hq
  | cons i is ih =>
    intro ps h q hq
    unfold collectPrices at h
    obtain ⟨parsed, hparsed, h2⟩ := except_bind_ok _ _ _ h
    obtain ⟨rest, hrest, h3⟩ := except_bind_ok _ _ _ h2
    have h4 : Except.ok (parsed.reduceOption ++ rest) = Except.ok ps := h3
    injection h4 with h5
    rw [← h5] at hq
    rcases List.mem_append.mp hq with hq1 | hq2
    · have hsq : some q ∈ parsed := List.reduceOption_mem_iff.mp hq1
      have hfa := mapME_ok_forall₂ parse_price _ _ hparsed
      obtain ⟨c, hc, hcp⟩ := forall₂_mem_right hfa (some q) hsq
      have hc2 := (List.mem_filter.mp hc).1
      obtain ⟨r, hr, hre⟩ := List.mem_map.mp hc2
      refine ⟨i, List.mem_cons_self i is, r, hr, ?_⟩
      rw [hre]
      exact hcp
    · obtain ⟨i2, hi2, r, hr, hp⟩ := ih rest hrest q hq2
      exact ⟨i2, List.mem_cons_of_mem i hi2, r, hr, hp⟩

theorem headD_mem {α : Type} (l : List α) (d : α) (h : l ≠ []) : l.headD d ∈ l := by
  cases l with
  | nil => exact absurd rfl h
  | cons a as => exact List.mem_cons_self a as

theorem getLastD_mem {α : Type} : ∀ (l : List α) (d : α), l ≠ [] →
    (l.getLast?).getD d ∈ l := by
  intro l
  induction l with
  | nil =>
    intro d h
    exact absurd rfl h
  | cons a as ih =>
    intro d h
    cases has : as with
    | nil =>
      rw [List.getLast?_singleton]
      exact List.mem_cons_self a []
    | cons b bs =>
      rw [List.getLast?_cons_cons]
      rw [← has]
      exact List.mem_cons_of_mem a (by rw [has] at ih ⊢; exact ih d (by simp))

theorem demand_trend_total (vals : List Cell) (hv : ∀ c ∈ vals, c.isNum = true) :
    ∃ dt : String, (if vals.length > 1 then
      pyGtCell ((vals.getLast?).getD .na) (vals.headD .na) >>= fun gt =>
      (if gt then pure "rising"
      else
        pyGtCell (vals.headD .na) ((vals.getLast?).getD .na) >>= fun lt =>
        pure (if lt then "falling" else "stable"))
    else if !vals.isEmpty then pure "steady"
    else (pure "" : Except PyErr String)) = .ok dt := by
  by_cases hlen : vals.length > 1
  · rw [if_pos hlen]
    have hne : vals ≠ [] := by
      intro he
      rw [he] at hlen
      simp at hlen
    obtain ⟨a, ha⟩ := isNum_exists (hv _ (getLastD_mem vals .na hne))
    obtain ⟨b, hb⟩ := isNum_exists (hv _ (headD_mem vals .na hne))
    rw [ha, hb]
    cases hgt : decide (b < a) with
    | true =>
      refine ⟨"rising", ?_⟩
      have h1 : pyGtCell (Cell.num a) (Cell.num b) = Except.ok true := by
        show Except.ok (decide (b < a)) = Except.ok true
        rw [hgt]
      rw [h1]
      show (if true = true then (pure "rising" : Except PyErr String)
        else pyGtCell (Cell.num b) (Cell.num a) >>= fun lt =>
          pure (if lt = true then "falling" else "stable")) = _
      rw [if_pos rfl]
      rfl
    | false =>
      refine ⟨if decide (a < b) = true then "falling" else "stable", ?_⟩
      have h1 : pyGtCell (Cell.num a) (Cell.num b) = Except.ok false := by
        show Except.ok (decide (b < a)) = Except.ok false
        rw [hgt]
      rw [h1]
      show (if false = true then (pure "rising" : Except PyErr String)
        else pyGtCell (Cell.num b) (Cell.num a) >>= fun lt =>
          pure (if lt = true then "falling" else "stable")) = _
      rw [if_neg (by simp)]
      have h2 : pyGtCell (Cell.num b) (Cell.num a) = Except.ok (decide (a < b)) := rfl
      rw [h2]
      rfl
  · rw [if_neg hlen]
    by_cases hne : (!vals.isEmpty) = true
    · rw [if_pos hne]
      exact ⟨"steady", rfl⟩
    · rw [if_neg hne]
      exact ⟨"", rfl⟩

theorem price_trend_total (ps : List ℚ) (hps : ∀ q ∈ ps, 0 < q) :
    ∃ pt : String, (match ps with
      | [] => (pure "No price data available" : Except PyErr String)
      | first :: _ =>
        if first = 0 then throw PyErr.zeroDivisionError
        else pure (fmtFix1 (qMul (qDiv (qSub ((ps.getLast?).getD 0) first) first)
          (Rat.divInt 100 1)) ++ "% average change over period")) = .ok pt := by
  cases ps with
  | nil => exact ⟨_, rfl⟩
  | cons first rest =>
    have h0 : ¬ first = 0 := by
      have hpos := hps first (List.mem_cons_self first rest)
      intro he
      rw [he] at hpos
      exact lt_irrefl 0 hpos
    show ∃ pt, (if first = 0 then (throw PyErr.zeroDivisionError : Except PyErr String)
      else pure (fmtFix1 (qMul (qDiv (qSub (((first :: rest).getLast?).getD 0) first) first)
        (Rat.divInt 100 1)) ++ "% average change over period")) = .ok pt
    rw [if_neg h0]
    exact ⟨_, rfl⟩

theorem gms_total (cols : List String) (priceIdxs : List ℕ) (rows : List Row)
    (loc : String) (last_n : Option ℕ) (yIdx dIdx : ℕ)
    (hy : keyIdx cols "year" = .ok yIdx) (hd : keyIdx cols "demand" = .ok dIdx)
    (hyearnum : ∀ r ∈ rows, ∃ z : ℤ, cellAt r yIdx = Cell.num (Rat.divInt z 1))
    (hdem : ∀ r ∈ rows, cellAt r dIdx = Cell.na ∨ (cellAt r dIdx).isNum = true)
    (hpos : ∀ r ∈ rows, ∀ q : ℚ, ∀ i ∈ priceIdxs,
      parse_price (cellAt r i) = .ok (some q) → 0 < q)
    (hne : last_n = none ∨ last_n = some 0 ∨ rows ≠ []) :
    ∃ s, generate_mock_summary cols priceIdxs rows loc last_n = .ok s := by
  unfold generate_mock_summary
  apply bind_ok_exists hy
  have hwin : ∃ rows2, ((match last_n with
      | some n =>
        if n = 0 then pure (sortRowsY yIdx rows)
        else
          (match maxNum? ((sortRowsY yIdx rows).map (fun r => cellAt r yIdx)) with
            | some q => pure (qTrunc q)
            | none => throw .typeError) >>= fun my =>
          pure ((sortRowsY yIdx rows).filter
            (fun r => cellGtZ (cellAt r yIdx) (my - (n : ℤ))))
      | none => pure (sortRowsY yIdx rows)) : Except PyErr (List Row)) = .ok rows2 ∧
      ∀ r ∈ rows2, r ∈ rows := by
    cases last_n with
    | none =>
      exact ⟨sortRowsY yIdx rows, rfl,
        fun r hr => (sortRowsY_perm yIdx rows).subset hr⟩
    | some n =>
      by_cases hn0 : n = 0
      · subst hn0
        exact ⟨sortRowsY yIdx rows, rfl,
          fun r hr => (sortRowsY_perm yIdx rows).subset hr⟩
      · have hrne : rows ≠ [] := by
          rcases hne with h1 | h1 | h1
          · exact Option.noConfusion h1
          · injection h1 with h2
            exact absurd h2 hn0
          · exact h1
        have hsne : sortRowsY yIdx rows ≠ [] := by
          intro he
          apply hrne
          have hp := sortRowsY_perm yIdx rows
          rw [he] at hp
          exact hp.nil_eq.symm
        obtain ⟨r0, hr0⟩ := List.exists_mem_of_ne_nil _ hsne
        obtain ⟨z0, hz0⟩ := hyearnum r0 ((sortRowsY_perm yIdx rows).subset hr0)
        have hnum : Rat.divInt z0 1 ∈ numsOf
            ((sortRowsY yIdx rows).map (fun r => cellAt r yIdx)) := by
          rw [numsOf_mem]
          rw [← hz0]
          exact List.mem_map_of_mem _ hr0
        obtain ⟨m, hm⟩ := qListMax_some _ (List.ne_nil_of_mem hnum)
        refine ⟨(sortRowsY yIdx rows).filter
          (fun r => cellGtZ (cellAt r yIdx) (qTrunc m - (n : ℤ))), ?_, ?_⟩
        · show (if n = 0 then (pure (sortRowsY yIdx rows) : Except PyErr (List Row))
            else
              (match maxNum? ((sortRowsY yIdx rows).map (fun r => cellAt r yIdx)) with
                | some q => pure (qTrunc q)
                | none => throw .typeError) >>= fun my =>
              pure ((sortRowsY yIdx rows).filter
                (fun r => cellGtZ (cellAt r yIdx) (my - (n : ℤ))))) = _
          have hmax : maxNum? ((sortRowsY yIdx rows).map (fun r => cellAt r yIdx))
              = some m := hm
          rw [if_neg hn0, hmax]
          rfl
        · intro r hr
          exact (sortRowsY_perm yIdx rows).subset (List.mem_filter.mp hr).1
  obtain ⟨rows2, hw, hsub⟩ := hwin
  apply bind_ok_exists hw
  apply bind_ok_exists hd
  obtain ⟨ps, hps⟩ := collectPrices_total rows2 priceIdxs
  apply bind_ok_exists hps
  have hv : ∀ c ∈ dropNA (rows2.map (fun r => cellAt r dIdx)), c.isNum = true := by
    intro c hc
    have hcm := List.mem_filter.mp hc
    obtain ⟨r, hr, rfl⟩ := List.mem_map.mp hcm.1
    rcases hdem r (hsub r hr) with hna | hnum
    · rw [hna] at hcm
      simp [Cell.isNA] at hcm
    · exact hnum
  obtain ⟨dt, hdt⟩ := demand_trend_total (dropNA (rows2.map (fun r => cellAt r dIdx))) hv
  apply bind_ok_exists hdt
  have hpspos : ∀ q ∈ ps, 0 < q := by
    intro q hq
    obtain ⟨i, hi, r, hr, hp⟩ := collectPrices_mem rows2 priceIdxs ps hps q hq
    exact hpos r (hsub r hr) q i hi hp
  obtain ⟨pt, hpt⟩ := price_trend_total ps hpspos
  apply bind_ok_exists hpt
  exact ⟨_, rfl⟩

theorem winRows_nonempty (df : DF) (flIdx yIdx : ℕ) (n : ℕ) (loc : String)
    (hn : ¬ n = 0) (hloc : locRows df flIdx loc ≠ [])
    (hyearnum : ∀ r ∈ df.rows, ∃ z : ℤ, cellAt r yIdx = Cell.num (Rat.divInt z 1)) :
    winRows df flIdx yIdx (some n) loc ≠ [] := by
  rw [winRows_somePos_eq df flIdx yIdx n loc hn]
  cases hmax : maxNum? ((locRows df flIdx loc).map (fun r => cellAt r yIdx)) with
  | none =>
    exact hloc
  | some m =>
    have hm : m ∈ numsOf ((locRows df flIdx loc).map (fun r => cellAt r yIdx)) :=
      qListMax_mem _ m hmax
    rw [numsOf_mem] at hm
    obtain ⟨r0, hr0, he⟩ := List.mem_map.mp hm
    obtain ⟨zm, hzm⟩ := hyearnum r0 (locRows_subset df flIdx loc r0 hr0)
    rw [he] at hzm
    injection hzm with hzm2
    subst hzm2
    have hmem : r0 ∈ (locRows df flIdx loc).filter
        (fun r => cellGtZ (cellAt r yIdx) (qTrunc (Rat.divInt zm 1) - (n : ℤ))) := by
      rw [List.mem_filter]
      refine ⟨hr0, ?_⟩
      rw [he]
      show cellGtZ (Cell.num (Rat.divInt zm 1)) (qTrunc (Rat.divInt zm 1) - (n : ℤ)) = true
      unfold cellGtZ
      rw [qTrunc_divInt_one]
      apply decide_eq_true
      rw [divInt_one_lt_iff]
      omega
    exact List.ne_nil_of_mem hmem

theorem chartFold_total (dIdx : ℕ) (priceIdxs : List ℕ) (qt : QType) (tKey : String) :
    ∀ (gs : List (ℚ × List Row)) (ym : List (ℤ × Rec)),
      (∀ g ∈ gs, ∀ r ∈ g.2, cellAt r dIdx = Cell.na ∨ (cellAt r dIdx).isNum = true) →
      ∃ ym', chartFold dIdx priceIdxs qt tKey gs ym = .ok ym' := by
  intro gs
  induction gs with
  | nil =>
    intro ym _
    exact ⟨ym, rfl⟩
  | cons g gs ih =>
    intro ym hdem
    have hdemh : ∀ c ∈ g.2.map (fun r => cellAt r dIdx), c = Cell.na ∨ c.isNum = true := by
      intro c hc
      obtain ⟨r, hr, rfl⟩ := List.mem_map.mp hc
      exact hdem g (List.mem_cons_self g gs) r hr
    unfold chartFold
    cases hq : qt.hasDemand with
    | true =>
      obtain ⟨q, hsum⟩ := pySumCells_num_ok _ hdemh
      have hrec1 : (pySumCells (g.2.map (fun r => cellAt r dIdx)) >>= fun s =>
          pyIntOfCell s >>= fun z =>
          pure (recSet (chartRec0 ym (qTrunc g.1)) tKey (Cell.num (Rat.divInt z 1))))
          = Except.ok (recSet (chartRec0 ym (qTrunc g.1)) tKey
            (Cell.num (Rat.divInt (qTrunc q) 1))) := by
        rw [hsum]
        rfl
      apply bind_ok_exists hrec1
      exact ih _ (fun g2 hg2 r hr => hdem g2 (List.mem_cons_of_mem g hg2) r hr)
    | false =>
      have hrec1 : (pure (chartRec0 ym (qTrunc g.1)) : Except PyErr Rec)
          = Except.ok (chartRec0 ym (qTrunc g.1)) := rfl
      apply bind_ok_exists hrec1
      exact ih _ (fun g2 hg2 r hr => hdem g2 (List.mem_cons_of_mem g hg2) r hr)

theorem collectFound_total (query : String) :
    ∀ cells : List Cell, (∀ c ∈ cells, ∃ s, c = Cell.str s) →
      ∃ found, collectFound query cells = .ok found := by
  intro cells
  induction cells with
  | nil =>
    intro _
    exact ⟨[], rfl⟩
  | cons c cs ih =>
    intro h
    obtain ⟨s, rfl⟩ := h c (List.mem_cons_self c cs)
    obtain ⟨rest, hrest⟩ := ih (fun x hx => h x (List.mem_cons_of_mem _ hx))
    refine ⟨if pyIn s query || fuzzy_match_location query s then s :: rest else rest, ?_⟩
    show (collectFound query cs >>= fun rest2 =>
      pure (if pyIn s query || fuzzy_match_location query s then s :: rest2 else rest2)) = _
    rw [hrest]
    rfl

theorem sortRowsY_ne_nil (yIdx : ℕ) {l : List Row} (h : l ≠ []) :
    sortRowsY yIdx l ≠ [] := by
  intro he
  apply h
  have hp := sortRowsY_perm yIdx l
  rw [he] at hp
  exact hp.nil_eq.symm

theorem processLoc_total (df : DF) (flIdx : ℕ) (priceIdxs : List ℕ)
    (priceCols : List String) (qt : QType) (last_n : Option ℕ) (st : AnSt) (loc : String)
    (yIdx dIdx : ℕ)
    (hy : keyIdx df.cols "year" = .ok yIdx)
    (hd : keyIdx df.cols "demand" = .ok dIdx)
    (hloc : locRows df flIdx loc ≠ [])
    (hyearnum : ∀ r ∈ df.rows, ∃ z : ℤ, cellAt r yIdx = Cell.num (Rat.divInt z 1))
    (hdem : ∀ r ∈ df.rows, cellAt r dIdx = Cell.na ∨ (cellAt r dIdx).isNum = true)
    (hpos : ∀ r ∈ df.rows, ∀ q : ℚ, ∀ i ∈ priceIdxs,
      parse_price (cellAt r i) = .ok (some q) → 0 < q) :
    ∃ st', processLoc df flIdx priceIdxs priceCols qt last_n st loc = .ok st' := by
  unfold processLoc
  have hwin : ∃ area1, ((match last_n with
      | some n =>
        if n = 0 then
          pure (df.rows.filter (fun r => decide (cellAt r flIdx = Cell.str loc)))
        else
          keyIdx df.cols "year" >>= fun yIdx2 =>
          (match maxNum? ((df.rows.filter
              (fun r => decide (cellAt r flIdx = Cell.str loc))).map
              (fun r => cellAt r yIdx2)) with
            | some q => pure (qTrunc q)
            | none => throw .typeError) >>= fun my =>
          pure ((df.rows.filter (fun r => decide (cellAt r flIdx = Cell.str loc))).filter
            (fun r => cellGtZ (cellAt r yIdx2) (my - (n : ℤ))))
      | none =>
        pure (df.rows.filter (fun r => decide (cellAt r flIdx = Cell.str loc))))
      : Except PyErr (List Row)) = .ok area1 ∧
      (∀ r ∈ area1, r ∈ df.rows) ∧
      (last_n = none ∨ last_n = some 0 ∨ area1 ≠ []) := by
    cases last_n with
    | none =>
      exact ⟨df.rows.filter (fun r => decide (cellAt r flIdx = Cell.str loc)), rfl,
        locRows_subset df flIdx loc, Or.inl rfl⟩
    | some n =>
      by_cases hn0 : n = 0
      · subst hn0
        exact ⟨df.rows.filter (fun r => decide (cellAt r flIdx = Cell.str loc)), rfl,
          locRows_subset df flIdx loc, Or.inr (Or.inl rfl)⟩
      · obtain ⟨r0, hr0⟩ := List.exists_mem_of_ne_nil _ hloc
        obtain ⟨z0, hz0⟩ := hyearnum r0 (locRows_subset df flIdx loc r0 hr0)
        have hnum : Rat.divInt z0 1 ∈ numsOf
            ((locRows df flIdx loc).map (fun r => cellAt r yIdx)) := by
          rw [numsOf_mem]
          rw [← hz0]
          exact List.mem_map_of_mem _ hr0
        obtain ⟨m, hm⟩ := qListMax_some _ (List.ne_nil_of_mem hnum)
        have hmax : maxNum? ((locRows df flIdx loc).map (fun r => cellAt r yIdx))
            = some m := hm
        refine ⟨(df.rows.filter (fun r => decide (cellAt r flIdx = Cell.str loc))).filter
            (fun r => cellGtZ (cellAt r yIdx) (qTrunc m - (n : ℤ))), ?_, ?_, ?_⟩
        · show (if n = 0 then
              (pure (df.rows.filter (fun r => decide (cellAt r flIdx = Cell.str loc)))
                : Except PyErr (List Row))
            else
              keyIdx df.cols "year" >>= fun yIdx2 =>
              (match maxNum? ((df.rows.filter
                  (fun r => decide (cellAt r flIdx = Cell.str loc))).map
                  (fun r => cellAt r yIdx2)) with
                | some q => pure (qTrunc q)
                | none => throw .typeError) >>= fun my =>
              pure ((df.rows.filter
                (fun r => decide (cellAt r flIdx = Cell.str loc))).filter
                (fun r => cellGtZ (cellAt r yIdx2) (my - (n : ℤ))))) = _
          rw [if_neg hn0, hy]
          simp only [ok_bind]
          rw [show maxNum? ((df.rows.filter
              (fun r => decide (cellAt r flIdx = Cell.str loc))).map
              (fun r => cellAt r yIdx)) = some m from hmax]
          rfl
        · intro r hr
          exact locRows_subset df flIdx loc r (List.mem_filter.mp hr).1
        · refine Or.inr (Or.inr ?_)
          have hwne := winRows_nonempty df flIdx yIdx n loc hn0 hloc hyearnum
          rw [winRows_somePos_eq df flIdx yIdx n loc hn0] at hwne
          rw [hmax] at hwne
          exact hwne
  obtain ⟨area1, hw, hsub, hcond⟩ := hwin
  apply bind_ok_exists hw
  apply bind_ok_exists hy
  have hne2 : last_n = none ∨ last_n = some 0 ∨ sortRowsY yIdx area1 ≠ [] := by
    rcases hcond with h1 | h1 | h1
    · exact Or.inl h1
    · exact Or.inr (Or.inl h1)
    · exact Or.inr (Or.inr (sortRowsY_ne_nil yIdx h1))
  have hsub2 : ∀ r ∈ sortRowsY yIdx area1, r ∈ df.rows :=
    fun r hr => hsub r ((sortRowsY_perm yIdx area1).subset hr)
  obtain ⟨ms, hms⟩ := gms_total df.cols priceIdxs (sortRowsY yIdx area1) loc last_n
    yIdx dIdx hy hd
    (fun r hr => hyearnum r (hsub2 r hr))
    (fun r hr => hdem r (hsub2 r hr))
    (fun r hr q i hi hp => hpos r (hsub2 r hr) q i hi hp)
    hne2
  apply bind_ok_exists hms
  apply bind_ok_exists hd
  obtain ⟨ym, hym⟩ := chartFold_total dIdx priceIdxs qt (pyTitle loc)
    (groupsByYear yIdx (sortRowsY yIdx area1)) st.yearMap
    (by
      intro g hg r hr
      have hgm := groupsByYear_mem yIdx (sortRowsY yIdx area1) g hg
      rw [hgm.2] at hr
      exact hdem r (hsub2 r (List.mem_filter.mp hr).1))
  apply bind_ok_exists hym
  exact ⟨_, rfl⟩

theorem processLocs_total (df : DF) (flIdx : ℕ) (priceIdxs : List ℕ)
    (priceCols : List String) (qt : QType) (last_n : Option ℕ) (yIdx dIdx : ℕ)
    (hy : keyIdx df.cols "year" = .ok yIdx)
    (hd : keyIdx df.cols "demand" = .ok dIdx)
    (hyearnum : ∀ r ∈ df.rows, ∃ z : ℤ, cellAt r yIdx = Cell.num (Rat.divInt z 1))
    (hdem : ∀ r ∈ df.rows, cellAt r dIdx = Cell.na ∨ (cellAt r dIdx).isNum = true)
    (hpos : ∀ r ∈ df.rows, ∀ q : ℚ, ∀ i ∈ priceIdxs,
      parse_price (cellAt r i) = .ok (some q) → 0 < q) :
    ∀ (locs : List String) (st : AnSt),
      (∀ loc ∈ locs, locRows df flIdx loc ≠ []) →
      ∃ fin, processLocs df flIdx priceIdxs priceCols qt last_n locs st = .ok fin := by
  intro locs
  induction locs with
  | nil =>
    intro st _
    exact ⟨st, rfl⟩
  | cons loc rest ih =>
    intro st hne
    obtain ⟨st2, hst2⟩ := processLoc_total df flIdx priceIdxs priceCols qt last_n st loc
      yIdx dIdx hy hd (hne loc (List.mem_cons_self loc rest)) hyearnum hdem hpos
    unfold processLocs
    apply bind_ok_exists hst2
    exact ih st2 (fun l hl => hne l (List.mem_cons_of_mem loc hl))

/-- C3 (amended): for a cached frame whose location column holds no numeric
values, whose year column is integral-numeric, whose demand column is
numeric-or-missing and whose parsed price values are positive, every
analyze request — with any query — returns a structured response instead of
raising; without those conditions exceptions escape the handler (see the
counterexample). -/
theorem claimC3 (st : ServerState) (disk : Option XFile) (af : Option String)
    (df : DF) (flIdx yIdx dIdx : ℕ)
    (hdf : (load_dataframe st disk).1 = some df)
    (hfl : keyIdx df.cols "final_location" = .ok flIdx)
    (hy : keyIdx df.cols "year" = .ok yIdx)
    (hd : keyIdx df.cols "demand" = .ok dIdx)
    (hlocstr : ∀ r ∈ df.rows, (cellAt r flIdx).isNum = false)
    (hyearnum : ∀ r ∈ df.rows, ∃ z : ℤ, cellAt r yIdx = Cell.num (Rat.divInt z 1))
    (hdem : ∀ r ∈ df.rows, cellAt r dIdx = Cell.na ∨ (cellAt r dIdx).isNum = true)
    (hpos : ∀ r ∈ df.rows, ∀ q : ℚ, ∀ i ∈ priceIdxsOf df,
      parse_price (cellAt r i) = .ok (some q) → 0 < q) :
    ∃ out, analyze st disk af = .ok out := by
  unfold analyze
  cases hld : load_dataframe st disk with
  | mk odf st1 =>
    have hodf : odf = some df := by
      rw [hld] at hdf
      exact hdf
    subst hodf
    show ∃ out, (if pyStrip (pyLower (af.getD "")) = "" then
        (pure (AnalyzeResp.clientError "Missing query.", st1) :
          Except PyErr (AnalyzeResp × ServerState))
      else
        keyIdx df.cols "final_location" >>= fun flIdx2 =>
        collectFound (pyStrip (pyLower (af.getD "")))
          (uniqFirst (dropNA (List.map (fun r => cellAt r flIdx2) df.rows))) >>= fun found =>
        if found.isEmpty = true then
          pure (AnalyzeResp.clientError (noMatchMsg (pyStrip (pyLower (af.getD "")))), st1)
        else
          processLocs df flIdx2 (priceIdxsOf df) (detect_price_cols df)
            (classifyQuery (pyStrip (pyLower (af.getD ""))))
            (parseLastN (pyStrip (pyLower (af.getD "")))) found
            ⟨[], [], []⟩ >>= fun fin =>
          pure (AnalyzeResp.ok ⟨fin.summaries,
            (sortPairsByYear fin.yearMap).map Prod.snd, fin.table⟩, st1)) = .ok out
    by_cases hq : pyStrip (pyLower (af.getD "")) = ""
    · rw [if_pos hq]
      exact ⟨_, rfl⟩
    · rw [if_neg hq]
      apply bind_ok_exists hfl
      have hcells : ∀ c ∈ uniqFirst (dropNA (df.rows.map (fun r => cellAt r flIdx))),
          ∃ s, c = Cell.str s := by
        intro c hc
        have h2 := uniqFirstGo_mem _ _ _ hc
        have h3 := List.mem_filter.mp h2
        obtain ⟨r, hr, hre⟩ := List.mem_map.mp h3.1
        cases hcell : cellAt r flIdx with
        | na =>
          rw [← hre, hcell] at h3
          simp [Cell.isNA] at h3
        | num q =>
          have h4 := hlocstr r hr
          rw [hcell] at h4
          simp [Cell.isNum] at h4
        | str s =>
          rw [← hre, hcell]
          exact ⟨s, rfl⟩
      obtain ⟨found, hfound⟩ := collectFound_total (pyStrip (pyLower (af.getD "")))
        (uniqFirst (dropNA (df.rows.map (fun r => cellAt r flIdx)))) hcells
      apply bind_ok_exists hfound
      by_cases hfe : found.isEmpty = true
      · rw [if_pos hfe]
        exact ⟨_, rfl⟩
      · rw [if_neg hfe]
        have hlocne : ∀ loc ∈ found, locRows df flIdx loc ≠ [] := by
          intro loc hl
          have hm := collectFound_mem _ _ _ hfound loc hl
          have h2 := uniqFirstGo_mem _ _ _ hm
          have h3 := (List.mem_filter.mp h2).1
          obtain ⟨r, hr, hre⟩ := List.mem_map.mp h3
          exact List.ne_nil_of_mem
            (List.mem_filter.mpr ⟨hr, decide_eq_true hre⟩)
        obtain ⟨fin, hfin⟩ := processLocs_total df flIdx (priceIdxsOf df)
          (detect_price_cols df) (classifyQuery (pyStrip (pyLower (af.getD ""))))
          (parseLastN (pyStrip (pyLower (af.getD "")))) yIdx dIdx hy hd
          hyearnum hdem hpos found ⟨[], [], []⟩ hlocne
        apply bind_ok_exists hfin
        exact ⟨_, rfl⟩

/-- C3 counterexample frame: a matched location whose first parsed price is
zero makes the summary's percent-change divide by zero. -/
def c3DF : DF :=
  ⟨["final_location", "year", "rate", "demand"],
   [[Cell.str "pune", Cell.num (Rat.divInt 2020 1), Cell.num (Rat.divInt 0 1),
      Cell.num (Rat.divInt 5 1)]]⟩

/-- C3 counterexample: with `c3DF` cached, the query `"pune"` raises an
uncaught `ZeroDivisionError` inside `generate_mock_summary`; no structured
response is produced. -/
theorem claimC3_counterexample :
    analyze ⟨some c3DF, none⟩ none (some "pune") = .error PyErr.zeroDivisionError := by
  decide

theorem pricePos_of_check (df : DF) (idxs : List ℕ)
    (h : ∀ r ∈ df.rows, ∀ i ∈ idxs, (match parse_price (cellAt r i) with
      | .ok (some v) => decide (0 < v)
      | _ => true) = true) :
    ∀ r ∈ df.rows, ∀ q : ℚ, ∀ i ∈ idxs,
      parse_price (cellAt r i) = .ok (some q) → 0 < q := by
  intro r hr q i hi hp
  have h2 := h r hr i hi
  rw [hp] at h2
  exact of_decide_eq_true h2

theorem yearnum_of_check (df : DF) (yIdx : ℕ)
    (h : ∀ r ∈ df.rows, (match cellAt r yIdx with
      | Cell.num q => decide (q.den = 1)
      | _ => false) = true) :
    ∀ r ∈ df.rows, ∃ z : ℤ, cellAt r yIdx = Cell.num (Rat.divInt z 1) := by
  intro r hr
  have h2 := h r hr
  cases hc : cellAt r yIdx with
  | num q =>
    rw [hc] at h2
    have hden : q.den = 1 := of_decide_eq_true h2
    have hq : q = Rat.divInt q.num 1 := by
      conv_lhs => rw [← Rat.num_divInt_den q]
      rw [hden]
      norm_num
    exact ⟨q.num, congrArg Cell.num hq⟩
  | str s =>
    rw [hc] at h2
    simp at h2
  | na =>
    rw [hc] at h2
    simp at h2

/-- C3 witness: the well-formed fixture `wDF` yields a structured response
for the query `"pune"`. -/
theorem claimC3_witness :
    (load_dataframe wSt none).1 = some wDF ∧
    (∃ out, analyze wSt none (some "pune") = .ok out) :=
  ⟨rfl,
   claimC3 wSt none (some "pune") wDF 0 1 3 rfl (by decide) (by decide) (by decide)
     (by decide) (yearnum_of_check wDF 1 (by decide)) (by decide)
     (pricePos_of_check wDF (priceIdxsOf wDF) (by decide))⟩

end RealEstate
